import Mathlib

/-!
Verification development for the large-object backing store of a custom
memory allocator: a size-indexed AVL tree over mmapped chunks
(`src/avl_tree.rs`, `src/common.rs`, `src/large_allocator.rs`).

The embedding models process memory as an explicit heap: a finite
association list from node addresses (`Nat`) to `Node` records mirroring
the Rust `Node { header: AvlHeader { size, height, left, right }, data }`
layout.  Every operation of the source is transcribed statement by
statement as a heap transformer in the `Option` monad; `none` models
undefined behaviour (dereferencing an address that holds no node, an
`unwrap` of `None`, an assertion failure) or fuel exhaustion of the
pointer recursion.  Writes through a pointer that does not name a live
node (undefined behaviour in the source) are modelled as no-ops; all
code paths exercised below write only to live nodes.

External collaborators are oracles: `reqMem : Nat → Nat` stands for
`common::request_memory` (mmap) and maps a byte length to the page
address the OS returns; `stdAlloc : Layout → Nat` stands for the
`std::alloc::alloc` call used by `realloc`, with 0 as the null pointer.
-/

namespace AllocExpr

/-- Model of `core::alloc::Layout`: a size and an alignment in bytes. -/
structure Layout where
  size : Nat
  align : Nat
deriving DecidableEq, Repr

/-- Round `n` up to the next multiple of `a` (the computation
`Layout::padding_needed_for` performs for power-of-two `a`). -/
def roundUp (n a : Nat) : Nat := (n + a - 1) / a * a

/-- Model of `Layout::extend`: place `next` after `self`, padding to
`next`'s alignment; returns the combined layout and the field offset. -/
def Layout.extend (self next : Layout) : Layout × Nat :=
  let offset := roundUp self.size next.align
  (⟨offset + next.size, max self.align next.align⟩, offset)

/-- Model of `Layout::pad_to_align`: round the size up to the alignment. -/
def Layout.pad_to_align (l : Layout) : Layout :=
  ⟨roundUp l.size l.align, l.align⟩

/-- Model of `Layout::align_to`: raise the alignment to `max`; the size
is unchanged (this is documented behaviour of `Layout::align_to` and is
load-bearing for the page-rounding claim). -/
def Layout.align_to (l : Layout) (a : Nat) : Layout :=
  ⟨l.size, max l.align a⟩

/-- `common::PAGE_SIZE`. -/
def PAGE_SIZE : Nat := 4096

/-- Size in bytes of the Rust `AvlHeader { size: usize, height: i32,
left: Option NonNull, right: Option NonNull }` on a 64-bit target:
8 + 4 (+4 padding) + 8 + 8 = 32, alignment 8.  Used both by
`Layout::new::<AvlHeader>()` in `Node::new` and by the fixed back-offset
`ptr.sub(size_of::<AvlHeader>())` in `dealloc`/`realloc`. -/
def avlHeaderSize : Nat := 32

/-- `Layout::new::<AvlHeader>()`. -/
def avlHeaderLayout : Layout := ⟨avlHeaderSize, 8⟩

/-- One `Node` as laid out in memory at the start of its mapped chunk:
the `AvlHeader` fields (`size` = capacity key, `height`, `left`/`right`
child pointers) followed by the cached `data` pointer. -/
structure Node where
  size : Nat
  height : Int
  left : Option Nat
  right : Option Nat
  data : Nat
deriving DecidableEq, Repr

/-- The modelled process memory: an association list from node base
addresses to the node stored there.  Entries are never removed (chunks
are never unmapped). -/
structure Heap where
  entries : List (Nat × Node)
deriving DecidableEq, Repr

/-- Lookup in an address association list (first match wins). -/
def lookupA : List (Nat × Node) → Nat → Option Node
  | [], _ => none
  | kv :: rest, a => if kv.fst = a then some kv.snd else lookupA rest a

/-- Write to an address association list: replace the first binding of
the key, or append a fresh binding. -/
def setA : List (Nat × Node) → Nat → Node → List (Nat × Node)
  | [], a, n => [(a, n)]
  | kv :: rest, a, n => if kv.fst = a then (a, n) :: rest else kv :: setA rest a n

/-- Read the node at address `a`, if one is mapped there. -/
def Heap.get (h : Heap) (a : Nat) : Option Node := lookupA h.entries a

/-- Store node `n` at address `a`. -/
def Heap.set (h : Heap) (a : Nat) (n : Node) : Heap := ⟨setA h.entries a n⟩

/-- Assign the `left` field of the node at `a` (a single pointer store
through `(*a).header.left`); a store through a dead address is a no-op
stand-in for undefined behaviour. -/
def Heap.setLeft (h : Heap) (a : Nat) (v : Option Nat) : Heap :=
  match h.get a with
  | some n => h.set a { n with left := v }
  | none => h

/-- Assign the `right` field of the node at `a`. -/
def Heap.setRight (h : Heap) (a : Nat) (v : Option Nat) : Heap :=
  match h.get a with
  | some n => h.set a { n with right := v }
  | none => h

/-- Assign the `height` field of the node at `a`. -/
def Heap.setHeight (h : Heap) (a : Nat) (v : Int) : Heap :=
  match h.get a with
  | some n => h.set a { n with height := v }
  | none => h

/-- `Node::height(node: NodePtr)`: 0 for an absent subtree, else the
stored height of the child (reading a dangling child pointer is UB). -/
def heightOf (h : Heap) : Option Nat → Option Int
  | none => some 0
  | some a => (h.get a).map (·.height)

/-- `Node::update_height`: `height = max(height(left), height(right)) + 1`. -/
def update_height (h : Heap) (a : Nat) : Option Heap := do
  let n ← h.get a
  let hl ← heightOf h n.left
  let hr ← heightOf h n.right
  some (h.setHeight a (max hl hr + 1))

/-- `Node::balance_factor`: `height(left) - height(right)`. -/
def balance_factor (h : Heap) (a : Nat) : Option Int := do
  let n ← h.get a
  let hl ← heightOf h n.left
  let hr ← heightOf h n.right
  some (hl - hr)

/-- `Node::rotate_right`, transcribed store by store including the two
`take()`s, returning the promoted left child. -/
def rotate_right (h : Heap) (a : Nat) : Option (Nat × Heap) := do
  let n ← h.get a
  let l ← n.left
  let h := h.setLeft a none
  let ln ← h.get l
  let lr := ln.right
  let h := h.setRight l none
  let h := h.setLeft a lr
  let h ← update_height h a
  let h := h.setRight l (some a)
  let h ← update_height h l
  some (l, h)

/-- `Node::rotate_left`, the mirror image. -/
def rotate_left (h : Heap) (a : Nat) : Option (Nat × Heap) := do
  let n ← h.get a
  let r ← n.right
  let h := h.setRight a none
  let rn ← h.get r
  let rl := rn.left
  let h := h.setLeft r none
  let h := h.setRight a rl
  let h ← update_height h a
  let h := h.setLeft r (some a)
  let h ← update_height h r
  some (r, h)

/-- `Node::rebalance`: recompute the height, then correct a balance
factor outside `[-1, 1]` with the appropriate single or double
rotation.  Returns the new subtree root; note that the caller in
`remove_node` discards this return value. -/
def rebalance (h : Heap) (a : Nat) : Option (Nat × Heap) := do
  let h ← update_height h a
  let bal ← balance_factor h a
  if bal > 1 then
    let n ← h.get a
    let cond ← match n.left with
      | none => some false
      | some l => do
          let b ← balance_factor h l
          some (decide (b < 0))
    let h ← if cond then do
        let n2 ← h.get a
        let l ← n2.left
        let (nl, h) ← rotate_left h l
        some (h.setLeft a (some nl))
      else some h
    rotate_right h a
  else if bal < -1 then
    let n ← h.get a
    let cond ← match n.right with
      | none => some false
      | some r => do
          let b ← balance_factor h r
          some (decide (b > 0))
    let h ← if cond then do
        let n2 ← h.get a
        let r ← n2.right
        let (nr, h) ← rotate_right h r
        some (h.setRight a (some nr))
      else some h
    rotate_left h a
  else
    some (a, h)

/-- `Node::get_min`: walk `left` pointers from `node`, tracking the
immediate parent; fuelled because the heap may contain cycles. -/
def get_min (h : Heap) : Nat → Nat → Nat → Option (Nat × Nat)
  | 0, _, _ => none
  | fuel + 1, node, parent => do
    let n ← h.get node
    match n.left with
    | none => some (node, parent)
    | some l => get_min h fuel l node

/-- `DeleteAction`: whether `delete_node` finished the removal or
relocated the target so the caller must search and delete again. -/
inductive DeleteAction where
  | NoAction : DeleteAction
  | SearchDelete : DeleteAction
deriving DecidableEq, Repr

/-- `SearchDirection`: the tag carried instead of a parent pointer. -/
inductive SearchDirection where
  | left : Nat → SearchDirection
  | right : Nat → SearchDirection
  | root : SearchDirection
deriving DecidableEq, Repr

/-- The `AVLTree` public state together with the modelled process
memory the raw pointers point into. -/
structure AVLState where
  heap : Heap
  root : Option Nat
deriving DecidableEq, Repr

/-- `Node::swap_header_details`: exchange the `left`, `right` and
`height` fields of the two headers; `size` and `data` stay put. -/
def swapHdr (h : Heap) (a b : Nat) : Option Heap := do
  let na ← h.get a
  let nb ← h.get b
  let h := h.set a { na with left := nb.left, right := nb.right, height := nb.height }
  some (h.set b { nb with left := na.left, right := na.right, height := na.height })

/-- `AVLTree::swap_nodes`: swap header details, repoint the parent at
the successor, then either clear the transient self-loop (`NoAction`)
or repoint the successor's former parent at the target
(`SearchDelete`). -/
def swap_nodes (st : AVLState) (target successor successor_parent : Nat)
    (parent : SearchDirection) : Option (DeleteAction × AVLState) := do
  let h ← swapHdr st.heap target successor
  let st : AVLState :=
    match parent with
    | .left p => ⟨h.setLeft p (some successor), st.root⟩
    | .right p => ⟨h.setRight p (some successor), st.root⟩
    | .root => ⟨h, some successor⟩
  if successor_parent = target then
    let sn ← st.heap.get successor
    let h2 :=
      if sn.right = some successor then st.heap.setRight successor none
      else st.heap.setLeft successor none
    some (.NoAction, ⟨h2, st.root⟩)
  else
    let sp ← st.heap.get successor_parent
    let h1 :=
      if sp.right = some successor then st.heap.setRight successor_parent (some target)
      else st.heap
    let sp1 ← h1.get successor_parent
    let h2 :=
      if sp1.left = some successor then h1.setLeft successor_parent (some target)
      else h1
    some (.SearchDelete, ⟨h2, st.root⟩)

/-- `AVLTree::delete_node`: leaf, two-children (swap with the in-order
successor found by `get_min`) and single-child cases. -/
def delete_node (fuel : Nat) (st : AVLState) (root_node : Nat)
    (parent : SearchDirection) : Option (DeleteAction × AVLState) := do
  let n ← st.heap.get root_node
  if n.left = none ∧ n.right = none then
    let st : AVLState :=
      match parent with
      | .left p => ⟨st.heap.setLeft p none, st.root⟩
      | .right p => ⟨st.heap.setRight p none, st.root⟩
      | .root => ⟨st.heap, none⟩
    some (.NoAction, st)
  else if n.left.isSome ∧ n.right.isSome then
    let right_child ← n.right
    let (succ, succ_parent) ← get_min st.heap fuel right_child root_node
    swap_nodes st root_node succ succ_parent parent
  else
    let successor ← match n.left with
      | some l => some l
      | none => n.right
    swap_nodes st root_node successor root_node parent

/-- `AVLTree::remove_node`: the best-fit (lower bound) search that also
deletes an exact match.  Mirrors the source exactly: only the `Equal`
arm calls `delete_node`; the `Less`-with-no-left-child arm returns the
candidate without unlinking it; the result of the trailing
`Node::rebalance(&mut root_node)` is discarded. -/
def remove_node : Nat → AVLState → Nat → Nat → SearchDirection →
    Option (Option Nat × AVLState)
  | 0, _, _, _, _ => none
  | fuel + 1, st, root_node, size, parent => do
    let n ← st.heap.get root_node
    if size < n.size then
      match n.left with
      | some node => do
          let (result, st) ← remove_node fuel st node size (.left root_node)
          let (_, h) ← rebalance st.heap root_node
          some (result, ⟨h, st.root⟩)
      | none => do
          let (_, h) ← rebalance st.heap root_node
          some (some root_node, ⟨h, st.root⟩)
    else if n.size < size then
      match n.right with
      | some node => do
          let (result, st) ← remove_node fuel st node size (.right root_node)
          let (_, h) ← rebalance st.heap root_node
          some (result, ⟨h, st.root⟩)
      | none => do
          let (_, h) ← rebalance st.heap root_node
          some (none, ⟨h, st.root⟩)
    else do
      let right_child := n.right
      let (action, st) ← delete_node (fuel + 1) st root_node parent
      match action with
      | .SearchDelete => do
          let rc ← right_child
          let (_, st) ← remove_node fuel st rc size parent
          let root2 ← match parent with
            | .left p => some p
            | .right p => some p
            | .root => st.root
          let (_, h) ← rebalance st.heap root2
          some (some root_node, ⟨h, st.root⟩)
      | .NoAction => do
          let (_, h) ← rebalance st.heap root_node
          some (some root_node, ⟨h, st.root⟩)

/-- `AVLTree::remove`: start the best-fit removal at the root. -/
def remove (fuel : Nat) (st : AVLState) (value : Nat) :
    Option (Option Nat × AVLState) :=
  match st.root with
  | some node => remove_node fuel st node value .root
  | none => some (none, st)

/-- `AVLTree::reinsert_node`: recursive BST insert keyed on `size`;
equal sizes return the existing node without linking the new one, and
each frame relinks its child to the `rebalance` result. -/
def reinsert_node : Nat → AVLState → Option Nat → Nat → Option (Nat × AVLState)
  | _, st, none, value => some (value, st)
  | 0, _, some _, _ => none
  | fuel + 1, st, some ptr, value => do
    let nref ← st.heap.get ptr
    let vref ← st.heap.get value
    if vref.size < nref.size then
      let (res, st) ← reinsert_node fuel st nref.left value
      let h := st.heap.setLeft ptr (some res)
      let (r, h) ← rebalance h ptr
      some (r, ⟨h, st.root⟩)
    else if nref.size < vref.size then
      let (res, st) ← reinsert_node fuel st nref.right value
      let h := st.heap.setRight ptr (some res)
      let (r, h) ← rebalance h ptr
      some (r, ⟨h, st.root⟩)
    else
      some (ptr, st)

/-- `AVLTree::insert_node`. -/
def insert_node (fuel : Nat) (st : AVLState) (value : Nat) : Option AVLState := do
  let (root, st) ← reinsert_node fuel st st.root value
  some ⟨st.heap, some root⟩

/-- The byte length `Node::new` passes to `request_memory`:
`Layout::new::<AvlHeader>().extend(layout)`, then `pad_to_align()`,
then `align_to(PAGE_SIZE)` — the last step changes only the alignment,
so the size is the header-plus-data layout padded to the DATA
alignment, not to a page multiple. -/
def mmapRequestLen (layout : Layout) : Nat :=
  (((avlHeaderLayout.extend layout).1.pad_to_align).align_to PAGE_SIZE).size

/-- `Node::new`: compute the combined layout, obtain memory from the
oracle, and write a fresh header (capacity = mapped size minus header
size, height 1, no children, `data` at the extend offset).  Returns the
node's base address. -/
def Node.new (reqMem : Nat → Nat) (layout : Layout) (h : Heap) : Nat × Heap :=
  let offset := (avlHeaderLayout.extend layout).2
  let len := mmapRequestLen layout
  let address := reqMem len
  let node : Node :=
    { size := len - avlHeaderSize
      height := 1
      left := none
      right := none
      data := address + offset }
  (address, h.set address node)

/-- `LargeAllocator::alloc` for `AVLTree`: best-fit removal, or a fresh
node on a miss; returns the node's stored `data` pointer. -/
def alloc (reqMem : Nat → Nat) (fuel : Nat) (st : AVLState) (layout : Layout) :
    Option (Nat × AVLState) := do
  let (res, st) ← remove fuel st layout.size
  match res with
  | none =>
      let (node, h) := Node.new reqMem layout st.heap
      let n ← h.get node
      some (n.data, ⟨h, st.root⟩)
  | some node => do
      let n ← st.heap.get node
      some (n.data, st)

/-- `LargeAllocator::dealloc` for `AVLTree`.  After the null assertion
it computes `address = ptr - size_of::<AvlHeader>()` and then executes
`let node: NonNull<Node> = *address.cast();` — this DEREFERENCES
`address` and reads the first word stored there as the node pointer.
Under the compiled layout of `Node`/`AvlHeader` (the `size: usize`
field sits at offset 0; any field order gives some header field, never
the address itself) that word is the header's `size` field.  The model
therefore recovers the node at `address` and then treats its `size`
value as the pointer that gets inserted. -/
def dealloc (fuel : Nat) (st : AVLState) (p : Nat) : Option AVLState := do
  if p = 0 then none
  else
    let address := p - avlHeaderSize
    let hdr ← st.heap.get address
    let node := hdr.size
    insert_node fuel st node

/-- `LargeAllocator::realloc` for `AVLTree`: recovers the node the same
(broken) way `dealloc` does, returns `ptr` unchanged when the capacity
already covers `new_size`, otherwise obtains a replacement region from
the global allocator oracle (0 = null = failure, surfaced as 0 with the
state untouched), copies, and releases the old pointer via `dealloc`.
The payload byte copy is outside the model (payload bytes are not
tracked). -/
def realloc (stdAlloc : Layout → Nat) (fuel : Nat) (st : AVLState) (p : Nat)
    (layout : Layout) (new_size : Nat) : Option (Nat × AVLState) := do
  if p = 0 then none
  else
    let address := p - avlHeaderSize
    let hdr ← st.heap.get address
    let node := hdr.size
    let nref ← st.heap.get node
    if new_size ≤ nref.size then some (p, st)
    else
      let new_ptr := stdAlloc ⟨new_size, layout.align⟩
      if new_ptr = 0 then some (0, st)
      else do
        let st ← dealloc fuel st p
        some (new_ptr, st)

/-! ## Observation layer: extracting the reachable tree from the heap -/

/-- The tree of nodes reachable from a root pointer, with each node's
address and stored record.  Extraction (below) succeeds only when the
reachable structure is finite and every reachable pointer is live. -/
inductive Tree where
  | leaf : Tree
  | node : Nat → Node → Tree → Tree → Tree
deriving DecidableEq, Repr

/-- Read the reachable tree out of the heap, fuelled against cycles. -/
def extract (h : Heap) : Nat → Option Nat → Option Tree
  | _, none => some .leaf
  | 0, some _ => none
  | fuel + 1, some a => do
      let n ← h.get a
      let l ← extract h fuel n.left
      let r ← extract h fuel n.right
      some (.node a n l r)

/-- Actual height of an extracted subtree (1 for a lone leaf node). -/
def Tree.ht : Tree → Int
  | .leaf => 0
  | .node _ _ l r => max l.ht r.ht + 1

/-- Every stored height equals `max(height(left), height(right)) + 1`. -/
def Tree.heightsOK : Tree → Bool
  | .leaf => true
  | .node _ n l r => (n.height == max l.ht r.ht + 1) && l.heightsOK && r.heightsOK

/-- AVL balance: every node has `|height(left) - height(right)| <= 1`. -/
def Tree.balancedOK : Tree → Bool
  | .leaf => true
  | .node _ _ l r => ((l.ht - r.ht).natAbs ≤ 1 : Bool) && l.balancedOK && r.balancedOK

/-- All capacities in the tree are strictly below `k`. -/
def Tree.allLt (k : Nat) : Tree → Bool
  | .leaf => true
  | .node _ n l r => (n.size < k : Bool) && l.allLt k && r.allLt k

/-- All capacities in the tree are strictly above `k`. -/
def Tree.allGt (k : Nat) : Tree → Bool
  | .leaf => true
  | .node _ n l r => (k < n.size : Bool) && l.allGt k && r.allGt k

/-- BST ordering on capacities: left strictly below, right strictly
above, recursively. -/
def Tree.bstOK : Tree → Bool
  | .leaf => true
  | .node _ n l r => l.allLt n.size && r.allGt n.size && l.bstOK && r.bstOK

/-- Some reachable node has capacity `s`. -/
def Tree.hasSize (s : Nat) : Tree → Bool
  | .leaf => false
  | .node _ n l r => (n.size = s : Bool) || l.hasSize s || r.hasSize s

/-- Addresses of all nodes in an extracted tree. -/
def Tree.addrs : Tree → List Nat
  | .leaf => []
  | .node a _ l r => a :: (l.addrs ++ r.addrs)

/-- No node of the extracted tree stores a child reference equal to
its own address. -/
def Tree.selfLoopFree : Tree → Bool
  | .leaf => true
  | .node a n l r =>
      (n.left ≠ some a : Bool) && (n.right ≠ some a : Bool)
        && l.selfLoopFree && r.selfLoopFree

/-- The identity part of a node: the fields (`size`, `data`) that name
its backing memory and must never move during structural operations. -/
def idF (n : Node) : Nat × Nat := (n.size, n.data)

/-- Heap evolution that preserves every node's identity fields: the
address domain is unchanged and no `size` or `data` field moves. -/
def Frame (h h' : Heap) : Prop :=
  ∀ a, (h'.get a).map idF = (h.get a).map idF

/-- The pointer round-trip invariant of the spec: every live node's
`data` pointer sits exactly one header past its own base address. -/
def WFrt (h : Heap) : Prop :=
  ∀ a n, h.get a = some n → n.data = a + avlHeaderSize

/-- Local well-formedness to depth `d` below a pointer: every node
present within `d` levels is live in the heap with stored height at
least 1 (any accurate-height tree satisfies this). -/
def wfDepth (h : Heap) : Nat → Option Nat → Bool
  | _, none => true
  | 0, some _ => true
  | d + 1, some a =>
    match h.get a with
    | none => false
    | some n => (1 ≤ n.height : Bool) && wfDepth h d n.left && wfDepth h d n.right

/-- The node whose subtree the removal invariant is stated about: the
parent carried by the `SearchDirection` tag, or the node itself at the
root. -/
def anchorOf (par : SearchDirection) (a : Nat) : Nat :=
  match par with
  | .root => a
  | .left p => p
  | .right p => p

/-- The `SearchDirection` tag is truthful: the tagged parent is live
and its named child slot holds the current node (at the root, the tree
root points at the current node). -/
def parOK (st : AVLState) (par : SearchDirection) (a : Nat) : Prop :=
  match par with
  | .root => st.root = some a
  | .left p => ∃ pn, st.heap.get p = some pn ∧ pn.left = some a
  | .right p => ∃ pn, st.heap.get p = some pn ∧ pn.right = some a

/-- The shape `swap_nodes` leaves at the relocated target: a node of
the searched capacity with no left child (it took over the in-order
successor's header, and the successor was leftmost). -/
def Tree.isTarget (size : Nat) : Tree → Bool
  | .node _ lv .leaf _ => decide (lv.size = size) && decide (lv.left = none)
  | _ => false

/-- The left-spine shape of the subtree the `SearchDelete` re-descent
runs on: every spine node's capacity exceeds the searched one, and the
spine ends at the relocated target. -/
def Tree.minSpine (size : Nat) : Tree → Bool
  | .leaf => false
  | .node _ n l _ =>
      decide (size < n.size) && (l.isTarget size || l.minSpine size)

/-! ## Concrete states used to evaluate the code on failing inputs -/

/-- A valid AVL index holding capacities 10 (root, address 1000) and
5 (left child, address 2000). -/
def exA : AVLState :=
  ⟨⟨[(1000, ⟨10, 2, some 2000, none, 1032⟩), (2000, ⟨5, 1, none, none, 2032⟩)]⟩, some 1000⟩

/-- A valid AVL index holding the single capacity 10 at address 1000. -/
def exB : AVLState := ⟨⟨[(1000, ⟨10, 1, none, none, 1032⟩)]⟩, some 1000⟩

/-- A valid AVL index holding capacities 20 (root, address 100),
10 (address 200), 30 (address 300) and 40 (address 400). -/
def exC : AVLState :=
  ⟨⟨[(100, ⟨20, 3, some 200, some 300, 132⟩), (200, ⟨10, 1, none, none, 232⟩),
     (300, ⟨30, 2, none, some 400, 332⟩), (400, ⟨40, 1, none, none, 432⟩)]⟩, some 100⟩

/-- The state the model computes for `exC` after `remove(20)`: the
successor node 30 (address 300) is the new root wearing the target's
stale height 3, and the capacity-40 chunk (address 400) is reachable
only from the unlinked target node at address 100. -/
def exCafter : AVLState :=
  ⟨⟨[(100, ⟨20, 2, none, some 400, 132⟩), (200, ⟨10, 1, none, none, 232⟩),
     (300, ⟨30, 3, some 200, none, 332⟩), (400, ⟨40, 1, none, none, 432⟩)]⟩, some 300⟩

/-- The empty index over empty process memory. -/
def st0 : AVLState := ⟨⟨[]⟩, none⟩

/-- A page-allocator oracle that maps every request at address 4096. -/
def mmap4096 : Nat → Nat := fun _ => 4096

/-- State after `alloc` of a 64-byte, 8-aligned layout on the empty
index: one node at base 4096, capacity 64, data pointer 4128, not in
the tree (it is owned by the caller). -/
def stAfterAlloc : AVLState := ⟨⟨[(4096, ⟨64, 1, none, none, 4128⟩)]⟩, none⟩

/-- State the model computes for `dealloc(4128)` on `stAfterAlloc`:
the root is the dangling pointer 64 (the header's `size` field read as
a node pointer), while the real node at 4096 is lost. -/
def stAfterDealloc : AVLState := ⟨⟨[(4096, ⟨64, 1, none, none, 4128⟩)]⟩, some 64⟩

/-- State after `alloc` of a 1-byte layout with 64-byte alignment on
the empty index: the header sits at 4096 but the data pointer is
4096 + 64 = 4160, because `Layout::extend` pads the 32-byte header up
to the 64-byte data alignment. -/
def stMisaligned : AVLState := ⟨⟨[(4096, ⟨96, 1, none, none, 4160⟩)]⟩, none⟩

/-- A one-node index (capacity 10 at address 1000) whose heap also
holds a second, not-yet-linked node of the same capacity 10 at
address 2000 — the incoming node for the equal-capacity insert. -/
def stDup : AVLState :=
  ⟨⟨[(1000, ⟨10, 1, none, none, 1032⟩), (2000, ⟨10, 1, none, none, 2032⟩)]⟩, some 1000⟩

/-- A two-node heap (capacity-50 node at address 10 with a capacity-30
left child at address 20) whose stored heights are accurate; used to
witness totality of `rebalance`. -/
def hW : Heap := ⟨[(10, ⟨50, 2, some 20, none, 42⟩), (20, ⟨30, 1, none, none, 52⟩)]⟩

/-! ## Theorems -/

/-- C1 (code_bug).  Best-fit correctness fails on both sides.  On the
valid two-node index `exA` = {10, 5}, `remove(7)` returns absent even
though the capacity-10 node satisfies 7 ≤ 10, because the `Less` arm
only uses the current candidate when it has no left child and never
falls back to it when the left-subtree search misses.  On the valid
one-node index `exB` = {10}, `remove(7)` returns the capacity-10 node
but leaves it fully reachable (still the root), because only the
`Equal` arm of `remove_node` ever calls `delete_node`. -/
theorem C1_best_fit_remove_bug :
    (extract exA.heap 10 exA.root).map
      (fun t => t.bstOK && t.heightsOK && t.balancedOK) = some true ∧
    exA.heap.get 1000 = some ⟨10, 2, some 2000, none, 1032⟩ ∧ 7 ≤ 10 ∧
    remove 10 exA 7 = some (none, exA) ∧
    (extract exB.heap 10 exB.root).map
      (fun t => t.bstOK && t.heightsOK && t.balancedOK) = some true ∧
    remove 10 exB 7 = some (some 1000, exB) ∧ exB.root = some 1000 := by
  decide

/-- C2 counterexample.  With layout (size 1, align 64) on the empty
index, `alloc` returns p = 4160 while the owning header lives at 4096:
`p - header_size = 4128` is not the header address (no node lives
there), because `Node::new` places `data` at offset
`roundUp(32, align) = 64` while `dealloc`/`realloc` subtract the fixed
32.  So the claim fails for alignments above the header size. -/
theorem C2_round_trip_counterexample :
    alloc mmap4096 10 st0 ⟨1, 64⟩ = some (4160, stMisaligned) ∧
    stMisaligned.heap.get 4096 = some ⟨96, 1, none, none, 4160⟩ ∧
    4160 - avlHeaderSize ≠ 4096 ∧
    stMisaligned.heap.get (4160 - avlHeaderSize) = none := by
  decide

/-- C3 (code_bug).  On the valid AVL index `exC` = {20, 10, 30, 40}
(20 at the root with children 10 and 30, 40 right of 30), the exact
removal of capacity 20 completes and returns the node, but afterward
the reachable root is the successor node 30 still wearing the target's
swapped-in stored height 3, while its actual children give
max(1, 0) + 1 = 2: the height equation of the claim is violated after
a completed public operation (and the capacity-40 node has silently
become unreachable). -/
theorem C3_delete_breaks_height_invariant :
    (extract exC.heap 10 exC.root).map
      (fun t => t.bstOK && t.heightsOK && t.balancedOK) = some true ∧
    remove 10 exC 20 = some (some 100, exCafter) ∧
    exCafter.root = some 300 ∧
    exCafter.heap.get 300 = some ⟨30, 3, some 200, none, 332⟩ ∧
    (extract exCafter.heap 10 exCafter.root).map Tree.heightsOK = some false := by
  decide

/-- C4 (code_bug).  For a 64-byte, 8-aligned request the combined
header-plus-data layout is 96 bytes; `pad_to_align` keeps it at 96 and
`align_to(PAGE_SIZE)` changes only the alignment, so `request_memory`
is called with 96 bytes — not a whole number of pages — and the node's
capacity becomes 96 − 32 = 64, not the page-quantized 4096 − 32 the
claim (and the spec's own scenario) requires. -/
theorem C4_no_page_rounding :
    mmapRequestLen ⟨64, 8⟩ = 96 ∧
    ¬ PAGE_SIZE ∣ mmapRequestLen ⟨64, 8⟩ ∧
    alloc mmap4096 10 st0 ⟨64, 8⟩ = some (4128, stAfterAlloc) ∧
    stAfterAlloc.heap.get 4096 = some ⟨64, 1, none, none, 4128⟩ ∧
    (64 : Nat) ≠ PAGE_SIZE - avlHeaderSize := by
  decide

/-- C5 (code_bug).  `alloc(64)` on the empty index returns p = 4128
backed by the node at 4096 with capacity 64.  `dealloc(p)` executes
`*address.cast()`, reading the header's `size` field (64) as the node
pointer, and inserts the dangling address 64 as the tree root: the
freed chunk never re-enters the index, and the following `alloc(64)`
(64 ≤ capacity) dereferences the dangling root — undefined behaviour
(`none` in the model) instead of returning the same pointer with no
new mapping. -/
theorem C5_dealloc_inserts_capacity_as_pointer :
    alloc mmap4096 10 st0 ⟨64, 8⟩ = some (4128, stAfterAlloc) ∧
    dealloc 10 stAfterAlloc 4128 = some stAfterDealloc ∧
    stAfterDealloc.root = some 64 ∧
    stAfterDealloc.heap.get 64 = none ∧
    64 ≤ 64 ∧
    alloc mmap4096 10 stAfterDealloc ⟨64, 8⟩ = none := by
  decide

/-- C8 (code_bug).  For the pointer p = 4128 owning the capacity-64
node at 4096 and `new_size` = 32 ≤ 64, the claim requires `realloc` to
return p unchanged.  The code instead recovers the node with the same
`*address.cast()` read as `dealloc`, obtaining the dangling pointer 64,
and dereferences it for the capacity comparison — undefined behaviour
(`none` in the model) before any path of the claim can be taken. -/
theorem C8_realloc_reads_size_as_pointer :
    alloc mmap4096 10 st0 ⟨64, 8⟩ = some (4128, stAfterAlloc) ∧
    stAfterAlloc.heap.get (4128 - avlHeaderSize) = some ⟨64, 1, none, none, 4128⟩ ∧
    32 ≤ 64 ∧
    realloc (fun _ => 0) 10 stAfterAlloc 4128 ⟨64, 8⟩ 32 = none := by
  decide

/-! ## Heap access lemmas -/

theorem lookupA_setA_self (l : List (Nat × Node)) (a : Nat) (n : Node) :
    lookupA (setA l a n) a = some n := by
  induction l with
  | nil => simp [setA, lookupA]
  | cons kv rest ih =>
      by_cases hk : kv.fst = a
      · simp [setA, hk, lookupA]
      · simp [setA, hk, lookupA, ih]

theorem lookupA_setA_ne (l : List (Nat × Node)) (a b : Nat) (n : Node) (hne : b ≠ a) :
    lookupA (setA l a n) b = lookupA l b := by
  induction l with
  | nil => simp [setA, lookupA, Ne.symm hne]
  | cons kv rest ih =>
      by_cases hk : kv.fst = a
      · simp [setA, hk, lookupA, Ne.symm hne, ih]
      · simp [setA, hk, lookupA, ih]

theorem setA_same (l : List (Nat × Node)) (a : Nat) (n : Node)
    (hl : lookupA l a = some n) : setA l a n = l := by
  induction l with
  | nil => simp [lookupA] at hl
  | cons kv rest ih =>
      rcases kv with ⟨k, v⟩
      by_cases hk : k = a
      · simp [lookupA, hk] at hl
        simp [setA, hk, hl]
      · simp [lookupA, hk] at hl
        simp [setA, hk, ih hl]

theorem Heap.get_set_self (h : Heap) (a : Nat) (n : Node) :
    (h.set a n).get a = some n :=
  lookupA_setA_self h.entries a n

theorem Heap.get_set_ne (h : Heap) (a b : Nat) (n : Node) (hne : b ≠ a) :
    (h.set a n).get b = h.get b :=
  lookupA_setA_ne h.entries a b n hne

theorem Heap.set_same (h : Heap) (a : Nat) (n : Node) (hl : h.get a = some n) :
    h.set a n = h :=
  congrArg Heap.mk (setA_same h.entries a n hl)

/-! ## Frame lemmas: structural operations never move size or data -/

theorem Frame.rfl (h : Heap) : Frame h h := fun _ => Eq.refl _

theorem Frame.trans {h h1 h2 : Heap} (f1 : Frame h h1) (f2 : Frame h1 h2) :
    Frame h h2 :=
  fun a => (f2 a).trans (f1 a)

theorem frame_set {h : Heap} {a : Nat} {n n' : Node}
    (hg : h.get a = some n) (hid : idF n' = idF n) : Frame h (h.set a n') := by
  intro b
  by_cases hb : b = a
  · subst hb
    rw [Heap.get_set_self, hg]
    simp [hid]
  · rw [Heap.get_set_ne _ _ _ _ hb]

theorem frame_setLeft (h : Heap) (a : Nat) (v : Option Nat) :
    Frame h (h.setLeft a v) := by
  unfold Heap.setLeft
  cases hg : h.get a
  · exact Frame.rfl h
  · exact frame_set hg rfl

theorem frame_setRight (h : Heap) (a : Nat) (v : Option Nat) :
    Frame h (h.setRight a v) := by
  unfold Heap.setRight
  cases hg : h.get a
  · exact Frame.rfl h
  · exact frame_set hg rfl

theorem frame_setHeight (h : Heap) (a : Nat) (v : Int) :
    Frame h (h.setHeight a v) := by
  unfold Heap.setHeight
  cases hg : h.get a
  · exact Frame.rfl h
  · exact frame_set hg rfl

theorem frame_swapHdr {h h' : Heap} {a b : Nat} (H : swapHdr h a b = some h') :
    Frame h h' := by
  unfold swapHdr at H
  simp only [bind, Option.bind_eq_some, Option.some.injEq] at H
  obtain ⟨na, hga, nb, hgb, hend⟩ := H
  subst hend
  have f1 : Frame h
      (h.set a { na with left := nb.left, right := nb.right, height := nb.height }) :=
    frame_set hga rfl
  refine Frame.trans f1 ?_
  by_cases hb : b = a
  · subst hb
    have hnab : na = nb := by
      rw [hga] at hgb
      exact Option.some.inj hgb
    subst hnab
    exact frame_set (Heap.get_set_self _ _ _) rfl
  · have hgb2 :
        (h.set a { na with left := nb.left, right := nb.right, height := nb.height }).get b
          = some nb := by
      rw [Heap.get_set_ne _ _ _ _ hb]
      exact hgb
    exact frame_set hgb2 rfl

theorem frame_update_height {h h' : Heap} {a : Nat} (H : update_height h a = some h') :
    Frame h h' := by
  unfold update_height at H
  simp only [bind, Option.bind_eq_some, Option.some.injEq] at H
  obtain ⟨n, hg, hl, hhl, hr, hhr, hend⟩ := H
  subst hend
  exact frame_setHeight h a _

theorem frame_rotate_right {h : Heap} {a : Nat} {p : Nat × Heap}
    (H : rotate_right h a = some p) : Frame h p.2 := by
  unfold rotate_right at H
  simp only [bind, Option.bind_eq_some, Option.some.injEq] at H
  obtain ⟨n, hg, l, hl, ln, hgl, h4, hu4, h6, hu6, hend⟩ := H
  subst hend
  refine Frame.trans (frame_setLeft h a none) ?_
  refine Frame.trans (frame_setRight _ l none) ?_
  refine Frame.trans (frame_setLeft _ a ln.right) ?_
  refine Frame.trans (frame_update_height hu4) ?_
  refine Frame.trans (frame_setRight _ l (some a)) ?_
  exact frame_update_height hu6

theorem frame_rotate_left {h : Heap} {a : Nat} {p : Nat × Heap}
    (H : rotate_left h a = some p) : Frame h p.2 := by
  unfold rotate_left at H
  simp only [bind, Option.bind_eq_some, Option.some.injEq] at H
  obtain ⟨n, hg, r, hr, rn, hgr, h4, hu4, h6, hu6, hend⟩ := H
  subst hend
  refine Frame.trans (frame_setRight h a none) ?_
  refine Frame.trans (frame_setLeft _ r none) ?_
  refine Frame.trans (frame_setRight _ a rn.left) ?_
  refine Frame.trans (frame_update_height hu4) ?_
  refine Frame.trans (frame_setLeft _ r (some a)) ?_
  exact frame_update_height hu6

theorem frame_rebalance {h : Heap} {a : Nat} {p : Nat × Heap}
    (H : rebalance h a = some p) : Frame h p.2 := by
  unfold rebalance at H
  simp only [bind, Option.bind_eq_some, Option.some.injEq] at H
  obtain ⟨h1, hu1, bal, hbal, H⟩ := H
  refine Frame.trans (frame_update_height hu1) ?_
  split at H
  · simp only [bind, Option.bind_eq_some, Option.some.injEq] at H
    obtain ⟨n, hg, H⟩ := H
    cases hnl : n.left <;> rw [hnl] at H <;>
      simp only [bind, Option.bind_eq_some, Option.some_bind, Option.none_bind,
        Option.some.injEq, decide_eq_true_eq] at H
    · split at H
      · next hC => simp at hC
      · exact frame_rotate_right H
    · obtain ⟨b, hb, H⟩ := H
      split at H
      · simp only [bind, Option.bind_eq_some, Option.some_bind, Option.some.injEq] at H
        obtain ⟨n2, hg2, l2, hl2, pr, hrot, H⟩ := H
        obtain ⟨nl, h5⟩ := pr
        exact Frame.trans
          (Frame.trans (frame_rotate_left hrot) (frame_setLeft _ _ _))
          (frame_rotate_right H)
      · exact frame_rotate_right H
  · split at H
    · simp only [bind, Option.bind_eq_some, Option.some.injEq] at H
      obtain ⟨n, hg, H⟩ := H
      cases hnr : n.right <;> rw [hnr] at H <;>
        simp only [bind, Option.bind_eq_some, Option.some_bind, Option.none_bind,
          Option.some.injEq, decide_eq_true_eq] at H
      · split at H
        · next hC => simp at hC
        · exact frame_rotate_left H
      · obtain ⟨b, hb, H⟩ := H
        split at H
        · simp only [bind, Option.bind_eq_some, Option.some_bind, Option.some.injEq] at H
          obtain ⟨n2, hg2, r2, hr2, pr, hrot, H⟩ := H
          obtain ⟨nr, h5⟩ := pr
          exact Frame.trans
            (Frame.trans (frame_rotate_right hrot) (frame_setRight _ _ _))
            (frame_rotate_left H)
        · exact frame_rotate_left H
    · rw [Option.some.injEq] at H
      subst H
      exact Frame.rfl h1

theorem frame_swap_nodes {st : AVLState} {t s sp : Nat} {par : SearchDirection}
    {r : DeleteAction × AVLState} (H : swap_nodes st t s sp par = some r) :
    Frame st.heap r.2.heap := by
  unfold swap_nodes at H
  simp only [bind, Option.bind_eq_some, Option.some.injEq] at H
  obtain ⟨h1, hsw, H⟩ := H
  refine Frame.trans (frame_swapHdr hsw) ?_
  cases par <;> simp only at H <;>
      split at H <;>
      simp only [bind, Option.bind_eq_some, Option.some.injEq] at H <;>
      [obtain ⟨sn, hgs, hend⟩ := H; obtain ⟨spn, hgsp, spn1, hgsp1, hend⟩ := H;
       obtain ⟨sn, hgs, hend⟩ := H; obtain ⟨spn, hgsp, spn1, hgsp1, hend⟩ := H;
       obtain ⟨sn, hgs, hend⟩ := H; obtain ⟨spn, hgsp, spn1, hgsp1, hend⟩ := H] <;>
      subst hend <;>
      dsimp only <;>
      split <;>
      try split
  all_goals
    first
      | exact Frame.trans (frame_setLeft _ _ _)
          (Frame.trans (frame_setRight _ _ _) (frame_setLeft _ _ _))
      | exact Frame.trans (frame_setRight _ _ _)
          (Frame.trans (frame_setRight _ _ _) (frame_setLeft _ _ _))
      | exact Frame.trans (frame_setLeft _ _ _) (frame_setRight _ _ _)
      | exact Frame.trans (frame_setLeft _ _ _) (frame_setLeft _ _ _)
      | exact Frame.trans (frame_setRight _ _ _) (frame_setRight _ _ _)
      | exact Frame.trans (frame_setRight _ _ _) (frame_setLeft _ _ _)
      | exact frame_setRight _ _ _
      | exact frame_setLeft _ _ _
      | exact Frame.rfl _

theorem frame_delete_node {fuel : Nat} {st : AVLState} {a : Nat} {par : SearchDirection}
    {r : DeleteAction × AVLState} (H : delete_node fuel st a par = some r) :
    Frame st.heap r.2.heap := by
  unfold delete_node at H
  simp only [bind, Option.bind_eq_some, Option.some.injEq] at H
  obtain ⟨n, hg, H⟩ := H
  split at H
  · rw [Option.some.injEq] at H
    subst H
    cases par <;> dsimp only <;>
      first
        | exact frame_setLeft _ _ _
        | exact frame_setRight _ _ _
        | exact Frame.rfl _
  · split at H
    · simp only [Option.bind_eq_some] at H
      obtain ⟨rc, hrc, pr, hmin, H⟩ := H
      exact frame_swap_nodes H
    · cases hnl : n.left <;> rw [hnl] at H <;>
        simp only [Option.bind_eq_some, Option.some_bind] at H
      · obtain ⟨succ, hsucc, H⟩ := H
        exact frame_swap_nodes H
      · exact frame_swap_nodes H

theorem frame_remove_node : ∀ {fuel : Nat} {st : AVLState} {a size : Nat}
    {par : SearchDirection} {r : Option Nat × AVLState},
    remove_node fuel st a size par = some r → Frame st.heap r.2.heap := by
  intro fuel
  induction fuel with
  | zero => intro st a size par r H; simp [remove_node] at H
  | succ fuel ih =>
    intro st a size par r H
    simp only [remove_node] at H
    simp only [bind, Option.bind_eq_some, Option.some.injEq] at H
    obtain ⟨n, hg, H⟩ := H
    split at H
    · cases hnl : n.left <;> rw [hnl] at H <;>
        simp only [bind, Option.bind_eq_some, Option.some.injEq] at H
      · obtain ⟨pr2, hreb, hend⟩ := H
        subst hend
        exact frame_rebalance hreb
      · obtain ⟨pr, hrn, pr2, hreb, hend⟩ := H
        subst hend
        exact Frame.trans (ih hrn) (frame_rebalance hreb)
    · split at H
      · cases hnr : n.right <;> rw [hnr] at H <;>
          simp only [bind, Option.bind_eq_some, Option.some.injEq] at H
        · obtain ⟨pr2, hreb, hend⟩ := H
          subst hend
          exact frame_rebalance hreb
        · obtain ⟨pr, hrn, pr2, hreb, hend⟩ := H
          subst hend
          exact Frame.trans (ih hrn) (frame_rebalance hreb)
      · simp only [bind, Option.bind_eq_some, Option.some.injEq] at H
        obtain ⟨prA, hdel, H⟩ := H
        obtain ⟨act, st1⟩ := prA
        have fdel : Frame st.heap st1.heap := frame_delete_node hdel
        cases act
        · simp only [bind, Option.bind_eq_some, Option.some.injEq] at H
          obtain ⟨prC, hreb, hend⟩ := H
          subst hend
          exact Frame.trans fdel (frame_rebalance hreb)
        · simp only [bind, Option.bind_eq_some, Option.some.injEq] at H
          obtain ⟨rc, hrc, prB, hrn, H⟩ := H
          have fB := ih hrn
          cases par <;>
            simp only [Option.some_bind, Option.bind_eq_some, Option.some.injEq] at H
          · obtain ⟨prC, hreb, hend⟩ := H
            subst hend
            exact Frame.trans fdel (Frame.trans fB (frame_rebalance hreb))
          · obtain ⟨prC, hreb, hend⟩ := H
            subst hend
            exact Frame.trans fdel (Frame.trans fB (frame_rebalance hreb))
          · obtain ⟨root2, hroot2, prC, hreb, hend⟩ := H
            subst hend
            exact Frame.trans fdel (Frame.trans fB (frame_rebalance hreb))

theorem frame_remove {fuel : Nat} {st : AVLState} {v : Nat} {r : Option Nat × AVLState}
    (H : remove fuel st v = some r) : Frame st.heap r.2.heap := by
  unfold remove at H
  cases hr : st.root <;> rw [hr] at H
  · rw [Option.some.injEq] at H
    subst H
    exact Frame.rfl _
  · exact frame_remove_node H

theorem Frame.get_some {h h' : Heap} (hf : Frame h h') {a : Nat} {n : Node}
    (hg : h'.get a = some n) :
    ∃ m, h.get a = some m ∧ m.size = n.size ∧ m.data = n.data := by
  have hx := hf a
  rw [hg] at hx
  cases hg0 : h.get a <;> rw [hg0] at hx
  · simp at hx
  · simp only [Option.map_some', Option.some.injEq] at hx
    exact ⟨_, Eq.refl _, (congrArg Prod.fst hx).symm, (congrArg Prod.snd hx).symm⟩

theorem WFrt_of_frame {h h' : Heap} (hw : WFrt h) (hf : Frame h h') : WFrt h' := by
  intro a n hg
  obtain ⟨m, hm, hsz, hdt⟩ := Frame.get_some hf hg
  rw [← hdt]
  exact hw a m hm

theorem le_roundUp (n a : Nat) (ha : 0 < a) : n ≤ roundUp n a := by
  unfold roundUp
  have h2 : n + a - 1 < (n + a - 1) / a * a + a := Nat.lt_div_mul_add ha
  omega

theorem roundUp_eq_self {n a : Nat} (hd : a ∣ n) (ha : 0 < a) : roundUp n a = n := by
  obtain ⟨k, hk⟩ := hd
  subst hk
  unfold roundUp
  have h1 : a * k + a - 1 = a * k + (a - 1) := by omega
  rw [h1, Nat.mul_add_div ha, Nat.div_eq_of_lt (by omega), Nat.add_zero, Nat.mul_comm]

/-- The best-fit search only ever returns nodes whose capacity is at
least the requested size (one sound half of the broken search). -/
theorem remove_node_some_ge : ∀ {fuel : Nat} {st : AVLState} {a size : Nat}
    {par : SearchDirection} {res : Option Nat × AVLState},
    remove_node fuel st a size par = some res →
    ∀ r, res.1 = some r → ∃ n, st.heap.get r = some n ∧ size ≤ n.size := by
  intro fuel
  induction fuel with
  | zero => intro st a size par res H; simp [remove_node] at H
  | succ fuel ih =>
    intro st a size par res H r hres
    simp only [remove_node] at H
    simp only [bind, Option.bind_eq_some, Option.some.injEq] at H
    obtain ⟨n, hg, H⟩ := H
    by_cases hlt : size < n.size
    · rw [if_pos hlt] at H
      cases hnl : n.left <;> rw [hnl] at H <;>
        simp only [bind, Option.bind_eq_some, Option.some.injEq] at H
      · obtain ⟨pr2, hreb, hend⟩ := H
        subst hend
        rw [Option.some.injEq] at hres
        subst hres
        exact ⟨n, hg, Nat.le_of_lt hlt⟩
      · obtain ⟨pr, hrn, pr2, hreb, hend⟩ := H
        subst hend
        exact ih hrn r hres
    · rw [if_neg hlt] at H
      by_cases hgt : n.size < size
      · rw [if_pos hgt] at H
        cases hnr : n.right <;> rw [hnr] at H <;>
          simp only [bind, Option.bind_eq_some, Option.some.injEq] at H
        · obtain ⟨pr2, hreb, hend⟩ := H
          subst hend
          simp at hres
        · obtain ⟨pr, hrn, pr2, hreb, hend⟩ := H
          subst hend
          exact ih hrn r hres
      · rw [if_neg hgt] at H
        have heq : size = n.size := Nat.le_antisymm (Nat.le_of_not_lt hgt) (Nat.le_of_not_lt hlt)
        simp only [bind, Option.bind_eq_some, Option.some.injEq] at H
        obtain ⟨prA, hdel, H⟩ := H
        obtain ⟨act, st1⟩ := prA
        cases act
        · simp only [bind, Option.bind_eq_some, Option.some.injEq] at H
          obtain ⟨prC, hreb, hend⟩ := H
          subst hend
          rw [Option.some.injEq] at hres
          subst hres
          exact ⟨n, hg, Nat.le_of_eq heq⟩
        · simp only [bind, Option.bind_eq_some, Option.some.injEq] at H
          obtain ⟨rc, hrc, prB, hrn, H⟩ := H
          cases par <;>
            simp only [Option.some_bind, Option.bind_eq_some, Option.some.injEq] at H
          · obtain ⟨prC, hreb, hend⟩ := H
            subst hend
            rw [Option.some.injEq] at hres
            subst hres
            exact ⟨n, hg, Nat.le_of_eq heq⟩
          · obtain ⟨prC, hreb, hend⟩ := H
            subst hend
            rw [Option.some.injEq] at hres
            subst hres
            exact ⟨n, hg, Nat.le_of_eq heq⟩
          · obtain ⟨root2, hroot2, prC, hreb, hend⟩ := H
            subst hend
            rw [Option.some.injEq] at hres
            subst hres
            exact ⟨n, hg, Nat.le_of_eq heq⟩

theorem remove_some_ge {fuel : Nat} {st : AVLState} {v r : Nat}
    {res : Option Nat} {st1 : AVLState}
    (H : remove fuel st v = some (res, st1)) (hr : res = some r) :
    ∃ n, st.heap.get r = some n ∧ v ≤ n.size := by
  unfold remove at H
  cases hroot : st.root <;> rw [hroot] at H
  · rw [Option.some.injEq] at H
    subst hr
    simp at H
  · exact remove_node_some_ge H r (by rw [hr])

/-- C6 (confirmed).  On any state whose heap satisfies the round-trip
invariant, a completed `alloc` returns a nonzero data pointer, and the
node owning that pointer (live in the final heap) has capacity at
least the requested size — both on the reuse path (the best-fit search
only returns nodes with capacity ≥ the request, and sizes never change)
and on the fresh path (capacity = padded combined layout − header ≥
requested size). -/
theorem C6_alloc_nonnull_capacity {reqMem : Nat → Nat} {fuel : Nat} {st : AVLState}
    {layout : Layout} {p : Nat} {st2 : AVLState}
    (hwf : WFrt st.heap) (hal : 0 < layout.align)
    (H : alloc reqMem fuel st layout = some (p, st2)) :
    p ≠ 0 ∧ ∃ a n, st2.heap.get a = some n ∧ n.data = p ∧ layout.size ≤ n.size := by
  unfold alloc at H
  simp only [bind, Option.bind_eq_some, Option.some.injEq] at H
  obtain ⟨pr, hrem, H⟩ := H
  obtain ⟨res, st1⟩ := pr
  have hfr : Frame st.heap st1.heap := frame_remove hrem
  cases res <;> dsimp only at H
  · simp only [Node.new] at H
    rw [Heap.get_set_self] at H
    simp only [Option.some_bind, Option.some.injEq, Prod.mk.injEq] at H
    obtain ⟨hp, hst⟩ := H
    subst hst
    have hoff : (avlHeaderLayout.extend layout).2 = roundUp avlHeaderSize layout.align :=
      Eq.refl _
    have h32 : avlHeaderSize = 32 := Eq.refl _
    have h1 : avlHeaderSize ≤ roundUp avlHeaderSize layout.align := le_roundUp _ _ hal
    have hml : mmapRequestLen layout
        = roundUp (roundUp avlHeaderSize layout.align + layout.size) (max 8 layout.align) :=
      Eq.refl _
    have h2 : roundUp avlHeaderSize layout.align + layout.size
        ≤ roundUp (roundUp avlHeaderSize layout.align + layout.size) (max 8 layout.align) :=
      le_roundUp _ _ (by omega)
    constructor
    · rw [← hp, hoff]
      omega
    · refine ⟨reqMem (mmapRequestLen layout), _, Heap.get_set_self _ _ _, hp, ?_⟩
      dsimp only
      omega
  · rename_i val
    simp only [Option.bind_eq_some, Option.some.injEq, Prod.mk.injEq] at H
    obtain ⟨n, hgn, hp, hst⟩ := H
    subst hst
    obtain ⟨n0, hg0, hsz0⟩ := remove_some_ge hrem (Eq.refl _)
    obtain ⟨m, hm, hms, hmd⟩ := Frame.get_some hfr hgn
    have hmn0 : m = n0 := by
      rw [hm] at hg0
      exact Option.some.inj hg0
    have hw1 : WFrt st1.heap := WFrt_of_frame hwf hfr
    have hdata : n.data = val + avlHeaderSize := hw1 val n hgn
    have h32 : avlHeaderSize = 32 := Eq.refl _
    constructor
    · rw [← hp]
      omega
    · refine ⟨val, n, hgn, hp, ?_⟩
      rw [← hms, hmn0]
      exact hsz0

/-- Witness for C6: alloc of a 64-byte, 8-aligned layout on the empty
index returns the nonzero pointer 4128 owned by a node of capacity
64 ≥ 64. -/
theorem C6_alloc_nonnull_capacity_witness :
    (4128 : Nat) ≠ 0 ∧
      ∃ a n, stAfterAlloc.heap.get a = some n ∧ n.data = 4128 ∧ (64 : Nat) ≤ n.size :=
  @C6_alloc_nonnull_capacity mmap4096 10 st0 ⟨64, 8⟩ 4128 stAfterAlloc
    (fun a n h => by simp [st0, Heap.get, lookupA] at h) (by decide) (by decide)

/-- C2 (amended, proved).  For layouts whose alignment divides the
header size (so the `Layout::extend` offset is exactly the header
size), every completed `alloc` on a heap satisfying the round-trip
invariant returns a pointer p such that the node at `p − header_size`
is live and stores `data = p`, and the whole heap still satisfies the
round-trip invariant (structural operations never move `size`/`data`,
by the `Frame` lemmas). -/
theorem C2_round_trip_amended {reqMem : Nat → Nat} {fuel : Nat} {st : AVLState}
    {layout : Layout} {p : Nat} {st2 : AVLState}
    (hwf : WFrt st.heap) (hdvd : layout.align ∣ avlHeaderSize) (hal : 0 < layout.align)
    (H : alloc reqMem fuel st layout = some (p, st2)) :
    (∃ n, st2.heap.get (p - avlHeaderSize) = some n ∧ n.data = p) ∧ WFrt st2.heap := by
  unfold alloc at H
  simp only [bind, Option.bind_eq_some, Option.some.injEq] at H
  obtain ⟨pr, hrem, H⟩ := H
  obtain ⟨res, st1⟩ := pr
  have hfr : Frame st.heap st1.heap := frame_remove hrem
  have hw1 : WFrt st1.heap := WFrt_of_frame hwf hfr
  cases res <;> dsimp only at H
  · simp only [Node.new] at H
    rw [Heap.get_set_self] at H
    simp only [Option.some_bind, Option.some.injEq, Prod.mk.injEq] at H
    obtain ⟨hp, hst⟩ := H
    subst hst
    have hoff : (avlHeaderLayout.extend layout).2 = avlHeaderSize := by
      show roundUp avlHeaderSize layout.align = avlHeaderSize
      exact roundUp_eq_self hdvd hal
    rw [hoff] at hp
    constructor
    · refine ⟨⟨mmapRequestLen layout - avlHeaderSize, 1, none, none,
          reqMem (mmapRequestLen layout) + (avlHeaderLayout.extend layout).2⟩, ?_, ?_⟩
      · have hb : p - avlHeaderSize = reqMem (mmapRequestLen layout) := by omega
        rw [hb]
        exact Heap.get_set_self _ _ _
      · dsimp only
        rw [hoff]
        exact hp
    · intro b m hb
      by_cases hba : b = reqMem (mmapRequestLen layout)
      · subst hba
        rw [Heap.get_set_self] at hb
        have hm := Option.some.inj hb
        rw [← hm]
        dsimp only
        rw [hoff]
      · rw [Heap.get_set_ne _ _ _ _ hba] at hb
        exact hw1 b m hb
  · rename_i val
    simp only [Option.bind_eq_some, Option.some.injEq, Prod.mk.injEq] at H
    obtain ⟨n, hgn, hp, hst⟩ := H
    subst hst
    have hdata : n.data = val + avlHeaderSize := hw1 val n hgn
    have hval : p - avlHeaderSize = val := by omega
    refine ⟨⟨n, ?_, hp⟩, hw1⟩
    rw [hval]
    exact hgn

/-- Witness for the amended C2: alloc of a 64-byte, 8-aligned layout
(8 divides 32) on the empty index returns 4128, and the node at
4128 − 32 = 4096 stores data = 4128. -/
theorem C2_round_trip_amended_witness :
    (∃ n, stAfterAlloc.heap.get (4128 - avlHeaderSize) = some n ∧ n.data = 4128) ∧
      WFrt stAfterAlloc.heap :=
  @C2_round_trip_amended mmap4096 10 st0 ⟨64, 8⟩ 4128 stAfterAlloc
    (fun a n h => by simp [st0, Heap.get, lookupA] at h) (by decide) (by decide) (by decide)

/-! ## Extracted-tree lemmas for the insert no-op proof -/

theorem extract_node_inv {h : Heap} {f : Nat} {a : Nat} {t : Tree}
    (H : extract h (f + 1) (some a) = some t) :
    ∃ n l r, h.get a = some n ∧ extract h f n.left = some l ∧
      extract h f n.right = some r ∧ t = .node a n l r := by
  simp only [extract] at H
  simp only [bind, Option.bind_eq_some, Option.some.injEq] at H
  obtain ⟨n, hg, l, hl, r, hr, ht⟩ := H
  exact ⟨n, l, r, hg, hl, hr, ht.symm⟩

theorem heightOf_extract {h : Heap} {f : Nat} {o : Option Nat} {t : Tree}
    (H : extract h f o = some t) (hh : t.heightsOK = true) :
    heightOf h o = some t.ht := by
  cases o with
  | none =>
      simp only [extract, Option.some.injEq] at H
      subst H
      simp [heightOf, Tree.ht]
  | some a =>
      cases f with
      | zero => simp [extract] at H
      | succ f =>
          obtain ⟨n, l, r, hg, hl, hr, ht⟩ := extract_node_inv H
          subst ht
          simp only [Tree.heightsOK, Bool.and_eq_true, beq_iff_eq] at hh
          simp only [heightOf, hg, Option.map_some', Option.some.injEq, Tree.ht]
          exact hh.1.1

theorem Heap.setLeft_same {h : Heap} {a : Nat} {n : Node} (hg : h.get a = some n) :
    h.setLeft a n.left = h := by
  unfold Heap.setLeft
  rw [hg]
  exact Heap.set_same h a n hg

theorem Heap.setRight_same {h : Heap} {a : Nat} {n : Node} (hg : h.get a = some n) :
    h.setRight a n.right = h := by
  unfold Heap.setRight
  rw [hg]
  exact Heap.set_same h a n hg

theorem Heap.setHeight_same {h : Heap} {a : Nat} {n : Node} (hg : h.get a = some n) :
    h.setHeight a n.height = h := by
  unfold Heap.setHeight
  rw [hg]
  exact Heap.set_same h a n hg

/-- When a node's stored height is already correct and its balance
factor is within range, `rebalance` is the identity and returns the
node itself. -/
theorem rebalance_same {h : Heap} {a : Nat} {n : Node} {hl hr : Int}
    (hg : h.get a = some n)
    (hhl : heightOf h n.left = some hl) (hhr : heightOf h n.right = some hr)
    (hht : n.height = max hl hr + 1)
    (hb1 : hl - hr ≤ 1) (hb2 : -1 ≤ hl - hr) :
    rebalance h a = some (a, h) := by
  have hup : update_height h a = some h := by
    unfold update_height
    rw [hg]
    simp only [bind, Option.some_bind]
    rw [hhl]
    simp only [Option.some_bind]
    rw [hhr]
    simp only [Option.some_bind, Option.some.injEq]
    rw [← hht]
    exact Heap.setHeight_same hg
  have hbf : balance_factor h a = some (hl - hr) := by
    unfold balance_factor
    rw [hg]
    simp only [bind, Option.some_bind]
    rw [hhl]
    simp only [Option.some_bind]
    rw [hhr]
    simp only [Option.some_bind]
  unfold rebalance
  rw [hup]
  simp only [bind, Option.some_bind]
  rw [hbf]
  simp only [Option.some_bind]
  rw [if_neg (by omega), if_neg (by omega)]

theorem allGt_hasSize {t : Tree} {k s : Nat} (hg : t.allGt k = true)
    (hs : t.hasSize s = true) : k < s := by
  induction t with
  | leaf => simp [Tree.hasSize] at hs
  | node a n l r ihl ihr =>
      simp only [Tree.allGt, Bool.and_eq_true, decide_eq_true_eq] at hg
      simp only [Tree.hasSize, Bool.or_eq_true, decide_eq_true_eq] at hs
      rcases hs with (h | h) | h
      · omega
      · exact ihl hg.1.2 h
      · exact ihr hg.2 h

theorem allLt_hasSize {t : Tree} {k s : Nat} (hg : t.allLt k = true)
    (hs : t.hasSize s = true) : s < k := by
  induction t with
  | leaf => simp [Tree.hasSize] at hs
  | node a n l r ihl ihr =>
      simp only [Tree.allLt, Bool.and_eq_true, decide_eq_true_eq] at hg
      simp only [Tree.hasSize, Bool.or_eq_true, decide_eq_true_eq] at hs
      rcases hs with (h | h) | h
      · omega
      · exact ihl hg.1.2 h
      · exact ihr hg.2 h

/-- Inserting a node whose capacity is already present in a subtree
that satisfies the BST, height and balance invariants returns the
subtree root unchanged and leaves the state exactly as it was. -/
theorem reinsert_node_equal_same :
    ∀ (f : Nat) (st : AVLState) (a : Nat) (t : Tree) (vaddr : Nat) (vn : Node),
      extract st.heap f (some a) = some t →
      t.bstOK = true → t.heightsOK = true → t.balancedOK = true →
      st.heap.get vaddr = some vn →
      t.hasSize vn.size = true →
      reinsert_node f st (some a) vaddr = some (a, st) := by
  intro f
  induction f with
  | zero =>
      intro st a t vaddr vn hex _ _ _ _ _
      simp [extract] at hex
  | succ f ih =>
    intro st a t vaddr vn hex hbst hh hbal hv hs
    obtain ⟨n, l, r, hg, hl, hr, ht⟩ := extract_node_inv hex
    subst ht
    simp only [Tree.bstOK, Bool.and_eq_true] at hbst
    obtain ⟨⟨⟨hLt, hGt⟩, hbstl⟩, hbstr⟩ := hbst
    simp only [Tree.heightsOK, Bool.and_eq_true, beq_iff_eq] at hh
    obtain ⟨⟨hht, hhOKl⟩, hhOKr⟩ := hh
    simp only [Tree.balancedOK, Bool.and_eq_true, decide_eq_true_eq] at hbal
    obtain ⟨⟨hbb, hball⟩, hbalr⟩ := hbal
    simp only [Tree.hasSize, Bool.or_eq_true, decide_eq_true_eq] at hs
    have hrebal : rebalance st.heap a = some (a, st.heap) := by
      refine rebalance_same hg (heightOf_extract hl hhOKl) (heightOf_extract hr hhOKr)
        hht ?_ ?_ <;> omega
    simp only [reinsert_node]
    rw [hg]
    simp only [bind, Option.some_bind]
    rw [hv]
    simp only [Option.some_bind]
    by_cases hlt : vn.size < n.size
    · rw [if_pos hlt]
      have hsl : l.hasSize vn.size = true := by
        rcases hs with (h | h) | h
        · omega
        · exact h
        · exact absurd (allGt_hasSize hGt h) (by omega)
      cases hnl : n.left with
      | none =>
          rw [hnl] at hl
          simp only [extract, Option.some.injEq] at hl
          subst hl
          simp [Tree.hasSize] at hsl
      | some la =>
          rw [hnl] at hl
          have hrec := ih st la l vaddr vn hl hbstl hhOKl hball hv hsl
          rw [hrec]
          simp only [Option.some_bind]
          have hsetl : st.heap.setLeft a (some la) = st.heap := by
            have hx := Heap.setLeft_same hg
            rw [hnl] at hx
            exact hx
          rw [hsetl, hrebal]
          simp only [Option.some_bind]
    · rw [if_neg hlt]
      by_cases hgt : n.size < vn.size
      · rw [if_pos hgt]
        have hsr : r.hasSize vn.size = true := by
          rcases hs with (h | h) | h
          · omega
          · exact absurd (allLt_hasSize hLt h) (by omega)
          · exact h
        cases hnr : n.right with
        | none =>
            rw [hnr] at hr
            simp only [extract, Option.some.injEq] at hr
            subst hr
            simp [Tree.hasSize] at hsr
        | some ra =>
            rw [hnr] at hr
            have hrec := ih st ra r vaddr vn hr hbstr hhOKr hbalr hv hsr
            rw [hrec]
            simp only [Option.some_bind]
            have hsetr : st.heap.setRight a (some ra) = st.heap := by
              have hx := Heap.setRight_same hg
              rw [hnr] at hx
              exact hx
            rw [hsetr, hrebal]
            simp only [Option.some_bind]
      · rw [if_neg hgt]

/-- C7 (confirmed).  On an index whose reachable tree satisfies the
documented BST ordering, height and balance invariants, inserting a
live node whose capacity equals a capacity already in the tree leaves
the entire state unchanged: the existing node is returned at the equal
frame, no link to the incoming node is created, every parent relink
and rebalance on the return path rewrites the values already present,
and the incoming node is simply dropped from the index. -/
theorem C7_insert_equal_size_noop {f : Nat} {st : AVLState} {t : Tree}
    {vaddr : Nat} {vn : Node}
    (hex : extract st.heap f st.root = some t)
    (hbst : t.bstOK = true) (hh : t.heightsOK = true) (hbal : t.balancedOK = true)
    (hv : st.heap.get vaddr = some vn) (hs : t.hasSize vn.size = true) :
    insert_node f st vaddr = some st := by
  cases hroot : st.root with
  | none =>
      rw [hroot] at hex
      simp only [extract, Option.some.injEq] at hex
      subst hex
      simp [Tree.hasSize] at hs
  | some a =>
      rw [hroot] at hex
      have hsame := reinsert_node_equal_same f st a t vaddr vn hex hbst hh hbal hv hs
      unfold insert_node
      rw [hroot, hsame]
      simp only [bind, Option.some_bind, Option.some.injEq]
      try rw [← hroot]
      try rfl

/-- Witness for C7: inserting the capacity-10 node at address 2000
into the one-node index already keyed by capacity 10 leaves the state
untouched. -/
theorem C7_insert_equal_size_noop_witness : insert_node 3 stDup 2000 = some stDup :=
  @C7_insert_equal_size_noop 3 stDup
    (Tree.node 1000 ⟨10, 1, none, none, 1032⟩ Tree.leaf Tree.leaf) 2000
    ⟨10, 1, none, none, 2032⟩
    (by decide) (by decide) (by decide) (by decide) (by decide) (by decide)

/-! ## Extraction acyclicity and totality helpers for rebalance -/

theorem extract_mono {h : Heap} : ∀ {f : Nat} {o : Option Nat} {t : Tree} {g : Nat},
    extract h f o = some t → f ≤ g → extract h g o = some t := by
  intro f
  induction f with
  | zero =>
      intro o t g H _
      cases o with
      | none =>
          simp only [extract, Option.some.injEq] at H
          subst H
          cases g <;> simp [extract]
      | some a => simp [extract] at H
  | succ f ih =>
      intro o t g H hfg
      cases o with
      | none =>
          simp only [extract, Option.some.injEq] at H
          subst H
          cases g <;> simp [extract]
      | some a =>
          obtain ⟨n, l, r, hg, hl, hr, ht⟩ := extract_node_inv H
          subst ht
          cases g with
          | zero => omega
          | succ g =>
              have hfg2 : f ≤ g := by omega
              simp only [extract]
              rw [hg]
              simp only [bind, Option.some_bind]
              rw [ih hl hfg2]
              simp only [Option.some_bind]
              rw [ih hr hfg2]
              simp only [Option.some_bind]

theorem extract_addrs_sub {h : Heap} : ∀ {f : Nat} {o : Option Nat} {t : Tree} {b : Nat},
    extract h f o = some t → b ∈ t.addrs → ∃ g u, g ≤ f ∧ extract h g (some b) = some u := by
  intro f
  induction f with
  | zero =>
      intro o t b H hb
      cases o with
      | none =>
          simp only [extract, Option.some.injEq] at H
          subst H
          simp [Tree.addrs] at hb
      | some a => simp [extract] at H
  | succ f ih =>
      intro o t b H hb
      cases o with
      | none =>
          simp only [extract, Option.some.injEq] at H
          subst H
          simp [Tree.addrs] at hb
      | some a =>
          obtain ⟨n, l, r, hg, hl, hr, ht⟩ := extract_node_inv H
          subst ht
          simp only [Tree.addrs, List.mem_cons, List.mem_append] at hb
          rcases hb with hb | hb | hb
          · subst hb
            exact ⟨f + 1, _, Nat.le_refl _, H⟩
          · obtain ⟨g, u, hgf, hu⟩ := ih hl hb
            exact ⟨g, u, by omega, hu⟩
          · obtain ⟨g, u, hgf, hu⟩ := ih hr hb
            exact ⟨g, u, by omega, hu⟩

/-- A successfully extracted node never reappears inside its own
subtrees: extraction consumes fuel on every level, so a cycle would
exhaust any finite fuel. -/
theorem extract_self_not_below {h : Heap} : ∀ (f : Nat) {a : Nat} {n : Node} {l r : Tree},
    extract h f (some a) = some (.node a n l r) → a ∉ l.addrs ∧ a ∉ r.addrs := by
  intro f
  induction f using Nat.strong_induction_on with
  | _ f ih =>
      intro a n l r H
      cases f with
      | zero => simp [extract] at H
      | succ f =>
          obtain ⟨n2, l2, r2, hg, hl, hr, ht⟩ := extract_node_inv H
          injection ht with h1 h2 h3 h4
          subst h2
          subst h3
          subst h4
          constructor <;> intro hmem
          · obtain ⟨g, u, hgf, hu⟩ := extract_addrs_sub hl hmem
            have hu2 := extract_mono hu (by omega : g ≤ f + 1)
            rw [H] at hu2
            have hut := Option.some.inj hu2
            rw [← hut] at hu
            obtain ⟨hnl, _⟩ := ih g (by omega) hu
            exact hnl hmem
          · obtain ⟨g, u, hgf, hu⟩ := extract_addrs_sub hr hmem
            have hu2 := extract_mono hu (by omega : g ≤ f + 1)
            rw [H] at hu2
            have hut := Option.some.inj hu2
            rw [← hut] at hu
            obtain ⟨_, hnr⟩ := ih g (by omega) hu
            exact hnr hmem

theorem Tree.ht_nonneg : ∀ t : Tree, 0 ≤ t.ht := by
  intro t
  induction t with
  | leaf => simp [Tree.ht]
  | node a n l r ihl ihr =>
      simp only [Tree.ht]
      omega

theorem Tree.node_of_ht_pos {t : Tree} (h : 1 ≤ t.ht) :
    ∃ b nv ll rr, t = .node b nv ll rr := by
  cases t with
  | leaf => simp [Tree.ht] at h
  | node b nv ll rr => exact ⟨b, nv, ll, rr, Eq.refl _⟩

theorem extract_root_some {h : Heap} {f : Nat} {o : Option Nat} {b : Nat} {nv : Node}
    {ll rr : Tree} (H : extract h f o = some (.node b nv ll rr)) :
    ∃ f2, f = f2 + 1 ∧ o = some b ∧ h.get b = some nv ∧
      extract h f2 nv.left = some ll ∧ extract h f2 nv.right = some rr := by
  cases o with
  | none =>
      simp only [extract, Option.some.injEq] at H
      simp at H
  | some c =>
      cases f with
      | zero => simp [extract] at H
      | succ f2 =>
          obtain ⟨n2, l2, r2, hg, hl, hr, ht⟩ := extract_node_inv H
          injection ht with h1 h2 h3 h4
          subst h1
          subst h2
          subst h3
          subst h4
          exact ⟨f2, Eq.refl _, Eq.refl _, hg, hl, hr⟩

theorem extract_some_get {h : Heap} {f : Nat} {c : Nat} {u : Tree}
    (H : extract h f (some c) = some u) : ∃ m, h.get c = some m := by
  cases f with
  | zero => simp [extract] at H
  | succ f =>
      obtain ⟨n, l, r, hg, _, _, _⟩ := extract_node_inv H
      exact ⟨n, hg⟩

theorem heightOf_isSome {h : Heap} {o : Option Nat}
    (H : ∀ c, o = some c → ∃ m, h.get c = some m) : ∃ x, heightOf h o = some x := by
  cases o with
  | none => exact ⟨0, Eq.refl _⟩
  | some c =>
      obtain ⟨m, hm⟩ := H c (Eq.refl _)
      exact ⟨m.height, by simp [heightOf, hm]⟩

theorem Frame.mapped {h h' : Heap} (hf : Frame h h') {c : Nat}
    (H : ∃ m, h.get c = some m) : ∃ m, h'.get c = some m := by
  obtain ⟨m, hm⟩ := H
  have hx := hf c
  rw [hm] at hx
  cases hg : h'.get c <;> rw [hg] at hx
  · simp at hx
  · exact ⟨_, Eq.refl _⟩

theorem Heap.get_setLeft_self {h : Heap} {a : Nat} {n : Node} (hg : h.get a = some n)
    (v : Option Nat) : (h.setLeft a v).get a = some { n with left := v } := by
  unfold Heap.setLeft
  rw [hg]
  exact Heap.get_set_self _ _ _

theorem Heap.get_setRight_self {h : Heap} {a : Nat} {n : Node} (hg : h.get a = some n)
    (v : Option Nat) : (h.setRight a v).get a = some { n with right := v } := by
  unfold Heap.setRight
  rw [hg]
  exact Heap.get_set_self _ _ _

theorem Heap.get_setHeight_self {h : Heap} {a : Nat} {n : Node} (hg : h.get a = some n)
    (v : Int) : (h.setHeight a v).get a = some { n with height := v } := by
  unfold Heap.setHeight
  rw [hg]
  exact Heap.get_set_self _ _ _

theorem Heap.get_setLeft_ne (h : Heap) (a : Nat) (v : Option Nat) {b : Nat}
    (hne : b ≠ a) : (h.setLeft a v).get b = h.get b := by
  unfold Heap.setLeft
  cases h.get a
  · exact Eq.refl _
  · exact Heap.get_set_ne _ _ _ _ hne

theorem Heap.get_setRight_ne (h : Heap) (a : Nat) (v : Option Nat) {b : Nat}
    (hne : b ≠ a) : (h.setRight a v).get b = h.get b := by
  unfold Heap.setRight
  cases h.get a
  · exact Eq.refl _
  · exact Heap.get_set_ne _ _ _ _ hne

theorem Heap.get_setHeight_ne (h : Heap) (a : Nat) (v : Int) {b : Nat}
    (hne : b ≠ a) : (h.setHeight a v).get b = h.get b := by
  unfold Heap.setHeight
  cases h.get a
  · exact Eq.refl _
  · exact Heap.get_set_ne _ _ _ _ hne

theorem update_height_total {h : Heap} {a : Nat} {m : Node} (hg : h.get a = some m)
    (hml : ∀ c, m.left = some c → ∃ x, h.get c = some x)
    (hmr : ∀ c, m.right = some c → ∃ x, h.get c = some x) :
    ∃ v, update_height h a = some (h.setHeight a v) := by
  obtain ⟨x, hx⟩ := heightOf_isSome hml
  obtain ⟨y, hy⟩ := heightOf_isSome hmr
  refine ⟨max x y + 1, ?_⟩
  unfold update_height
  rw [hg]
  simp only [bind, Option.some_bind]
  rw [hx]
  simp only [Option.some_bind]
  rw [hy]
  simp only [Option.some_bind]

/-- `rotate_right` runs to completion (and its result heap is an
explicit store composition) whenever the node, its left child (a
distinct address) and every referenced neighbour are live. -/
theorem rotate_right_exact {h : Heap} {a la : Nat} {n ln : Node}
    (hg : h.get a = some n) (hnl : n.left = some la) (hne : la ≠ a)
    (hgl : h.get la = some ln)
    (hmr : ∀ c, n.right = some c → ∃ m, h.get c = some m)
    (hmll : ∀ c, ln.left = some c → ∃ m, h.get c = some m)
    (hmlr : ∀ c, ln.right = some c → ∃ m, h.get c = some m) :
    ∃ v1 v2, rotate_right h a = some (la,
      (((((h.setLeft a none).setRight la none).setLeft a ln.right).setHeight a
          v1).setRight la (some a)).setHeight la v2) := by
  have hfr3 : Frame h (((h.setLeft a none).setRight la none).setLeft a ln.right) :=
    Frame.trans (frame_setLeft _ _ _)
      (Frame.trans (frame_setRight _ _ _) (frame_setLeft _ _ _))
  have e1 : (h.setLeft a none).get la = some ln := by
    rw [Heap.get_setLeft_ne _ _ _ hne]
    exact hgl
  have h3a : (((h.setLeft a none).setRight la none).setLeft a ln.right).get a
      = some { n with left := ln.right } := by
    have e2 : ((h.setLeft a none).setRight la none).get a = some { n with left := none } := by
      rw [Heap.get_setRight_ne _ _ _ (Ne.symm hne)]
      exact Heap.get_setLeft_self hg none
    exact Heap.get_setLeft_self e2 ln.right
  obtain ⟨v1, hu1⟩ := update_height_total h3a
    (fun c hc => Frame.mapped hfr3 (hmlr c hc))
    (fun c hc => Frame.mapped hfr3 (hmr c hc))
  have hfr5 : Frame h (((((h.setLeft a none).setRight la none).setLeft a
      ln.right).setHeight a v1).setRight la (some a)) :=
    Frame.trans hfr3 (Frame.trans (frame_setHeight _ _ _) (frame_setRight _ _ _))
  have h5la : (((((h.setLeft a none).setRight la none).setLeft a ln.right).setHeight a
      v1).setRight la (some a)).get la = some { ln with right := some a } := by
    have e2 := Heap.get_setRight_self e1 (none : Option Nat)
    have e3 : (((h.setLeft a none).setRight la none).setLeft a ln.right).get la
        = some { ln with right := none } := by
      rw [Heap.get_setLeft_ne _ _ _ hne]
      exact e2
    have e4 : ((((h.setLeft a none).setRight la none).setLeft a ln.right).setHeight a
        v1).get la = some { ln with right := none } := by
      rw [Heap.get_setHeight_ne _ _ _ hne]
      exact e3
    exact Heap.get_setRight_self e4 (some a)
  obtain ⟨v2, hu2⟩ := update_height_total h5la
    (fun c hc => Frame.mapped hfr5 (hmll c hc))
    (fun c hc => Frame.mapped hfr5 ((Option.some.inj hc) ▸ (⟨n, hg⟩ : ∃ m, h.get a = some m)))
  refine ⟨v1, v2, ?_⟩
  unfold rotate_right
  rw [hg]
  simp only [bind, Option.some_bind]
  rw [hnl]
  simp only [Option.some_bind]
  rw [e1]
  simp only [Option.some_bind]
  rw [hu1]
  simp only [Option.some_bind]
  rw [hu2]
  simp only [Option.some_bind]

/-- Mirror of `rotate_right_exact` for `rotate_left`. -/
theorem rotate_left_exact {h : Heap} {a ra : Nat} {n rn : Node}
    (hg : h.get a = some n) (hnr : n.right = some ra) (hne : ra ≠ a)
    (hgr : h.get ra = some rn)
    (hml : ∀ c, n.left = some c → ∃ m, h.get c = some m)
    (hmrl : ∀ c, rn.left = some c → ∃ m, h.get c = some m)
    (hmrr : ∀ c, rn.right = some c → ∃ m, h.get c = some m) :
    ∃ v1 v2, rotate_left h a = some (ra,
      (((((h.setRight a none).setLeft ra none).setRight a rn.left).setHeight a
          v1).setLeft ra (some a)).setHeight ra v2) := by
  have hfr3 : Frame h (((h.setRight a none).setLeft ra none).setRight a rn.left) :=
    Frame.trans (frame_setRight _ _ _)
      (Frame.trans (frame_setLeft _ _ _) (frame_setRight _ _ _))
  have e1 : (h.setRight a none).get ra = some rn := by
    rw [Heap.get_setRight_ne _ _ _ hne]
    exact hgr
  have h3a : (((h.setRight a none).setLeft ra none).setRight a rn.left).get a
      = some { n with right := rn.left } := by
    have e2 : ((h.setRight a none).setLeft ra none).get a = some { n with right := none } := by
      rw [Heap.get_setLeft_ne _ _ _ (Ne.symm hne)]
      exact Heap.get_setRight_self hg none
    exact Heap.get_setRight_self e2 rn.left
  obtain ⟨v1, hu1⟩ := update_height_total h3a
    (fun c hc => Frame.mapped hfr3 (hml c hc))
    (fun c hc => Frame.mapped hfr3 (hmrl c hc))
  have hfr5 : Frame h (((((h.setRight a none).setLeft ra none).setRight a
      rn.left).setHeight a v1).setLeft ra (some a)) :=
    Frame.trans hfr3 (Frame.trans (frame_setHeight _ _ _) (frame_setLeft _ _ _))
  have h5ra : (((((h.setRight a none).setLeft ra none).setRight a rn.left).setHeight a
      v1).setLeft ra (some a)).get ra = some { rn with left := some a } := by
    have e2 := Heap.get_setLeft_self e1 (none : Option Nat)
    have e3 : (((h.setRight a none).setLeft ra none).setRight a rn.left).get ra
        = some { rn with left := none } := by
      rw [Heap.get_setRight_ne _ _ _ hne]
      exact e2
    have e4 : ((((h.setRight a none).setLeft ra none).setRight a rn.left).setHeight a
        v1).get ra = some { rn with left := none } := by
      rw [Heap.get_setHeight_ne _ _ _ hne]
      exact e3
    exact Heap.get_setLeft_self e4 (some a)
  obtain ⟨v2, hu2⟩ := update_height_total h5ra
    (fun c hc => Frame.mapped hfr5 ((Option.some.inj hc) ▸ (⟨n, hg⟩ : ∃ m, h.get a = some m)))
    (fun c hc => Frame.mapped hfr5 (hmrr c hc))
  refine ⟨v1, v2, ?_⟩
  unfold rotate_left
  rw [hg]
  simp only [bind, Option.some_bind]
  rw [hnr]
  simp only [Option.some_bind]
  rw [e1]
  simp only [Option.some_bind]
  rw [hu1]
  simp only [Option.some_bind]
  rw [hu2]
  simp only [Option.some_bind]

theorem mapped_child {h : Heap} {f : Nat} {o : Option Nat} {u : Tree}
    (H : extract h f o = some u) : ∀ c, o = some c → ∃ m, h.get c = some m := by
  intro c hc
  rw [hc] at H
  exact extract_some_get H

theorem balance_factor_eval {h : Heap} {a : Nat} {n : Node} {x y : Int}
    (hg : h.get a = some n) (hx : heightOf h n.left = some x)
    (hy : heightOf h n.right = some y) :
    balance_factor h a = some (x - y) := by
  unfold balance_factor
  rw [hg]
  simp only [bind, Option.some_bind]
  rw [hx]
  simp only [Option.some_bind]
  rw [hy]
  simp only [Option.some_bind]

theorem update_height_noop {h : Heap} {a : Nat} {n : Node} {x y : Int}
    (hg : h.get a = some n) (hx : heightOf h n.left = some x)
    (hy : heightOf h n.right = some y) (hh : n.height = max x y + 1) :
    update_height h a = some h := by
  unfold update_height
  rw [hg]
  simp only [bind, Option.some_bind]
  rw [hx]
  simp only [Option.some_bind]
  rw [hy]
  simp only [Option.some_bind, Option.some.injEq]
  rw [← hh]
  exact Heap.setHeight_same hg

/-- C10 (confirmed).  On any node whose whole subtree extracts from
the heap with accurate stored heights, `rebalance` never fails its
child unwraps: a balance factor above 1 forces the left child to
exist (its height is at least 2), the left-right case forces the left
child's right child to exist, the rotations' reads all hit live
nodes, and symmetrically for a balance factor below -1.  Hence
`rebalance` is total on such nodes. -/
theorem C10_rebalance_total {h : Heap} {f : Nat} {a : Nat} {t : Tree}
    (hex : extract h f (some a) = some t) (hht : t.heightsOK = true) :
    ∃ res, rebalance h a = some res := by
  cases f with
  | zero => simp [extract] at hex
  | succ f =>
  obtain ⟨n, l, r, hg, hl, hr, hteq⟩ := extract_node_inv hex
  subst hteq
  simp only [Tree.heightsOK, Bool.and_eq_true, beq_iff_eq] at hht
  obtain ⟨⟨hhtEq, hhl⟩, hhr⟩ := hht
  have hHl : heightOf h n.left = some l.ht := heightOf_extract hl hhl
  have hHr : heightOf h n.right = some r.ht := heightOf_extract hr hhr
  have hup : update_height h a = some h := update_height_noop hg hHl hHr hhtEq
  have hbf : balance_factor h a = some (l.ht - r.ht) := balance_factor_eval hg hHl hHr
  have hacy := extract_self_not_below (f + 1) hex
  have hmnl : ∀ c, n.left = some c → ∃ m, h.get c = some m := mapped_child hl
  have hmnr : ∀ c, n.right = some c → ∃ m, h.get c = some m := mapped_child hr
  unfold rebalance
  rw [hup]
  simp only [bind, Option.some_bind]
  rw [hbf]
  simp only [Option.some_bind]
  by_cases hb1 : l.ht - r.ht > 1
  · rw [if_pos hb1]
    have hlpos : 1 ≤ l.ht := by
      have := Tree.ht_nonneg r
      omega
    obtain ⟨la, lnv, ll, lr, hleq⟩ := Tree.node_of_ht_pos hlpos
    subst hleq
    obtain ⟨f2, hf2, holeft, hglnv, hll, hlr⟩ := extract_root_some hl
    have hnea : la ≠ a := by
      intro he
      refine hacy.1 ?_
      rw [← he]
      simp [Tree.addrs]
    simp only [Tree.heightsOK, Bool.and_eq_true, beq_iff_eq] at hhl
    obtain ⟨⟨hhlEq, hhll⟩, hhlr⟩ := hhl
    have hHll : heightOf h lnv.left = some ll.ht := heightOf_extract hll hhll
    have hHlr : heightOf h lnv.right = some lr.ht := heightOf_extract hlr hhlr
    have hbfla : balance_factor h la = some (ll.ht - lr.ht) :=
      balance_factor_eval hglnv hHll hHlr
    have hmlll : ∀ c, lnv.left = some c → ∃ m, h.get c = some m := mapped_child hll
    have hmllr : ∀ c, lnv.right = some c → ∃ m, h.get c = some m := mapped_child hlr
    rw [hg]
    simp only [Option.some_bind]
    rw [holeft]
    simp only [Option.some_bind]
    rw [hbfla]
    simp only [Option.some_bind]
    by_cases hc : ll.ht - lr.ht < 0
    · rw [if_pos (decide_eq_true hc)]
      have hlrpos : 1 ≤ lr.ht := by
        have := Tree.ht_nonneg ll
        omega
      obtain ⟨lra, lrv, lrl, lrr, hlreq⟩ := Tree.node_of_ht_pos hlrpos
      subst hlreq
      obtain ⟨f3, hf3, horight, hglrv, hlrl, hlrr⟩ := extract_root_some hlr
      rw [holeft] at hl
      have hacy2 := extract_self_not_below (f2 + 1) ((hf2 ▸ hl : extract h (f2 + 1) (some la) = _))
      have hne_lra_la : lra ≠ la := by
        intro he
        refine hacy2.2 ?_
        rw [← he]
        simp [Tree.addrs]
      have hne_lra_a : lra ≠ a := by
        intro he
        refine hacy.1 ?_
        rw [← he]
        simp [Tree.addrs]
      have hmlrl : ∀ c, lrv.left = some c → ∃ m, h.get c = some m := mapped_child hlrl
      have hmlrr : ∀ c, lrv.right = some c → ∃ m, h.get c = some m := mapped_child hlrr
      obtain ⟨v1, v2, hrot⟩ :=
        rotate_left_exact hglnv horight hne_lra_la hglrv hmlll hmlrl hmlrr
      rw [hrot]
      simp only [Option.some_bind]
      have hCa :
          ((((((h.setRight la none).setLeft lra none).setRight la lrv.left).setHeight la
            v1).setLeft lra (some la)).setHeight lra v2).get a = some n := by
        rw [Heap.get_setHeight_ne _ _ _ (Ne.symm hne_lra_a),
            Heap.get_setLeft_ne _ _ _ (Ne.symm hne_lra_a),
            Heap.get_setHeight_ne _ _ _ (Ne.symm hnea),
            Heap.get_setRight_ne _ _ _ (Ne.symm hnea),
            Heap.get_setLeft_ne _ _ _ (Ne.symm hne_lra_a),
            Heap.get_setRight_ne _ _ _ (Ne.symm hnea)]
        exact hg
      have hCsa := Heap.get_setLeft_self hCa (some lra)
      have hClra :
          ((((((h.setRight la none).setLeft lra none).setRight la lrv.left).setHeight la
            v1).setLeft lra (some la)).setHeight lra v2).get lra
          = some { lrv with left := some la, height := v2 } := by
        have e1 : (h.setRight la none).get lra = some lrv := by
          rw [Heap.get_setRight_ne _ _ _ hne_lra_la]
          exact hglrv
        have e2 := Heap.get_setLeft_self e1 (none : Option Nat)
        have e3 : (((h.setRight la none).setLeft lra none).setRight la lrv.left).get lra
            = some { lrv with left := none } := by
          rw [Heap.get_setRight_ne _ _ _ hne_lra_la]
          exact e2
        have e4 : ((((h.setRight la none).setLeft lra none).setRight la
            lrv.left).setHeight la v1).get lra = some { lrv with left := none } := by
          rw [Heap.get_setHeight_ne _ _ _ hne_lra_la]
          exact e3
        have e5 := Heap.get_setLeft_self e4 (some la)
        exact Heap.get_setHeight_self e5 v2
      have hC2lra :
          (((((((h.setRight la none).setLeft lra none).setRight la lrv.left).setHeight la
            v1).setLeft lra (some la)).setHeight lra v2).setLeft a (some lra)).get lra
          = some { lrv with left := some la, height := v2 } := by
        rw [Heap.get_setLeft_ne _ _ _ hne_lra_a]
        exact hClra
      have hfrC : Frame h
          (((((((h.setRight la none).setLeft lra none).setRight la lrv.left).setHeight la
            v1).setLeft lra (some la)).setHeight lra v2).setLeft a (some lra)) :=
        Frame.trans (frame_setRight _ _ _)
          (Frame.trans (frame_setLeft _ _ _)
            (Frame.trans (frame_setRight _ _ _)
              (Frame.trans (frame_setHeight _ _ _)
                (Frame.trans (frame_setLeft _ _ _)
                  (Frame.trans (frame_setHeight _ _ _) (frame_setLeft _ _ _))))))
      obtain ⟨w1, w2, hrr⟩ := rotate_right_exact hCsa (Eq.refl _) hne_lra_a hC2lra
        (fun c hc2 => Frame.mapped hfrC (hmnr c hc2))
        (fun c hc2 => Frame.mapped hfrC
          ((Option.some.inj hc2) ▸ (⟨lnv, hglnv⟩ : ∃ m, h.get la = some m)))
        (fun c hc2 => Frame.mapped hfrC (hmlrr c hc2))
      exact ⟨_, hrr⟩
    · rw [if_neg (by simp only [decide_eq_true_eq]; exact hc)]
      obtain ⟨v1, v2, hrr⟩ := rotate_right_exact hg holeft hnea hglnv hmnr hmlll hmllr
      exact ⟨_, hrr⟩
  · rw [if_neg hb1]
    by_cases hb2 : l.ht - r.ht < -1
    · rw [if_pos hb2]
      have hrpos : 1 ≤ r.ht := by
        have := Tree.ht_nonneg l
        omega
      obtain ⟨ra, rnv, rl, rr, hreq⟩ := Tree.node_of_ht_pos hrpos
      subst hreq
      obtain ⟨f2, hf2, horight, hgrnv, hrl, hrr2⟩ := extract_root_some hr
      have hnea : ra ≠ a := by
        intro he
        refine hacy.2 ?_
        rw [← he]
        simp [Tree.addrs]
      simp only [Tree.heightsOK, Bool.and_eq_true, beq_iff_eq] at hhr
      obtain ⟨⟨hhrEq, hhrl⟩, hhrr⟩ := hhr
      have hHrl : heightOf h rnv.left = some rl.ht := heightOf_extract hrl hhrl
      have hHrr : heightOf h rnv.right = some rr.ht := heightOf_extract hrr2 hhrr
      have hbfra : balance_factor h ra = some (rl.ht - rr.ht) :=
        balance_factor_eval hgrnv hHrl hHrr
      have hmrrl : ∀ c, rnv.left = some c → ∃ m, h.get c = some m := mapped_child hrl
      have hmrrr : ∀ c, rnv.right = some c → ∃ m, h.get c = some m := mapped_child hrr2
      rw [hg]
      simp only [Option.some_bind]
      rw [horight]
      simp only [Option.some_bind]
      rw [hbfra]
      simp only [Option.some_bind]
      by_cases hc : rl.ht - rr.ht > 0
      · rw [if_pos (decide_eq_true hc)]
        have hrlpos : 1 ≤ rl.ht := by
          have := Tree.ht_nonneg rr
          omega
        obtain ⟨rla, rlv, rll, rlr, hrleq⟩ := Tree.node_of_ht_pos hrlpos
        subst hrleq
        obtain ⟨f3, hf3, holeft2, hgrlv, hrll, hrlr⟩ := extract_root_some hrl
        rw [horight] at hr
        have hacy2 := extract_self_not_below (f2 + 1) ((hf2 ▸ hr : extract h (f2 + 1) (some ra) = _))
        have hne_rla_ra : rla ≠ ra := by
          intro he
          refine hacy2.1 ?_
          rw [← he]
          simp [Tree.addrs]
        have hne_rla_a : rla ≠ a := by
          intro he
          refine hacy.2 ?_
          rw [← he]
          simp [Tree.addrs]
        have hmrll : ∀ c, rlv.left = some c → ∃ m, h.get c = some m := mapped_child hrll
        have hmrlr : ∀ c, rlv.right = some c → ∃ m, h.get c = some m := mapped_child hrlr
        obtain ⟨v1, v2, hrot⟩ :=
          rotate_right_exact hgrnv holeft2 hne_rla_ra hgrlv hmrrr hmrll hmrlr
        rw [hrot]
        simp only [Option.some_bind]
        have hCa :
            ((((((h.setLeft ra none).setRight rla none).setLeft ra rlv.right).setHeight ra
              v1).setRight rla (some ra)).setHeight rla v2).get a = some n := by
          rw [Heap.get_setHeight_ne _ _ _ (Ne.symm hne_rla_a),
              Heap.get_setRight_ne _ _ _ (Ne.symm hne_rla_a),
              Heap.get_setHeight_ne _ _ _ (Ne.symm hnea),
              Heap.get_setLeft_ne _ _ _ (Ne.symm hnea),
              Heap.get_setRight_ne _ _ _ (Ne.symm hne_rla_a),
              Heap.get_setLeft_ne _ _ _ (Ne.symm hnea)]
          exact hg
        have hCsa := Heap.get_setRight_self hCa (some rla)
        have hCrla :
            ((((((h.setLeft ra none).setRight rla none).setLeft ra rlv.right).setHeight ra
              v1).setRight rla (some ra)).setHeight rla v2).get rla
            = some { rlv with right := some ra, height := v2 } := by
          have e1 : (h.setLeft ra none).get rla = some rlv := by
            rw [Heap.get_setLeft_ne _ _ _ hne_rla_ra]
            exact hgrlv
          have e2 := Heap.get_setRight_self e1 (none : Option Nat)
          have e3 : (((h.setLeft ra none).setRight rla none).setLeft ra rlv.right).get rla
              = some { rlv with right := none } := by
            rw [Heap.get_setLeft_ne _ _ _ hne_rla_ra]
            exact e2
          have e4 : ((((h.setLeft ra none).setRight rla none).setLeft ra
              rlv.right).setHeight ra v1).get rla = some { rlv with right := none } := by
            rw [Heap.get_setHeight_ne _ _ _ hne_rla_ra]
            exact e3
          have e5 := Heap.get_setRight_self e4 (some ra)
          exact Heap.get_setHeight_self e5 v2
        have hC2rla :
            (((((((h.setLeft ra none).setRight rla none).setLeft ra rlv.right).setHeight ra
              v1).setRight rla (some ra)).setHeight rla v2).setRight a (some rla)).get rla
            = some { rlv with right := some ra, height := v2 } := by
          rw [Heap.get_setRight_ne _ _ _ hne_rla_a]
          exact hCrla
        have hfrC : Frame h
            (((((((h.setLeft ra none).setRight rla none).setLeft ra rlv.right).setHeight ra
              v1).setRight rla (some ra)).setHeight rla v2).setRight a (some rla)) :=
          Frame.trans (frame_setLeft _ _ _)
            (Frame.trans (frame_setRight _ _ _)
              (Frame.trans (frame_setLeft _ _ _)
                (Frame.trans (frame_setHeight _ _ _)
                  (Frame.trans (frame_setRight _ _ _)
                    (Frame.trans (frame_setHeight _ _ _) (frame_setRight _ _ _))))))
        obtain ⟨w1, w2, hrr⟩ := rotate_left_exact hCsa (Eq.refl _) hne_rla_a hC2rla
          (fun c hc2 => Frame.mapped hfrC (hmnl c hc2))
          (fun c hc2 => Frame.mapped hfrC (hmrll c hc2))
          (fun c hc2 => Frame.mapped hfrC
            ((Option.some.inj hc2) ▸ (⟨rnv, hgrnv⟩ : ∃ m, h.get ra = some m)))
        exact ⟨_, hrr⟩
      · rw [if_neg (by simp only [decide_eq_true_eq]; exact hc)]
        obtain ⟨v1, v2, hrr⟩ := rotate_left_exact hg horight hnea hgrnv hmnl hmrrl hmrrr
        exact ⟨_, hrr⟩
    · rw [if_neg hb2]
      exact ⟨(a, h), Eq.refl _⟩

/-- Witness for C10: rebalance succeeds on the accurate-height node at
address 10 of the two-node heap `hW`. -/
theorem C10_rebalance_total_witness : ∃ res, rebalance hW 10 = some res :=
  @C10_rebalance_total hW 2 10
    (Tree.node 10 ⟨50, 2, some 20, none, 42⟩
      (Tree.node 20 ⟨30, 1, none, none, 52⟩ Tree.leaf Tree.leaf) Tree.leaf)
    (by decide) (by decide)

/-! ## Extraction surgery toolkit for the deletion-preservation proof -/

theorem extract_leaf (h : Heap) (f : Nat) : extract h f none = some .leaf := by
  cases f <;> simp [extract]

theorem extract_some_node {h : Heap} {f : Nat} {c : Nat} {u : Tree}
    (H : extract h f (some c) = some u) : ∃ n l r, u = .node c n l r := by
  cases f with
  | zero => simp [extract] at H
  | succ f =>
      obtain ⟨n, l, r, _, _, _, ht⟩ := extract_node_inv H
      exact ⟨n, l, r, ht⟩

theorem extract_assemble {h : Heap} {a : Nat} {n : Node} {fl : Nat} {l r : Tree}
    (hg : h.get a = some n) (hl : extract h fl n.left = some l)
    (hr : extract h fl n.right = some r) :
    extract h (fl + 1) (some a) = some (.node a n l r) := by
  simp only [extract]
  rw [hg]
  simp only [bind, Option.some_bind]
  rw [hl]
  simp only [Option.some_bind]
  rw [hr]
  simp only [Option.some_bind]

/-- Extraction only reads the addresses it returns: any heap that
agrees on them extracts the same tree. -/
theorem extract_congr {h h' : Heap} : ∀ {f : Nat} {o : Option Nat} {t : Tree},
    extract h f o = some t → (∀ b ∈ t.addrs, h'.get b = h.get b) →
    extract h' f o = some t := by
  intro f
  induction f with
  | zero =>
      intro o t H _
      cases o with
      | none => exact H
      | some a => simp [extract] at H
  | succ f ih =>
      intro o t H hag
      cases o with
      | none => exact H
      | some a =>
          obtain ⟨n, l, r, hg, hl, hr, ht⟩ := extract_node_inv H
          subst ht
          simp only [extract]
          rw [hag a (by simp [Tree.addrs]), hg]
          simp only [bind, Option.some_bind]
          rw [ih hl (fun b hb => hag b (by
            simp only [Tree.addrs, List.mem_cons, List.mem_append]
            exact Or.inr (Or.inl hb)))]
          simp only [Option.some_bind]
          rw [ih hr (fun b hb => hag b (by
            simp only [Tree.addrs, List.mem_cons, List.mem_append]
            exact Or.inr (Or.inr hb)))]
          simp only [Option.some_bind]

theorem nodup_node {a : Nat} {n : Node} {l r : Tree} :
    (Tree.node a n l r).addrs.Nodup ↔
      a ∉ l.addrs ∧ a ∉ r.addrs ∧ l.addrs.Nodup ∧ r.addrs.Nodup ∧
        ∀ b ∈ l.addrs, b ∉ r.addrs := by
  simp only [Tree.addrs, List.nodup_cons, List.nodup_append, List.mem_append]
  constructor
  · rintro ⟨h1, h2, h3, h4⟩
    exact ⟨fun hm => h1 (Or.inl hm), fun hm => h1 (Or.inr hm), h2, h3,
      fun b hb hbr => h4 hb hbr⟩
  · rintro ⟨h1, h2, h3, h4, h5⟩
    exact ⟨fun hm => hm.elim h1 h2, h3, h4, fun b hb hbr => h5 b hb hbr⟩

theorem bst_node {a : Nat} {n : Node} {l r : Tree}
    (H : (Tree.node a n l r).bstOK = true) :
    l.allLt n.size = true ∧ r.allGt n.size = true ∧ l.bstOK = true ∧ r.bstOK = true := by
  simp only [Tree.bstOK, Bool.and_eq_true] at H
  exact ⟨H.1.1.1, H.1.1.2, H.1.2, H.2⟩

theorem mem_addrs_root (a : Nat) (n : Node) (l r : Tree) :
    a ∈ (Tree.node a n l r).addrs := by
  simp [Tree.addrs]

/-- Any successfully extracted reachable tree is free of self-loops:
extraction consumes fuel on each level, so a node whose child pointer
named itself could not have been extracted. -/
theorem extract_selfLoopFree {h : Heap} : ∀ {f : Nat} {o : Option Nat} {t : Tree},
    extract h f o = some t → t.selfLoopFree = true := by
  intro f
  induction f with
  | zero =>
      intro o t H
      cases o with
      | none =>
          simp only [extract, Option.some.injEq] at H
          subst H
          rfl
      | some a => simp [extract] at H
  | succ f ih =>
      intro o t H
      cases o with
      | none =>
          simp only [extract, Option.some.injEq] at H
          subst H
          rfl
      | some a =>
          obtain ⟨n, l, r, hg, hl, hr, ht⟩ := extract_node_inv H
          subst ht
          have hnb := extract_self_not_below (f + 1) H
          simp only [Tree.selfLoopFree, Bool.and_eq_true, decide_eq_true_eq]
          refine ⟨⟨⟨?_, ?_⟩, ih hl⟩, ih hr⟩
          · intro hla
            rw [hla] at hl
            obtain ⟨n2, l2, r2, ht2⟩ := extract_some_node hl
            subst ht2
            exact hnb.1 (by simp [Tree.addrs])
          · intro hra
            rw [hra] at hr
            obtain ⟨n2, l2, r2, ht2⟩ := extract_some_node hr
            subst ht2
            exact hnb.2 (by simp [Tree.addrs])

theorem mem_addrs_left {b a : Nat} {n : Node} {l r : Tree}
    (hb : b ∈ l.addrs) : b ∈ (Tree.node a n l r).addrs := by
  simp only [Tree.addrs, List.mem_cons, List.mem_append]
  exact Or.inr (Or.inl hb)

theorem mem_addrs_right {b a : Nat} {n : Node} {l r : Tree}
    (hb : b ∈ r.addrs) : b ∈ (Tree.node a n l r).addrs := by
  simp only [Tree.addrs, List.mem_cons, List.mem_append]
  exact Or.inr (Or.inr hb)

theorem setLeft_as_set {h : Heap} {a : Nat} {n : Node} (hg : h.get a = some n)
    (v : Option Nat) : h.setLeft a v = h.set a { n with left := v } := by
  unfold Heap.setLeft
  rw [hg]

theorem setRight_as_set {h : Heap} {a : Nat} {n : Node} (hg : h.get a = some n)
    (v : Option Nat) : h.setRight a v = h.set a { n with right := v } := by
  unfold Heap.setRight
  rw [hg]

theorem setHeight_as_set {h : Heap} {a : Nat} {n : Node} (hg : h.get a = some n)
    (v : Int) : h.setHeight a v = h.set a { n with height := v } := by
  unfold Heap.setHeight
  rw [hg]

/-- Overwriting the root node of an extracted subtree with a value
that keeps both child pointers re-extracts the same children under the
new root value. -/
theorem extract_set_root {h : Heap} {f : Nat} {a : Nat} {n : Node} {l r : Tree}
    (H : extract h f (some a) = some (.node a n l r)) (n' : Node)
    (hl' : n'.left = n.left) (hr' : n'.right = n.right) :
    extract (h.set a n') f (some a) = some (.node a n' l r) := by
  obtain ⟨f2, hf, _, hg, hl, hr⟩ := extract_root_some H
  subst hf
  have hnb := extract_self_not_below (f2 + 1) H
  simp only [extract]
  rw [Heap.get_set_self]
  simp only [bind, Option.some_bind]
  rw [hl']
  rw [extract_congr hl (fun b hb => Heap.get_set_ne h a b n' (fun he => hnb.1 (he ▸ hb)))]
  simp only [Option.some_bind]
  rw [hr']
  rw [extract_congr hr (fun b hb => Heap.get_set_ne h a b n' (fun he => hnb.2 (he ▸ hb)))]
  simp only [Option.some_bind]

/-- A successful `update_height` only rewrites the node's stored
height: the same subtree re-extracts with the root value updated, and
every other address is untouched. -/
theorem update_height_extract {h : Heap} {f : Nat} {a : Nat} {n : Node} {l r : Tree}
    {h1 : Heap} (H : update_height h a = some h1)
    (hex : extract h f (some a) = some (.node a n l r)) :
    ∃ n', h1 = h.set a n' ∧ n'.left = n.left ∧ n'.right = n.right ∧
      n'.size = n.size ∧
      extract h1 f (some a) = some (.node a n' l r) ∧
      ∀ b, b ≠ a → h1.get b = h.get b := by
  obtain ⟨f2, hf, _, hg, hl, hr⟩ := extract_root_some hex
  unfold update_height at H
  rw [hg] at H
  simp only [bind, Option.some_bind, Option.bind_eq_some, Option.some.injEq] at H
  obtain ⟨x, hx, y, hy, hh1⟩ := H
  refine ⟨{ n with height := max x y + 1 }, ?_, rfl, rfl, rfl, ?_, ?_⟩
  · rw [← hh1]
    exact setHeight_as_set hg _
  · rw [← hh1, setHeight_as_set hg]
    exact extract_set_root hex { n with height := max x y + 1 } rfl rfl
  · intro b hb
    rw [← hh1, setHeight_as_set hg]
    exact Heap.get_set_ne _ _ _ _ hb

/-- After a successful `rotate_right` on the root of an extracted
subtree with distinct addresses: the promoted left child extracts (the
full rotated subtree) and the demoted node extracts (what a caller
that keeps pointing at the old address still reaches); all writes stay
inside the original subtree's addresses. -/
theorem rotate_right_extract {h : Heap} {f : Nat} {p : Nat} {S : Tree} {q : Nat}
    {h' : Heap} (hex : extract h f (some p) = some S) (hnd : S.addrs.Nodup)
    (H : rotate_right h p = some (q, h')) :
    ∃ f' Sq Sp, extract h' f' (some q) = some Sq ∧ extract h' f' (some p) = some Sp ∧
      Sq.addrs ⊆ S.addrs ∧ Sp.addrs ⊆ S.addrs ∧ Sq.addrs.Nodup ∧ Sp.addrs.Nodup ∧
      ∀ b, b ∉ S.addrs → h'.get b = h.get b := by
  obtain ⟨n0, Sl, Sr, hS⟩ := extract_some_node hex
  subst hS
  obtain ⟨f1, hf1, _, hg, hSl, hSr⟩ := extract_root_some hex
  subst hf1
  have hnbp := extract_self_not_below (f1 + 1) hex
  unfold rotate_right at H
  simp only [bind, Option.bind_eq_some, Option.some.injEq, Prod.mk.injEq] at H
  obtain ⟨n, hg2, la, hnl, ln, hgl, h4, hu4, h6, hu6, hq, hh'⟩ := H
  rw [hg] at hg2
  have hnn := Option.some.inj hg2
  subst hnn
  rw [hnl] at hSl
  obtain ⟨lnv, Sll, Slr, hSlsh⟩ := extract_some_node hSl
  subst hSlsh
  obtain ⟨f2, hf2, _, hgl0, hSll, hSlr⟩ := extract_root_some hSl
  subst hf2
  have hnbl := extract_self_not_below (f2 + 1) hSl
  have hlap : la ≠ p := fun he => hnbp.1 (he ▸ mem_addrs_root la lnv Sll Slr)
  rw [Heap.get_setLeft_ne h p none hlap, hgl0] at hgl
  have hlneq := Option.some.inj hgl
  subst hlneq
  obtain ⟨hpSl, hpSr, hndSl, hndSr, hdisj⟩ := nodup_node.mp hnd
  obtain ⟨hlaSll2, hlaSlr2, hndSll, hndSlr, hdisjl⟩ := nodup_node.mp hndSl
  have hpSll : p ∉ Sll.addrs := fun hm => hpSl (mem_addrs_left hm)
  have hpSlr : p ∉ Slr.addrs := fun hm => hpSl (mem_addrs_right hm)
  have hlaSr : la ∉ Sr.addrs := hdisj la (mem_addrs_root _ _ _ _)
  have hdisjSlrSr : ∀ b ∈ Slr.addrs, b ∉ Sr.addrs :=
    fun b hb => hdisj b (mem_addrs_right hb)
  set h3 : Heap := ((h.setLeft p none).setRight la none).setLeft p lnv.right with hh3
  have ag3 : ∀ b, b ≠ p → b ≠ la → h3.get b = h.get b := by
    intro b hbp hbla
    rw [hh3, Heap.get_setLeft_ne _ _ _ hbp, Heap.get_setRight_ne _ _ _ hbla,
      Heap.get_setLeft_ne _ _ _ hbp]
  have g2p : ((h.setLeft p none).setRight la none).get p = some { n0 with left := none } := by
    rw [Heap.get_setRight_ne _ _ _ (Ne.symm hlap)]
    exact Heap.get_setLeft_self hg none
  have g3p : h3.get p = some { n0 with left := lnv.right } := by
    rw [hh3]
    exact Heap.get_setLeft_self g2p lnv.right
  have hSlr3 : extract h3 f2 lnv.right = some Slr :=
    extract_congr hSlr (fun b hb =>
      ag3 b (fun he => hpSlr (he ▸ hb)) (fun he => hnbl.2 (he ▸ hb)))
  have hSr3 : extract h3 (f2 + 1) n0.right = some Sr :=
    extract_congr hSr (fun b hb =>
      ag3 b (fun he => hpSr (he ▸ hb)) (fun he => hlaSr (he ▸ hb)))
  have hex3 : extract h3 (f2 + 2) (some p) =
      some (.node p { n0 with left := lnv.right } Slr Sr) :=
    extract_assemble g3p (extract_mono hSlr3 (by omega)) hSr3
  obtain ⟨n4, hh4, hn4l, hn4r, hn4s, hex4, ag4⟩ := update_height_extract hu4 hex3
  have hlanotin : la ∉ (Tree.node p n4 Slr Sr).addrs := by
    simp only [Tree.addrs, List.mem_cons, List.mem_append]
    push_neg
    exact ⟨hlap, hnbl.2, hlaSr⟩
  have g4la : h4.get la = some { lnv with right := none } := by
    rw [ag4 la hlap, hh3, Heap.get_setLeft_ne _ _ _ hlap]
    refine Heap.get_setRight_self ?_ none
    rw [Heap.get_setLeft_ne h p none hlap]
    exact hgl0
  set h5 : Heap := h4.setRight la (some p) with hh5
  have g5la : h5.get la = some { lnv with right := some p } := by
    rw [hh5]
    exact Heap.get_setRight_self g4la (some p)
  have hex5p : extract h5 (f2 + 2) (some p) = some (.node p n4 Slr Sr) :=
    extract_congr hex4 (fun b hb => by
      rw [hh5]
      exact Heap.get_setRight_ne _ _ _ (fun he => hlanotin (he ▸ hb)))
  have hSll5 : extract h5 f2 lnv.left = some Sll :=
    extract_congr hSll (fun b hb => by
      have hbla : b ≠ la := fun he => hnbl.1 (he ▸ hb)
      have hbp : b ≠ p := fun he => hpSll (he ▸ hb)
      rw [hh5, Heap.get_setRight_ne _ _ _ hbla, ag4 b hbp]
      exact ag3 b hbp hbla)
  have hex5 : extract h5 (f2 + 3) (some la) =
      some (.node la { lnv with right := some p } Sll (.node p n4 Slr Sr)) :=
    extract_assemble g5la (extract_mono hSll5 (by omega)) hex5p
  obtain ⟨n6, hh6, hn6l, hn6r, hn6s, hex6, ag6⟩ := update_height_extract hu6 hex5
  subst hh'
  subst hq
  have hexp' : extract h6 (f2 + 2) (some p) = some (.node p n4 Slr Sr) :=
    extract_congr hex5p (fun b hb => ag6 b (fun he => hlanotin (he ▸ hb)))
  refine ⟨f2 + 3, _, _, hex6, extract_mono hexp' (by omega), ?_, ?_, ?_, ?_, ?_⟩
  · intro b hb
    simp only [Tree.addrs, List.mem_cons, List.mem_append] at hb ⊢
    tauto
  · intro b hb
    simp only [Tree.addrs, List.mem_cons, List.mem_append] at hb ⊢
    tauto
  · refine nodup_node.mpr ⟨hnbl.1, hlanotin,
      hndSll, nodup_node.mpr ⟨hpSlr, hpSr, hndSlr, hndSr, hdisjSlrSr⟩, ?_⟩
    intro b hb
    simp only [Tree.addrs, List.mem_cons, List.mem_append]
    push_neg
    exact ⟨fun he => hpSll (he ▸ hb), hdisjl b hb, hdisj b (mem_addrs_left hb)⟩
  · exact nodup_node.mpr ⟨hpSlr, hpSr, hndSlr, hndSr, hdisjSlrSr⟩
  · intro b hb
    have hbp : b ≠ p := fun he => hb (by rw [he]; exact mem_addrs_root _ _ _ _)
    have hbla : b ≠ la :=
      fun he => hb (by rw [he]; exact mem_addrs_left (mem_addrs_root _ _ _ _))
    rw [ag6 b hbla, hh5, Heap.get_setRight_ne _ _ _ hbla, ag4 b hbp]
    exact ag3 b hbp hbla

/-- Mirror of `rotate_right_extract` for `rotate_left`. -/
theorem rotate_left_extract {h : Heap} {f : Nat} {p : Nat} {S : Tree} {q : Nat}
    {h' : Heap} (hex : extract h f (some p) = some S) (hnd : S.addrs.Nodup)
    (H : rotate_left h p = some (q, h')) :
    ∃ f' Sq Sp, extract h' f' (some q) = some Sq ∧ extract h' f' (some p) = some Sp ∧
      Sq.addrs ⊆ S.addrs ∧ Sp.addrs ⊆ S.addrs ∧ Sq.addrs.Nodup ∧ Sp.addrs.Nodup ∧
      ∀ b, b ∉ S.addrs → h'.get b = h.get b := by
  obtain ⟨n0, Sl, Sr, hS⟩ := extract_some_node hex
  subst hS
  obtain ⟨f1, hf1, _, hg, hSl, hSr⟩ := extract_root_some hex
  subst hf1
  have hnbp := extract_self_not_below (f1 + 1) hex
  unfold rotate_left at H
  simp only [bind, Option.bind_eq_some, Option.some.injEq, Prod.mk.injEq] at H
  obtain ⟨n, hg2, ra, hnr, rn, hgr, h4, hu4, h6, hu6, hq, hh'⟩ := H
  rw [hg] at hg2
  have hnn := Option.some.inj hg2
  subst hnn
  rw [hnr] at hSr
  obtain ⟨rnv, Srl, Srr, hSrsh⟩ := extract_some_node hSr
  subst hSrsh
  obtain ⟨f2, hf2, _, hgr0, hSrl, hSrr⟩ := extract_root_some hSr
  subst hf2
  have hnbr := extract_self_not_below (f2 + 1) hSr
  have hrap : ra ≠ p := fun he => hnbp.2 (he ▸ mem_addrs_root ra rnv Srl Srr)
  rw [Heap.get_setRight_ne h p none hrap, hgr0] at hgr
  have hrneq := Option.some.inj hgr
  subst hrneq
  obtain ⟨hpSl, hpSr, hndSl, hndSr, hdisj⟩ := nodup_node.mp hnd
  obtain ⟨hraSrl2, hraSrr2, hndSrl, hndSrr, hdisjr⟩ := nodup_node.mp hndSr
  have hpSrl : p ∉ Srl.addrs := fun hm => hpSr (mem_addrs_left hm)
  have hpSrr : p ∉ Srr.addrs := fun hm => hpSr (mem_addrs_right hm)
  have hraSl : ra ∉ Sl.addrs := fun hm => hdisj ra hm (mem_addrs_root _ _ _ _)
  have hdisjSlSrl : ∀ b ∈ Sl.addrs, b ∉ Srl.addrs :=
    fun b hb hm => hdisj b hb (mem_addrs_left hm)
  set h3 : Heap := ((h.setRight p none).setLeft ra none).setRight p rnv.left with hh3
  have ag3 : ∀ b, b ≠ p → b ≠ ra → h3.get b = h.get b := by
    intro b hbp hbra
    rw [hh3, Heap.get_setRight_ne _ _ _ hbp, Heap.get_setLeft_ne _ _ _ hbra,
      Heap.get_setRight_ne _ _ _ hbp]
  have g2p : ((h.setRight p none).setLeft ra none).get p = some { n0 with right := none } := by
    rw [Heap.get_setLeft_ne _ _ _ (Ne.symm hrap)]
    exact Heap.get_setRight_self hg none
  have g3p : h3.get p = some { n0 with right := rnv.left } := by
    rw [hh3]
    exact Heap.get_setRight_self g2p rnv.left
  have hSrl3 : extract h3 f2 rnv.left = some Srl :=
    extract_congr hSrl (fun b hb =>
      ag3 b (fun he => hpSrl (he ▸ hb)) (fun he => hnbr.1 (he ▸ hb)))
  have hSl3 : extract h3 (f2 + 1) n0.left = some Sl :=
    extract_congr hSl (fun b hb =>
      ag3 b (fun he => hpSl (he ▸ hb)) (fun he => hraSl (he ▸ hb)))
  have hex3 : extract h3 (f2 + 2) (some p) =
      some (.node p { n0 with right := rnv.left } Sl Srl) :=
    extract_assemble g3p hSl3 (extract_mono hSrl3 (by omega))
  obtain ⟨n4, hh4, hn4l, hn4r, hn4s, hex4, ag4⟩ := update_height_extract hu4 hex3
  have hranotin : ra ∉ (Tree.node p n4 Sl Srl).addrs := by
    simp only [Tree.addrs, List.mem_cons, List.mem_append]
    push_neg
    exact ⟨hrap, hraSl, hnbr.1⟩
  have g4ra : h4.get ra = some { rnv with left := none } := by
    rw [ag4 ra hrap, hh3, Heap.get_setRight_ne _ _ _ hrap]
    refine Heap.get_setLeft_self ?_ none
    rw [Heap.get_setRight_ne h p none hrap]
    exact hgr0
  set h5 : Heap := h4.setLeft ra (some p) with hh5
  have g5ra : h5.get ra = some { rnv with left := some p } := by
    rw [hh5]
    exact Heap.get_setLeft_self g4ra (some p)
  have hex5p : extract h5 (f2 + 2) (some p) = some (.node p n4 Sl Srl) :=
    extract_congr hex4 (fun b hb => by
      rw [hh5]
      exact Heap.get_setLeft_ne _ _ _ (fun he => hranotin (he ▸ hb)))
  have hSrr5 : extract h5 f2 rnv.right = some Srr :=
    extract_congr hSrr (fun b hb => by
      have hbra : b ≠ ra := fun he => hnbr.2 (he ▸ hb)
      have hbp : b ≠ p := fun he => hpSrr (he ▸ hb)
      rw [hh5, Heap.get_setLeft_ne _ _ _ hbra, ag4 b hbp]
      exact ag3 b hbp hbra)
  have hex5 : extract h5 (f2 + 3) (some ra) =
      some (.node ra { rnv with left := some p } (.node p n4 Sl Srl) Srr) :=
    extract_assemble g5ra hex5p (extract_mono hSrr5 (by omega))
  obtain ⟨n6, hh6, hn6l, hn6r, hn6s, hex6, ag6⟩ := update_height_extract hu6 hex5
  subst hh'
  subst hq
  have hexp' : extract h6 (f2 + 2) (some p) = some (.node p n4 Sl Srl) :=
    extract_congr hex5p (fun b hb => ag6 b (fun he => hranotin (he ▸ hb)))
  refine ⟨f2 + 3, _, _, hex6, extract_mono hexp' (by omega), ?_, ?_, ?_, ?_, ?_⟩
  · intro b hb
    simp only [Tree.addrs, List.mem_cons, List.mem_append] at hb ⊢
    tauto
  · intro b hb
    simp only [Tree.addrs, List.mem_cons, List.mem_append] at hb ⊢
    tauto
  · refine nodup_node.mpr ⟨hranotin, hnbr.2,
      nodup_node.mpr ⟨hpSl, hpSrl, hndSl, hndSrl, hdisjSlSrl⟩, hndSrr, ?_⟩
    intro b hb
    rcases (by simpa only [Tree.addrs, List.mem_cons, List.mem_append] using hb :
        b = p ∨ b ∈ Sl.addrs ∨ b ∈ Srl.addrs) with he | hm | hm
    · subst he
      exact hpSrr
    · exact fun hm2 => hdisj b hm (mem_addrs_right hm2)
    · exact hdisjr b hm
  · exact nodup_node.mpr ⟨hpSl, hpSrl, hndSl, hndSrl, hdisjSlSrl⟩
  · intro b hb
    have hbp : b ≠ p := fun he => hb (by rw [he]; exact mem_addrs_root _ _ _ _)
    have hbra : b ≠ ra :=
      fun he => hb (by rw [he]; exact mem_addrs_right (mem_addrs_root _ _ _ _))
    rw [ag6 b hbra, hh5, Heap.get_setLeft_ne _ _ _ hbra, ag4 b hbp]
    exact ag3 b hbp hbra

/-- A successful `rebalance` on the root of an extracted subtree with
distinct addresses: both the returned subtree root and the original
address still extract afterwards, with addresses drawn from the
original subtree, and no write lands outside it.  (Rotations may drop
part of the subtree; the conclusion only claims address inclusion.) -/
theorem rebalance_extract {h : Heap} {f : Nat} {p : Nat} {S : Tree} {q : Nat}
    {h' : Heap} (hex : extract h f (some p) = some S) (hnd : S.addrs.Nodup)
    (H : rebalance h p = some (q, h')) :
    ∃ f' Sq Sp, extract h' f' (some q) = some Sq ∧ extract h' f' (some p) = some Sp ∧
      Sq.addrs ⊆ S.addrs ∧ Sp.addrs ⊆ S.addrs ∧ Sq.addrs.Nodup ∧ Sp.addrs.Nodup ∧
      ∀ b, b ∉ S.addrs → h'.get b = h.get b := by
  obtain ⟨n0, Sl, Sr, hS⟩ := extract_some_node hex
  subst hS
  unfold rebalance at H
  simp only [bind, Option.bind_eq_some, Option.some.injEq] at H
  obtain ⟨h1, hu1, bal, hbal, H⟩ := H
  obtain ⟨n1, hh1, hn1l, hn1r, hn1s, hex1, ag1⟩ := update_height_extract hu1 hex
  have hnd1 : (Tree.node p n1 Sl Sr).addrs.Nodup := hnd
  have agS : ∀ b, b ∉ (Tree.node p n0 Sl Sr).addrs → h1.get b = h.get b :=
    fun b hb => ag1 b (fun he => hb (by rw [he]; exact mem_addrs_root _ _ _ _))
  obtain ⟨f1, hf1, _, hg1b, hSl1, hSr1⟩ := extract_root_some hex1
  obtain ⟨hpSl, hpSr, hndSl, hndSr, hdisj⟩ := nodup_node.mp hnd1
  split at H
  · -- balance factor above 1: right rotation, possibly preceded by a
    -- left rotation of the left child
    simp only [bind, Option.bind_eq_some, Option.some.injEq] at H
    obtain ⟨n, hg1, H⟩ := H
    rw [hg1b] at hg1
    have hne := Option.some.inj hg1
    subst hne
    cases hnl : n1.left <;> rw [hnl] at H <;>
      simp only [bind, Option.bind_eq_some, Option.some_bind, Option.none_bind,
        Option.some.injEq, decide_eq_true_eq] at H
    · split at H
      · next hC => simp at hC
      · obtain ⟨f', Sq, Sp, e1, e2, s1, s2, d1, d2, agr⟩ :=
          rotate_right_extract hex1 hnd1 H
        exact ⟨f', Sq, Sp, e1, e2, s1, s2, d1, d2,
          fun b hb => (agr b hb).trans (agS b hb)⟩
    · obtain ⟨b0, hb0, H⟩ := H
      split at H
      · -- left child is right-heavy: rotate it left first
        simp only [bind, Option.bind_eq_some, Option.some_bind, Option.some.injEq] at H
        obtain ⟨n2, hg2, l2, hl2, pr, hrot, H⟩ := H
        obtain ⟨nl, h5⟩ := pr
        rw [hg1b] at hg2
        have hne2 := Option.some.inj hg2
        subst hne2
        rw [hnl] at hl2
        have hne3 := Option.some.inj hl2
        subst hne3
        rw [hnl] at hSl1
        obtain ⟨fi, Tq, Tp, ei1, ei2, si1, si2, di1, di2, agri⟩ :=
          rotate_left_extract hSl1 hndSl hrot
        have hpTq : p ∉ Tq.addrs := fun hm => hpSl (si1 hm)
        have g5p : h5.get p = some n1 := by
          rw [agri p hpSl]
          exact hg1b
        have g6p : (h5.setLeft p (some nl)).get p = some { n1 with left := some nl } :=
          Heap.get_setLeft_self g5p (some nl)
        have hTq6 : extract (h5.setLeft p (some nl)) fi (some nl) = some Tq :=
          extract_congr ei1 (fun b hb =>
            Heap.get_setLeft_ne _ _ _ (fun he => hpTq (he ▸ hb)))
        have hSr6 : extract (h5.setLeft p (some nl)) f1 n1.right = some Sr :=
          extract_congr hSr1 (fun b hb => by
            have hbp : b ≠ p := fun he => hpSr (he ▸ hb)
            have hbSl : b ∉ Sl.addrs := fun hm => hdisj b hm hb
            rw [Heap.get_setLeft_ne _ _ _ hbp]
            exact agri b hbSl)
        have hex6 : extract (h5.setLeft p (some nl)) (max fi f1 + 1) (some p) =
            some (.node p { n1 with left := some nl } Tq Sr) :=
          extract_assemble g6p (extract_mono hTq6 (Nat.le_max_left _ _))
            (extract_mono hSr6 (Nat.le_max_right _ _))
        have hnd6 : (Tree.node p { n1 with left := some nl } Tq Sr).addrs.Nodup :=
          nodup_node.mpr ⟨hpTq, hpSr, di1, hndSr,
            fun b hb => hdisj b (si1 hb)⟩
        obtain ⟨f', Sq, Sp, e1, e2, s1, s2, d1, d2, agr⟩ :=
          rotate_right_extract hex6 hnd6 H
        have hsub : (Tree.node p { n1 with left := some nl } Tq Sr).addrs ⊆
            (Tree.node p n0 Sl Sr).addrs := by
          intro b hb
          rcases (by simpa only [Tree.addrs, List.mem_cons, List.mem_append] using hb :
              b = p ∨ b ∈ Tq.addrs ∨ b ∈ Sr.addrs) with he | hm | hm
          · subst he
            exact mem_addrs_root _ _ _ _
          · exact mem_addrs_left (si1 hm)
          · exact mem_addrs_right hm
        refine ⟨f', Sq, Sp, e1, e2, fun b hb => hsub (s1 hb), fun b hb => hsub (s2 hb),
          d1, d2, ?_⟩
        intro b hb
        have hbmid : b ∉ (Tree.node p { n1 with left := some nl } Tq Sr).addrs :=
          fun hm => hb (hsub hm)
        have hbp : b ≠ p := fun he => hb (by rw [he]; exact mem_addrs_root _ _ _ _)
        have hbSl : b ∉ Sl.addrs := fun hm => hb (mem_addrs_left hm)
        rw [agr b hbmid, Heap.get_setLeft_ne _ _ _ hbp, agri b hbSl]
        exact agS b hb
      · obtain ⟨f', Sq, Sp, e1, e2, s1, s2, d1, d2, agr⟩ :=
          rotate_right_extract hex1 hnd1 H
        exact ⟨f', Sq, Sp, e1, e2, s1, s2, d1, d2,
          fun b hb => (agr b hb).trans (agS b hb)⟩
  · split at H
    · -- balance factor below -1: mirror image
      simp only [bind, Option.bind_eq_some, Option.some.injEq] at H
      obtain ⟨n, hg1, H⟩ := H
      rw [hg1b] at hg1
      have hne := Option.some.inj hg1
      subst hne
      cases hnr : n1.right <;> rw [hnr] at H <;>
        simp only [bind, Option.bind_eq_some, Option.some_bind, Option.none_bind,
          Option.some.injEq, decide_eq_true_eq] at H
      · split at H
        · next hC => simp at hC
        · obtain ⟨f', Sq, Sp, e1, e2, s1, s2, d1, d2, agr⟩ :=
            rotate_left_extract hex1 hnd1 H
          exact ⟨f', Sq, Sp, e1, e2, s1, s2, d1, d2,
            fun b hb => (agr b hb).trans (agS b hb)⟩
      · obtain ⟨b0, hb0, H⟩ := H
        split at H
        · simp only [bind, Option.bind_eq_some, Option.some_bind, Option.some.injEq] at H
          obtain ⟨n2, hg2, r2, hr2, pr, hrot, H⟩ := H
          obtain ⟨nr, h5⟩ := pr
          rw [hg1b] at hg2
          have hne2 := Option.some.inj hg2
          subst hne2
          rw [hnr] at hr2
          have hne3 := Option.some.inj hr2
          subst hne3
          rw [hnr] at hSr1
          obtain ⟨fi, Tq, Tp, ei1, ei2, si1, si2, di1, di2, agri⟩ :=
            rotate_right_extract hSr1 hndSr hrot
          have hpTq : p ∉ Tq.addrs := fun hm => hpSr (si1 hm)
          have g5p : h5.get p = some n1 := by
            rw [agri p hpSr]
            exact hg1b
          have g6p : (h5.setRight p (some nr)).get p = some { n1 with right := some nr } :=
            Heap.get_setRight_self g5p (some nr)
          have hTq6 : extract (h5.setRight p (some nr)) fi (some nr) = some Tq :=
            extract_congr ei1 (fun b hb =>
              Heap.get_setRight_ne _ _ _ (fun he => hpTq (he ▸ hb)))
          have hSl6 : extract (h5.setRight p (some nr)) f1 n1.left = some Sl :=
            extract_congr hSl1 (fun b hb => by
              have hbp : b ≠ p := fun he => hpSl (he ▸ hb)
              have hbSr : b ∉ Sr.addrs := hdisj b hb
              rw [Heap.get_setRight_ne _ _ _ hbp]
              exact agri b hbSr)
          have hex6 : extract (h5.setRight p (some nr)) (max fi f1 + 1) (some p) =
              some (.node p { n1 with right := some nr } Sl Tq) :=
            extract_assemble g6p (extract_mono hSl6 (Nat.le_max_right _ _))
              (extract_mono hTq6 (Nat.le_max_left _ _))
          have hnd6 : (Tree.node p { n1 with right := some nr } Sl Tq).addrs.Nodup :=
            nodup_node.mpr ⟨hpSl, hpTq, hndSl, di1,
              fun b hb hm => hdisj b hb (si1 hm)⟩
          obtain ⟨f', Sq, Sp, e1, e2, s1, s2, d1, d2, agr⟩ :=
            rotate_left_extract hex6 hnd6 H
          have hsub : (Tree.node p { n1 with right := some nr } Sl Tq).addrs ⊆
              (Tree.node p n0 Sl Sr).addrs := by
            intro b hb
            rcases (by simpa only [Tree.addrs, List.mem_cons, List.mem_append] using hb :
                b = p ∨ b ∈ Sl.addrs ∨ b ∈ Tq.addrs) with he | hm | hm
            · subst he
              exact mem_addrs_root _ _ _ _
            · exact mem_addrs_left hm
            · exact mem_addrs_right (si1 hm)
          refine ⟨f', Sq, Sp, e1, e2, fun b hb => hsub (s1 hb), fun b hb => hsub (s2 hb),
            d1, d2, ?_⟩
          intro b hb
          have hbmid : b ∉ (Tree.node p { n1 with right := some nr } Sl Tq).addrs :=
            fun hm => hb (hsub hm)
          have hbp : b ≠ p := fun he => hb (by rw [he]; exact mem_addrs_root _ _ _ _)
          have hbSr : b ∉ Sr.addrs := fun hm => hb (mem_addrs_right hm)
          rw [agr b hbmid, Heap.get_setRight_ne _ _ _ hbp, agri b hbSr]
          exact agS b hb
        · obtain ⟨f', Sq, Sp, e1, e2, s1, s2, d1, d2, agr⟩ :=
            rotate_left_extract hex1 hnd1 H
          exact ⟨f', Sq, Sp, e1, e2, s1, s2, d1, d2,
            fun b hb => (agr b hb).trans (agS b hb)⟩
    · -- balance factor within range: only the height write happened
      rw [Option.some.injEq, Prod.mk.injEq] at H
      obtain ⟨hq, hh'⟩ := H
      subst hq
      subst hh'
      exact ⟨f, _, _, hex1, hex1, fun b hb => hb, fun b hb => hb, hnd1, hnd1, agS⟩

theorem allGt_node {k a : Nat} {n : Node} {l r : Tree}
    (H : (Tree.node a n l r).allGt k = true) :
    k < n.size ∧ l.allGt k = true ∧ r.allGt k = true := by
  simp only [Tree.allGt, Bool.and_eq_true, decide_eq_true_eq] at H
  exact ⟨H.1.1, H.1.2, H.2⟩

/-- What `get_min` returns on an extracted subtree with distinct
addresses: either it stops immediately (the start node has no left
child and the carried parent is echoed back), or it returns a live
leftmost node (no left child) inside the subtree together with its
actual parent, whose `left` slot — and not its `right` slot — holds
the successor. -/
theorem get_min_char (h0 : Heap) : ∀ (g : Nat) (c p0 f : Nat) (U : Tree)
    (succ sp : Nat),
    get_min h0 g c p0 = some (succ, sp) →
    extract h0 f (some c) = some U → U.addrs.Nodup →
    (succ = c ∧ sp = p0 ∧ ∃ cv, h0.get c = some cv ∧ cv.left = none)
    ∨ (succ ∈ U.addrs ∧ sp ∈ U.addrs ∧
        (∃ sv, h0.get succ = some sv ∧ sv.left = none) ∧
        (∃ spn, h0.get sp = some spn ∧ spn.left = some succ ∧ spn.right ≠ some succ) ∧
        succ ≠ sp) := by
  intro g
  induction g with
  | zero =>
      intro c p0 f U succ sp H hex hnd
      simp [get_min] at H
  | succ g ih =>
      intro c p0 f U succ sp H hex hnd
      obtain ⟨cv, L, R, hU⟩ := extract_some_node hex
      subst hU
      obtain ⟨f1, hf1, _, hgc, hL, hR⟩ := extract_root_some hex
      have hnbc := extract_self_not_below f hex
      obtain ⟨hcL, hcR, hndL, hndR, hdisj⟩ := nodup_node.mp hnd
      simp only [get_min, bind, Option.bind_eq_some] at H
      obtain ⟨n, hgc2, H⟩ := H
      rw [hgc] at hgc2
      have hne := Option.some.inj hgc2
      subst hne
      cases hnl : cv.left <;> rw [hnl] at H
      · simp only [Option.some.injEq, Prod.mk.injEq] at H
        exact Or.inl ⟨H.1.symm, H.2.symm, cv, hgc, hnl⟩
      · next la =>
        rw [hnl] at hL
        rcases ih la c f1 L succ sp H hL hndL with
          ⟨hsucc, hsp, lv2, hglv2, hlv2l⟩ | ⟨hsU, hspU, hsv, hspn, hnesp⟩
        · obtain ⟨lv, Ll, Lr, hLsh⟩ := extract_some_node hL
          subst hLsh
          refine Or.inr ⟨?_, ?_, ⟨lv2, by rw [hsucc]; exact hglv2, hlv2l⟩,
            ⟨cv, by rw [hsp]; exact hgc, ?_, ?_⟩, ?_⟩
          · rw [hsucc]
            exact mem_addrs_left (mem_addrs_root _ _ _ _)
          · rw [hsp]
            exact mem_addrs_root _ _ _ _
          · rw [hsucc, hnl]
          · intro heq
            rw [hsucc] at heq
            rw [heq] at hR
            obtain ⟨xv, xl, xr, hRsh⟩ := extract_some_node hR
            subst hRsh
            exact hdisj la (mem_addrs_root _ _ _ _) (mem_addrs_root _ _ _ _)
          · intro heq
            rw [hsucc, hsp] at heq
            rw [heq] at hnbc
            exact hnbc.1 (mem_addrs_root _ _ _ _)
        · exact Or.inr ⟨mem_addrs_left hsU, mem_addrs_left hspU, hsv, hspn, hnesp⟩

/-- After `swap_nodes` writes the relocated target into the
successor's old slot (the `SearchDelete` shape: the successor's parent
`left`-points at the target `a`, which wears the successor's old
header), the subtree the re-descent then searches re-extracts as a
left spine of larger capacities ending at the relocated target. -/
theorem spine_surgery (h0 h_sw : Heap) (size a : Nat) : ∀ (g : Nat) (c p0 f : Nat)
    (U : Tree) (succ sp : Nat),
    get_min h0 g c p0 = some (succ, sp) →
    extract h0 f (some c) = some U → U.addrs.Nodup → U.allGt size = true →
    a ∉ U.addrs →
    (∀ b, b ∈ U.addrs → b ≠ succ → b ≠ sp → h_sw.get b = h0.get b) →
    (∀ spn, h0.get sp = some spn → h_sw.get sp = some { spn with left := some a }) →
    (∀ sv, h0.get succ = some sv →
        ∃ av, h_sw.get a = some av ∧ av.size = size ∧ av.left = none ∧
          av.right = sv.right) →
    (succ = c ∧ sp = p0) ∨
    (∃ f2 U2, extract h_sw f2 (some c) = some U2 ∧ U2.minSpine size = true ∧
      U2.addrs.Nodup ∧ ∀ b ∈ U2.addrs, (b = a ∨ b ∈ U.addrs) ∧ b ≠ succ) := by
  intro g
  induction g with
  | zero =>
      intro c p0 f U succ sp H hex hnd hgt hanot hagree hspv hav
      simp [get_min] at H
  | succ g ih =>
      intro c p0 f U succ sp H hex hnd hgt hanot hagree hspv hav
      obtain ⟨cv, L, R, hU⟩ := extract_some_node hex
      subst hU
      obtain ⟨f1, hf1, _, hgc, hL, hR⟩ := extract_root_some hex
      subst hf1
      have hnbc := extract_self_not_below (f1 + 1) hex
      obtain ⟨hcL, hcR, hndL, hndR, hdisj⟩ := nodup_node.mp hnd
      obtain ⟨hszc, hgtL, hgtR⟩ := allGt_node hgt
      simp only [get_min, bind, Option.bind_eq_some] at H
      obtain ⟨n, hgc2, H⟩ := H
      rw [hgc] at hgc2
      have hne := Option.some.inj hgc2
      subst hne
      cases hnl : cv.left <;> rw [hnl] at H
      · simp only [Option.some.injEq, Prod.mk.injEq] at H
        exact Or.inl ⟨H.1.symm, H.2.symm⟩
      · next la =>
        rw [hnl] at hL
        refine Or.inr ?_
        rcases get_min_char h0 g la c f1 L succ sp H hL hndL with
          ⟨hsucc, hsp, lv2, hglv2, hlv2l⟩ | ⟨hsU, hspU, hsv0, hspn0, hnesp0⟩
        · -- the walk stops at la: the successor is cv's left child and
          -- its parent is c itself; assemble the relocated target
          subst hsucc
          subst hsp
          obtain ⟨lv, Ll, Lr, hLsh⟩ := extract_some_node hL
          subst hLsh
          obtain ⟨f2, hf2, _, hglv, hLl, hLr⟩ := extract_root_some hL
          subst hf2
          have hnbl := extract_self_not_below (f2 + 1) hL
          rw [hglv] at hglv2
          have hlve := Option.some.inj hglv2
          have hlvl : lv.left = none := by rw [hlve]; exact hlv2l
          have hgetc : h_sw.get sp = some { cv with left := some a } := hspv cv hgc
          obtain ⟨av, hava, havs, havl, havr⟩ := hav lv hglv
          have hLr2 : extract h_sw f2 lv.right = some Lr :=
            extract_congr hLr (fun b hb => hagree b
              (mem_addrs_left (mem_addrs_right hb))
              (fun he => hnbl.2 (he ▸ hb))
              (fun he => hcL (he ▸ mem_addrs_right hb)))
          have hexa : extract h_sw (f2 + 1) (some a) = some (.node a av .leaf Lr) :=
            extract_assemble hava (by rw [havl]; exact extract_leaf _ _)
              (by rw [havr]; exact hLr2)
          have hR2 : extract h_sw (f2 + 1) cv.right = some R :=
            extract_congr hR (fun b hb => hagree b (mem_addrs_right hb)
              (fun he => hdisj succ (mem_addrs_root _ _ _ _) (he ▸ hb))
              (fun he => hnbc.2 (he ▸ hb)))
          have hexw : extract h_sw (f2 + 2) (some sp) =
              some (.node sp { cv with left := some a } (.node a av .leaf Lr) R) :=
            extract_assemble hgetc hexa hR2
          refine ⟨f2 + 2, _, hexw, ?_, ?_, ?_⟩
          · simp only [Tree.minSpine, Tree.isTarget, Bool.and_eq_true, Bool.or_eq_true,
              decide_eq_true_eq]
            exact ⟨hszc, Or.inl ⟨havs, havl⟩⟩
          · have hcnotin : sp ∉ (Tree.node a av Tree.leaf Lr).addrs := by
              intro hm
              rcases (by simpa [Tree.addrs] using hm : sp = a ∨ sp ∈ Lr.addrs) with he | hm2
              · exact hanot (by rw [← he]; exact mem_addrs_root _ _ _ _)
              · exact hcL (mem_addrs_right hm2)
            have hanotLr : a ∉ Lr.addrs :=
              fun hm => hanot (mem_addrs_left (mem_addrs_right hm))
            obtain ⟨_, _, _, hndLr, _⟩ := nodup_node.mp hndL
            refine nodup_node.mpr ⟨hcnotin, hnbc.2,
              nodup_node.mpr ⟨by simp [Tree.addrs], hanotLr, List.nodup_nil, hndLr, ?_⟩,
              hndR, ?_⟩
            · intro b hb
              simp [Tree.addrs] at hb
            · intro b hb
              rcases (by simpa [Tree.addrs] using hb : b = a ∨ b ∈ Lr.addrs) with he | hm2
              · subst he
                exact fun hm => hanot (mem_addrs_right hm)
              · exact hdisj b (mem_addrs_right hm2)
          · intro b hb
            rcases (by simpa [Tree.addrs] using hb :
                b = sp ∨ b = a ∨ b ∈ Lr.addrs ∨ b ∈ R.addrs) with he | he | hm | hm
            · subst he
              exact ⟨Or.inr (mem_addrs_root _ _ _ _),
                fun he2 => hcL (he2 ▸ mem_addrs_root succ lv Ll Lr)⟩
            · subst he
              exact ⟨Or.inl rfl,
                fun he2 => hanot (by rw [he2]; exact mem_addrs_left (mem_addrs_root _ _ _ _))⟩
            · exact ⟨Or.inr (mem_addrs_left (mem_addrs_right hm)),
                fun he2 => hnbl.2 (he2 ▸ hm)⟩
            · exact ⟨Or.inr (mem_addrs_right hm),
                fun he2 => hdisj succ (mem_addrs_root _ _ _ _) (he2 ▸ hm)⟩
        · -- the spine continues below la
          rcases ih la c f1 L succ sp H hL hndL hgtL
              (fun hm => hanot (mem_addrs_left hm))
              (fun b hb => hagree b (mem_addrs_left hb))
              hspv hav with ⟨hsucc, hsp⟩ | ⟨f2', U2l, hexl, hms, hndl, hmem⟩
          · exfalso
            rw [hsp] at hspU
            exact hnbc.1 hspU
          · have hcsucc : c ≠ succ := fun he => hnbc.1 (he.symm ▸ hsU)
            have hcsp : c ≠ sp := fun he => hnbc.1 (he.symm ▸ hspU)
            have hgetc2 : h_sw.get c = some cv :=
              (hagree c (mem_addrs_root _ _ _ _) hcsucc hcsp).trans hgc
            have hR2 : extract h_sw f1 cv.right = some R :=
              extract_congr hR (fun b hb => hagree b
                (mem_addrs_right hb)
                (fun he => hdisj succ hsU (he ▸ hb))
                (fun he => hdisj sp hspU (he ▸ hb)))
            have hexw : extract h_sw (max f2' f1 + 1) (some c) = some (.node c cv U2l R) :=
              extract_assemble hgetc2
                (by rw [hnl]; exact extract_mono hexl (Nat.le_max_left _ _))
                (extract_mono hR2 (Nat.le_max_right _ _))
            refine ⟨max f2' f1 + 1, _, hexw, ?_, ?_, ?_⟩
            · simp only [Tree.minSpine, Bool.and_eq_true, Bool.or_eq_true,
                decide_eq_true_eq]
              exact ⟨hszc, Or.inr hms⟩
            · have hcnotin : c ∉ U2l.addrs := by
                intro hm
                rcases (hmem c hm).1 with he | hm2
                · exact hanot (by rw [← he]; exact mem_addrs_root _ _ _ _)
                · exact hcL hm2
              refine nodup_node.mpr ⟨hcnotin, hcR, hndl, hndR, ?_⟩
              intro b hb
              rcases (hmem b hb).1 with he | hm2
              · subst he
                exact fun hm => hanot (mem_addrs_right hm)
              · exact hdisj b hm2
            · intro b hb
              rcases (by simpa [Tree.addrs] using hb :
                  b = c ∨ b ∈ U2l.addrs ∨ b ∈ R.addrs) with he | hm | hm
              · subst he
                exact ⟨Or.inr (mem_addrs_root _ _ _ _), hcsucc⟩
              · exact ⟨(hmem b hm).1.elim Or.inl (fun hm2 => Or.inr (mem_addrs_left hm2)),
                  (hmem b hm).2⟩
              · exact ⟨Or.inr (mem_addrs_right hm),
                  fun he => hdisj succ hsU (he ▸ hm)⟩

/-- Shared tail of every `remove_node` frame: the trailing (discarded)
`rebalance` of the frame's node keeps the frame subtree extractable,
and the whole frame's writes stay inside the ambient address set. -/
theorem remove_frame_tail {h0 h1 h2 : Heap} {c q0 : Nat} {f3 : Nat} {M U : Tree}
    (hreb : rebalance h1 c = some (q0, h2))
    (hexc : extract h1 f3 (some c) = some M) (hndM : M.addrs.Nodup)
    (hsubM : M.addrs ⊆ U.addrs)
    (hagm : ∀ b, b ∉ U.addrs → h1.get b = h0.get b) :
    ∃ f2 U2, extract h2 f2 (some c) = some U2 ∧ U2.addrs ⊆ U.addrs ∧
      U2.addrs.Nodup ∧ ∀ b, b ∉ U.addrs → h2.get b = h0.get b := by
  obtain ⟨f', Sq, Sp, e1, e2, s1, s2, d1, d2, agr⟩ := rebalance_extract hexc hndM hreb
  exact ⟨f', Sp, e2, fun b hb => hsubM (s2 hb), d2,
    fun b hb => (agr b (fun hm => hb (hsubM hm))).trans (hagm b hb)⟩

/-- The `SearchDelete` re-descent: running `remove_node` on a left
spine of larger capacities that ends at the relocated target (no left
child) deletes that target, never consults the stale parent tag, never
touches the tree root, and keeps the spine extractable with writes
confined to the spine's subtree. -/
theorem redescend_extract : ∀ (fuel : Nat) (st : AVLState) (c size : Nat)
    (par : SearchDirection) (res : Option Nat) (st2 : AVLState) (f : Nat) (U : Tree),
    remove_node fuel st c size par = some (res, st2) →
    extract st.heap f (some c) = some U → U.addrs.Nodup → U.minSpine size = true →
    st2.root = st.root ∧
    ∃ f2 U2, extract st2.heap f2 (some c) = some U2 ∧ U2.addrs ⊆ U.addrs ∧
      U2.addrs.Nodup ∧ ∀ b, b ∉ U.addrs → st2.heap.get b = st.heap.get b := by
  intro fuel
  induction fuel with
  | zero =>
      intro st c size par res st2 f U H hex hnd hms
      simp [remove_node] at H
  | succ fuel ih =>
      intro st c size par res st2 f U H hex hnd hms
      obtain ⟨cv, L, R, hU⟩ := extract_some_node hex
      subst hU
      obtain ⟨f1, hf1, _, hgc, hL, hR⟩ := extract_root_some hex
      subst hf1
      have hnbc := extract_self_not_below (f1 + 1) hex
      obtain ⟨hcL, hcR, hndL, hndR, hdisj⟩ := nodup_node.mp hnd
      simp only [Tree.minSpine, Bool.and_eq_true, Bool.or_eq_true,
        decide_eq_true_eq] at hms
      obtain ⟨hlt, hbranch⟩ := hms
      cases L with
      | leaf =>
          rcases hbranch with ht | hm
          · simp [Tree.isTarget] at ht
          · simp [Tree.minSpine] at hm
      | node la lv L1 L2 =>
      obtain ⟨f2x, hf2x, hcvl, hglv, hL1, hL2⟩ := extract_root_some hL
      subst hf2x
      rw [hcvl] at hL
      have hnbl := extract_self_not_below (f2x + 1) hL
      obtain ⟨hlaL1, hlaL2, hndL1, hndL2, hdisjL⟩ := nodup_node.mp hndL
      have hlac : la ≠ c := fun he => hcL (by rw [← he]; exact mem_addrs_root _ _ _ _)
      simp only [remove_node] at H
      simp only [bind, Option.bind_eq_some, Option.some.injEq] at H
      obtain ⟨n, hg2, H⟩ := H
      rw [hgc] at hg2
      have hne := Option.some.inj hg2
      subst hne
      split at H
      · -- the Less frame: descend left, then rebalance this node
        rw [hcvl] at H
        simp only [bind, Option.bind_eq_some, Option.some.injEq, Prod.mk.injEq] at H
        obtain ⟨pr1, hrec, pr2, hreb, hend1, hend2⟩ := H
        obtain ⟨res1, st1⟩ := pr1
        obtain ⟨q0, h2⟩ := pr2
        subst hend1
        subst hend2
        rcases hbranch with ht | hm
        · -- the left child is the relocated target: unfold its removal
          cases L1 with
          | node x1 x2 x3 x4 => simp [Tree.isTarget] at ht
          | leaf =>
          simp only [Tree.isTarget, Bool.and_eq_true, decide_eq_true_eq] at ht
          obtain ⟨hlsz, hll⟩ := ht
          cases fuel with
          | zero => simp [remove_node] at hrec
          | succ fl =>
          simp only [remove_node] at hrec
          simp only [bind, Option.bind_eq_some, Option.some.injEq] at hrec
          obtain ⟨n2, hglv2, hrec⟩ := hrec
          rw [hglv] at hglv2
          have hne2 := Option.some.inj hglv2
          subst hne2
          split at hrec
          · omega
          split at hrec
          · omega
          -- the Equal frame at the relocated target
          simp only [bind, Option.bind_eq_some, Option.some.injEq] at hrec
          obtain ⟨prA, hdel, hrec⟩ := hrec
          obtain ⟨act, stD⟩ := prA
          simp only [delete_node] at hdel
          simp only [bind, Option.bind_eq_some, Option.some.injEq] at hdel
          obtain ⟨n3, hglv3, hdel⟩ := hdel
          rw [hglv] at hglv3
          have hne3 := Option.some.inj hglv3
          subst hne3
          split at hdel
          · -- the target is a leaf: the parent slot is cleared
            next hboth =>
            simp only [Option.some.injEq, Prod.mk.injEq] at hdel
            obtain ⟨hact, hstD⟩ := hdel
            subst hact
            subst hstD
            simp only [bind, Option.bind_eq_some, Option.some.injEq, Prod.mk.injEq] at hrec
            obtain ⟨prC, hrebla, hrc1, hrc2⟩ := hrec
            obtain ⟨q1, hD2⟩ := prC
            subst hrc1
            subst hrc2
            have hgla : (st.heap.setLeft c none).get la = some lv := by
              rw [Heap.get_setLeft_ne _ _ _ hlac]
              exact hglv
            have hexla : extract (st.heap.setLeft c none) 1 (some la) =
                some (.node la lv .leaf .leaf) :=
              extract_assemble hgla (by rw [hboth.1]; exact extract_leaf _ _)
                (by rw [hboth.2]; exact extract_leaf _ _)
            have hndla : (Tree.node la lv Tree.leaf Tree.leaf).addrs.Nodup := by
              simp [Tree.addrs]
            obtain ⟨fA, SqA, SpA, eA1, eA2, sA1, sA2, dA1, dA2, agrA⟩ :=
              rebalance_extract hexla hndla hrebla
            have hlaonly : ∀ b, b ≠ la →
                b ∉ (Tree.node la lv Tree.leaf Tree.leaf).addrs := by
              intro b hb
              simp [Tree.addrs, hb]
            have hgc1 : hD2.get c = some { cv with left := none } := by
              rw [agrA c (hlaonly c (Ne.symm hlac))]
              exact Heap.get_setLeft_self hgc none
            have hR1 : extract hD2 (f2x + 1) cv.right = some R :=
              extract_congr hR (fun b hb => by
                have hbla : b ≠ la :=
                  fun he => hdisj la (mem_addrs_root _ _ _ _) (he ▸ hb)
                have hbc : b ≠ c := fun he => hcR (he ▸ hb)
                rw [agrA b (hlaonly b hbla)]
                exact Heap.get_setLeft_ne _ _ _ hbc)
            have hexM : extract hD2 (f2x + 2) (some c) =
                some (.node c { cv with left := none } .leaf R) :=
              extract_assemble hgc1 (extract_leaf _ _) hR1
            have hndM : (Tree.node c { cv with left := none } Tree.leaf R).addrs.Nodup :=
              nodup_node.mpr ⟨by simp [Tree.addrs], hcR, List.nodup_nil, hndR,
                fun b hb => by simp [Tree.addrs] at hb⟩
            have hsubM : (Tree.node c { cv with left := none } Tree.leaf R).addrs ⊆
                (Tree.node c cv (.node la lv .leaf L2) R).addrs := by
              intro b hb
              rcases (by simpa [Tree.addrs] using hb : b = c ∨ b ∈ R.addrs) with he | hm2
              · subst he
                exact mem_addrs_root _ _ _ _
              · exact mem_addrs_right hm2
            have hagm : ∀ b, b ∉ (Tree.node c cv (.node la lv .leaf L2) R).addrs →
                hD2.get b = st.heap.get b := by
              intro b hb
              have hbla : b ≠ la := fun he => hb
                (by rw [he]; exact mem_addrs_left (mem_addrs_root _ _ _ _))
              have hbc : b ≠ c := fun he => hb (by rw [he]; exact mem_addrs_root _ _ _ _)
              rw [agrA b (hlaonly b hbla)]
              exact Heap.get_setLeft_ne _ _ _ hbc
            exact ⟨rfl, remove_frame_tail hreb hexM hndM hsubM hagm⟩
          · -- the target keeps its one (right) child, which is swapped
            -- into the parent slot and scrubbed into a leaf
            next hnboth =>
            split at hdel
            · next hc => simp [hll] at hc
            cases hrw : lv.right with
            | none => exact absurd ⟨hll, hrw⟩ hnboth
            | some w =>
            rw [hll, hrw] at hdel
            simp only [Option.some_bind] at hdel
            rw [hrw] at hL2
            obtain ⟨wv, W1, W2, hL2sh⟩ := extract_some_node hL2
            subst hL2sh
            obtain ⟨f3, hf3, _, hgw, hW1, hW2⟩ := extract_root_some hL2
            subst hf3
            have hnbw := extract_self_not_below (f3 + 1) hL2
            obtain ⟨hwW1, hwW2, hndW1, hndW2, hdisjW⟩ := nodup_node.mp hndL2
            have hwla : w ≠ la := fun he => hlaL2 (he ▸ mem_addrs_root w wv W1 W2)
            have hwc : w ≠ c :=
              fun he => hcL (he ▸ mem_addrs_right (mem_addrs_root w wv W1 W2))
            simp only [swap_nodes] at hdel
            simp only [bind, Option.bind_eq_some, Option.some.injEq] at hdel
            obtain ⟨h1, hsw, hdel⟩ := hdel
            simp only [swapHdr, bind, Option.bind_eq_some, Option.some.injEq] at hsw
            obtain ⟨na, hna, nb, hnb, hh1⟩ := hsw
            rw [hglv] at hna
            have hnea := Option.some.inj hna
            subst hnea
            rw [hgw] at hnb
            have hneb := Option.some.inj hnb
            subst hneb
            subst hh1
            rw [if_pos trivial] at hdel
            simp only [Option.bind_eq_some, Option.some.injEq, Prod.mk.injEq] at hdel
            obtain ⟨sn, hsn, hact, hstD⟩ := hdel
            have hsn2 : (((st.heap.set la
                { lv with left := wv.left, right := wv.right, height := wv.height }).set w
                { wv with left := lv.left, right := lv.right, height := lv.height }).setLeft
                c (some w)).get w =
                some { wv with left := lv.left, right := lv.right, height := lv.height } := by
              rw [Heap.get_setLeft_ne _ _ _ hwc]
              exact Heap.get_set_self _ _ _
            rw [hsn2] at hsn
            have hnesn := Option.some.inj hsn
            subst hnesn
            have hcond : ({ wv with left := lv.left, right := lv.right, height := lv.height } : Node).right = some w := hrw
            rw [if_pos hcond] at hstD
            subst hact
            subst hstD
            simp only [bind, Option.bind_eq_some, Option.some.injEq, Prod.mk.injEq] at hrec
            obtain ⟨prC, hrebla, hrc1, hrc2⟩ := hrec
            obtain ⟨q1, hD2⟩ := prC
            subst hrc1
            subst hrc2
            -- the swapped heap, before the unlinked-target rebalance
            have agSW : ∀ b, b ≠ la → b ≠ w → b ≠ c →
                ((((st.heap.set la
                  { lv with left := wv.left, right := wv.right, height := wv.height }).set w
                  { wv with left := lv.left, right := lv.right, height := lv.height }).setLeft
                  c (some w)).setRight w none).get b = st.heap.get b := by
              intro b h1 h2 h3
              rw [Heap.get_setRight_ne _ _ _ h2, Heap.get_setLeft_ne _ _ _ h3,
                Heap.get_set_ne _ _ _ _ h2, Heap.get_set_ne _ _ _ _ h1]
            have hgSla : ((((st.heap.set la
                { lv with left := wv.left, right := wv.right, height := wv.height }).set w
                { wv with left := lv.left, right := lv.right, height := lv.height }).setLeft
                c (some w)).setRight w none).get la =
                some { lv with left := wv.left, right := wv.right, height := wv.height } := by
              rw [Heap.get_setRight_ne _ _ _ (Ne.symm hwla), Heap.get_setLeft_ne _ _ _ hlac,
                Heap.get_set_ne _ _ _ _ (Ne.symm hwla)]
              exact Heap.get_set_self _ _ _
            have hcW1 : ∀ b, b ∈ W1.addrs → b ≠ c :=
              fun b hb he => hcL (he ▸ mem_addrs_right (mem_addrs_left hb))
            have hcW2 : ∀ b, b ∈ W2.addrs → b ≠ c :=
              fun b hb he => hcL (he ▸ mem_addrs_right (mem_addrs_right hb))
            have hlaW1 : ∀ b, b ∈ W1.addrs → b ≠ la :=
              fun b hb he => hlaL2 (he ▸ mem_addrs_left hb)
            have hlaW2 : ∀ b, b ∈ W2.addrs → b ≠ la :=
              fun b hb he => hlaL2 (he ▸ mem_addrs_right hb)
            have hW1S : extract ((((st.heap.set la
                { lv with left := wv.left, right := wv.right, height := wv.height }).set w
                { wv with left := lv.left, right := lv.right, height := lv.height }).setLeft
                c (some w)).setRight w none) f3 wv.left = some W1 :=
              extract_congr hW1 (fun b hb => agSW b (hlaW1 b hb)
                (fun he => hnbw.1 (he ▸ hb)) (hcW1 b hb))
            have hW2S : extract ((((st.heap.set la
                { lv with left := wv.left, right := wv.right, height := wv.height }).set w
                { wv with left := lv.left, right := lv.right, height := lv.height }).setLeft
                c (some w)).setRight w none) f3 wv.right = some W2 :=
              extract_congr hW2 (fun b hb => agSW b (hlaW2 b hb)
                (fun he => hnbw.2 (he ▸ hb)) (hcW2 b hb))
            have hexla : extract ((((st.heap.set la
                { lv with left := wv.left, right := wv.right, height := wv.height }).set w
                { wv with left := lv.left, right := lv.right, height := lv.height }).setLeft
                c (some w)).setRight w none) (f3 + 1) (some la) =
                some (.node la
                  { lv with left := wv.left, right := wv.right, height := wv.height } W1 W2) :=
              extract_assemble hgSla hW1S hW2S
            have hndla : (Tree.node la
                { lv with left := wv.left, right := wv.right, height := wv.height }
                W1 W2).addrs.Nodup :=
              nodup_node.mpr ⟨fun hm2 => hlaL2 (mem_addrs_left hm2),
                fun hm2 => hlaL2 (mem_addrs_right hm2), hndW1, hndW2, hdisjW⟩
            obtain ⟨fA, SqA, SpA, eA1, eA2, sA1, sA2, dA1, dA2, agrA⟩ :=
              rebalance_extract hexla hndla hrebla
            have hnotinla : ∀ b, b ≠ la → b ∉ W1.addrs → b ∉ W2.addrs →
                b ∉ (Tree.node la
                  { lv with left := wv.left, right := wv.right, height := wv.height }
                  W1 W2).addrs := by
              intro b h1 h2 h3 hm2
              rcases (by simpa [Tree.addrs] using hm2 :
                  b = la ∨ b ∈ W1.addrs ∨ b ∈ W2.addrs) with he | hx | hx
              · exact h1 he
              · exact h2 hx
              · exact h3 hx
            have hwnotin : w ∉ (Tree.node la
                { lv with left := wv.left, right := wv.right, height := wv.height }
                W1 W2).addrs :=
              hnotinla w hwla hnbw.1 hnbw.2
            have hgc1 : hD2.get c = some { cv with left := some w } := by
              rw [agrA c (hnotinla c (Ne.symm hlac)
                (fun hm2 => hcW1 c hm2 rfl) (fun hm2 => hcW2 c hm2 rfl))]
              rw [Heap.get_setRight_ne _ _ _ (Ne.symm hwc)]
              refine Heap.get_setLeft_self ?_ (some w)
              rw [Heap.get_set_ne _ _ _ _ (Ne.symm hwc), Heap.get_set_ne _ _ _ _ (Ne.symm hlac)]
              exact hgc
            have hgw1 : hD2.get w =
                some { wv with left := lv.left, right := none, height := lv.height } := by
              rw [agrA w hwnotin]
              exact Heap.get_setRight_self hsn2 none
            have hexw1 : extract hD2 1 (some w) =
                some (.node w { wv with left := lv.left, right := none, height := lv.height }
                  .leaf .leaf) :=
              extract_assemble hgw1
                (by rw [show ({ wv with left := lv.left, right := none, height := lv.height } : Node).left = none from hll]
                    exact extract_leaf _ _)
                (extract_leaf _ _)
            have hR1 : extract hD2 (f3 + 2) cv.right = some R :=
              extract_congr hR (fun b hb => by
                have hbla : b ≠ la :=
                  fun he => hdisj la (mem_addrs_root _ _ _ _) (he ▸ hb)
                have hbw : b ≠ w :=
                  fun he => hdisj w (mem_addrs_right (mem_addrs_root _ _ _ _)) (he ▸ hb)
                have hbc : b ≠ c := fun he => hcR (he ▸ hb)
                have hbW1 : b ∉ W1.addrs := fun hm2 =>
                  hdisj b (mem_addrs_right (mem_addrs_left hm2)) hb
                have hbW2 : b ∉ W2.addrs := fun hm2 =>
                  hdisj b (mem_addrs_right (mem_addrs_right hm2)) hb
                rw [agrA b (hnotinla b hbla hbW1 hbW2)]
                exact agSW b hbla hbw hbc)
            have hexM : extract hD2 (f3 + 3) (some c) =
                some (.node c { cv with left := some w }
                  (.node w { wv with left := lv.left, right := none, height := lv.height }
                    .leaf .leaf) R) :=
              extract_assemble hgc1 (extract_mono hexw1 (by omega)) hR1
            have hndM : (Tree.node c { cv with left := some w }
                (.node w { wv with left := lv.left, right := none, height := lv.height }
                  .leaf .leaf) R).addrs.Nodup := by
              refine nodup_node.mpr ⟨?_, hcR,
                nodup_node.mpr ⟨by simp [Tree.addrs], by simp [Tree.addrs],
                  List.nodup_nil, List.nodup_nil, fun b hb => by simp [Tree.addrs] at hb⟩,
                hndR, ?_⟩
              · intro hm2
                have he : c = w := by simpa [Tree.addrs] using hm2
                exact hwc he.symm
              · intro b hb
                have he : b = w := by simpa [Tree.addrs] using hb
                subst he
                exact fun hm2 =>
                  hdisj b (mem_addrs_right (mem_addrs_root _ _ _ _)) hm2
            have hsubM : (Tree.node c { cv with left := some w }
                (.node w { wv with left := lv.left, right := none, height := lv.height }
                  .leaf .leaf) R).addrs ⊆
                (Tree.node c cv (.node la lv .leaf (.node w wv W1 W2)) R).addrs := by
              intro b hb
              rcases (by simpa [Tree.addrs] using hb :
                  b = c ∨ b = w ∨ b ∈ R.addrs) with he | he | hm2
              · subst he
                exact mem_addrs_root _ _ _ _
              · subst he
                exact mem_addrs_left (mem_addrs_right (mem_addrs_root _ _ _ _))
              · exact mem_addrs_right hm2
            have hagm : ∀ b,
                b ∉ (Tree.node c cv (.node la lv .leaf (.node w wv W1 W2)) R).addrs →
                hD2.get b = st.heap.get b := by
              intro b hb
              have hbc : b ≠ c := fun he => hb (by rw [he]; exact mem_addrs_root _ _ _ _)
              have hbla : b ≠ la := fun he => hb
                (by rw [he]; exact mem_addrs_left (mem_addrs_root _ _ _ _))
              have hbw : b ≠ w := fun he => hb
                (by rw [he]
                    exact mem_addrs_left (mem_addrs_right (mem_addrs_root _ _ _ _)))
              have hbW1 : b ∉ W1.addrs := fun hm2 => hb
                (mem_addrs_left (mem_addrs_right (mem_addrs_left hm2)))
              have hbW2 : b ∉ W2.addrs := fun hm2 => hb
                (mem_addrs_left (mem_addrs_right (mem_addrs_right hm2)))
              rw [agrA b (hnotinla b hbla hbW1 hbW2)]
              exact agSW b hbla hbw hbc
            exact ⟨rfl, remove_frame_tail hreb hexM hndM hsubM hagm⟩
        · -- the spine continues: recurse, then rebalance this node
          obtain ⟨hroot1, f2s, U2l, hexl, hsubl, hndl, hagl⟩ :=
            ih st la size (.left c) res1 st1 (f2x + 1) (.node la lv L1 L2) hrec hL hndL hm
          have hgetc1 : st1.heap.get c = some cv := (hagl c hcL).trans hgc
          have hR1 : extract st1.heap (f2x + 1) cv.right = some R :=
            extract_congr hR (fun b hb => hagl b (fun hm2 => hdisj b hm2 hb))
          have hexM : extract st1.heap (max f2s (f2x + 1) + 1) (some c) =
              some (.node c cv U2l R) :=
            extract_assemble hgetc1
              (by rw [hcvl]; exact extract_mono hexl (Nat.le_max_left _ _))
              (extract_mono hR1 (Nat.le_max_right _ _))
          have hndM : (Tree.node c cv U2l R).addrs.Nodup :=
            nodup_node.mpr ⟨fun hm2 => hcL (hsubl hm2), hcR, hndl, hndR,
              fun b hb => hdisj b (hsubl hb)⟩
          have hsubM : (Tree.node c cv U2l R).addrs ⊆
              (Tree.node c cv (.node la lv L1 L2) R).addrs := by
            intro b hb
            rcases (by simpa [Tree.addrs] using hb :
                b = c ∨ b ∈ U2l.addrs ∨ b ∈ R.addrs) with he | hm2 | hm2
            · subst he
              exact mem_addrs_root _ _ _ _
            · exact mem_addrs_left (hsubl hm2)
            · exact mem_addrs_right hm2
          have hagm : ∀ b, b ∉ (Tree.node c cv (.node la lv L1 L2) R).addrs →
              st1.heap.get b = st.heap.get b :=
            fun b hb => hagl b (fun hm2 => hb (mem_addrs_left hm2))
          exact ⟨hroot1, remove_frame_tail hreb hexM hndM hsubM hagm⟩
      · omega

/-- Core of the `Equal`-with-two-children `SearchDelete` flow, shared
by every parent tag: given the swapped heap (successor wearing the
target's header, successor's parent `left`-pointing at the relocated
target, target wearing the successor's header) and the completed
re-descent, the subtree now rooted at the successor extracts, with all
writes since the swap confined to the target's old subtree. -/
theorem searchdelete_succ_extract {st : AVLState} {hsw : Heap} {rootsw : Option Nat}
    {a rc succ sp size g fuel : Nat} {n : Node} {fS : Nat} {SL SR : Tree}
    {par0 : SearchDirection} {res1 : Option Nat} {st1 : AVLState}
    (hga : st.heap.get a = some n) (hnsz : n.size = size) (hnr : n.right = some rc)
    (hexSL : extract st.heap fS n.left = some SL)
    (hexSR : extract st.heap fS (some rc) = some SR)
    (hnd : (Tree.node a n SL SR).addrs.Nodup) (hgt : SR.allGt size = true)
    (hmin : get_min st.heap g rc a = some (succ, sp)) (hspa : sp ≠ a)
    (hagSW : ∀ b, b ≠ a → b ≠ succ → b ≠ sp → b ∈ (Tree.node a n SL SR).addrs →
        hsw.get b = st.heap.get b)
    (hgsucc : ∀ sv, st.heap.get succ = some sv →
        hsw.get succ = some { sv with left := n.left, right := n.right, height := n.height })
    (hgsp : ∀ spn, st.heap.get sp = some spn →
        hsw.get sp = some { spn with left := some a })
    (hga2 : ∀ sv, st.heap.get succ = some sv →
        hsw.get a = some { n with left := sv.left, right := sv.right, height := sv.height })
    (hrec : remove_node fuel ⟨hsw, rootsw⟩ rc size par0 = some (res1, st1)) :
    st1.root = rootsw ∧
    ∃ f2 T2, extract st1.heap f2 (some succ) = some T2 ∧
      T2.addrs ⊆ (Tree.node a n SL SR).addrs ∧ T2.addrs.Nodup ∧
      ∀ b, b ∉ (Tree.node a n SL SR).addrs → st1.heap.get b = hsw.get b := by
  obtain ⟨haSL, haSR, hndSL, hndSR, hdisjS⟩ := nodup_node.mp hnd
  rcases get_min_char st.heap g rc a fS SR succ sp hmin hexSR hndSR with
    ⟨_, hsp, _⟩ | ⟨hsUmem, hspUmem, ⟨sv, hgsv, hsvl⟩, ⟨spn, hgspn, hspnl, hspnr⟩, hnessp⟩
  · exact absurd hsp hspa
  have hsucca : succ ≠ a := fun he => haSR (he ▸ hsUmem)
  rcases spine_surgery st.heap hsw size a g rc a fS SR succ sp hmin hexSR hndSR hgt
      haSR
      (fun b hb h1 h2 => hagSW b (fun he => haSR (he ▸ hb)) h1 h2 (mem_addrs_right hb))
      hgsp
      (fun sv2 hgsv2 =>
        ⟨{ n with left := sv2.left, right := sv2.right, height := sv2.height },
          hga2 sv2 hgsv2, hnsz, by
            rw [show ({ n with left := sv2.left, right := sv2.right, height := sv2.height } : Node).left = sv2.left from rfl]
            rw [hgsv] at hgsv2
            rw [← Option.some.inj hgsv2]
            exact hsvl, rfl⟩) with
    ⟨_, hsp2⟩ | ⟨fU, U2, hexU2, hmsU2, hndU2, hmemU2⟩
  · exact absurd hsp2 hspa
  obtain ⟨hroot1, fU2, U3, hexU3, hsubU3, hndU3, hagU3⟩ :=
    redescend_extract fuel ⟨hsw, rootsw⟩ rc size par0 res1 st1 fU U2 hrec hexU2 hndU2 hmsU2
  refine ⟨hroot1, ?_⟩
  have hsuccU2 : succ ∉ U2.addrs := fun hm => (hmemU2 succ hm).2 rfl
  have hsuccU3 : succ ∉ U3.addrs := fun hm => hsuccU2 (hsubU3 hm)
  have hU2sub : ∀ b, b ∈ U2.addrs → b = a ∨ b ∈ SR.addrs :=
    fun b hb => (hmemU2 b hb).1
  -- the successor's node after the re-descent
  have hgs1 : st1.heap.get succ =
      some { sv with left := n.left, right := n.right, height := n.height } := by
    rw [hagU3 succ hsuccU2]
    exact hgsucc sv hgsv
  -- the target's old left subtree is untouched
  have hSL1 : extract st1.heap fS n.left = some SL :=
    extract_congr hexSL (fun b hb => by
      have hbU2 : b ∉ U2.addrs := fun hm => by
        rcases hU2sub b hm with he | hm2
        · exact haSL (he ▸ hb)
        · exact hdisjS b hb hm2
      rw [hagU3 b hbU2]
      exact hagSW b (fun he => haSL (he ▸ hb))
        (fun he => hdisjS succ (he ▸ hb) hsUmem)
        (fun he => hdisjS sp (he ▸ hb) hspUmem)
        (mem_addrs_left hb))
  have hexT2 : extract st1.heap (max fS fU2 + 1) (some succ) =
      some (.node succ { sv with left := n.left, right := n.right, height := n.height }
        SL U3) :=
    extract_assemble hgs1 (extract_mono hSL1 (Nat.le_max_left _ _))
      (by rw [show ({ sv with left := n.left, right := n.right, height := n.height } : Node).right = n.right from rfl, hnr]
          exact extract_mono hexU3 (Nat.le_max_right _ _))
  refine ⟨max fS fU2 + 1, _, hexT2, ?_, ?_, ?_⟩
  · intro b hb
    rcases (by simpa [Tree.addrs] using hb :
        b = succ ∨ b ∈ SL.addrs ∨ b ∈ U3.addrs) with he | hm | hm
    · subst he
      exact mem_addrs_right hsUmem
    · exact mem_addrs_left hm
    · rcases hU2sub b (hsubU3 hm) with he | hm2
      · subst he
        exact mem_addrs_root _ _ _ _
      · exact mem_addrs_right hm2
  · refine nodup_node.mpr ⟨fun hm => hdisjS succ hm hsUmem, hsuccU3, hndSL, hndU3, ?_⟩
    intro b hb hm
    rcases hU2sub b (hsubU3 hm) with he | hm2
    · exact haSL (he ▸ hb)
    · exact hdisjS b hb hm2
  · intro b hb
    refine hagU3 b (fun hm => ?_)
    rcases hU2sub b hm with he | hm2
    · exact hb (by rw [he]; exact mem_addrs_root _ _ _ _)
    · exact hb (mem_addrs_right hm2)

/-- Rebuild the tagged parent's subtree around a rebuilt left slot:
if the parent now stores `X` in its `left` slot, `X`'s subtree extracts
with addresses inside the old left subtree, and nothing outside the old
left subtree other than the parent itself changed, then the parent's
subtree extracts with addresses inside the original. -/
theorem wrap_slot {h0 h2 : Heap} {pa : Nat} {pn : Node} {X : Option Nat}
    {Pl Pr Sp : Tree} {fR fPr : Nat}
    (hgpa2 : h2.get pa = some { pn with left := X })
    (hexPr : extract h0 fPr pn.right = some Pr)
    (hexX : extract h2 fR X = some Sp)
    (hnd : (Tree.node pa pn Pl Pr).addrs.Nodup)
    (hsub : Sp.addrs ⊆ Pl.addrs) (d2 : Sp.addrs.Nodup)
    (agrTot : ∀ b, b ∉ Pl.addrs → b ≠ pa → h2.get b = h0.get b) :
    ∃ f2 P2, P2.addrs ⊆ (Tree.node pa pn Pl Pr).addrs ∧ P2.addrs.Nodup ∧
      (∀ b, b ∉ (Tree.node pa pn Pl Pr).addrs → h2.get b = h0.get b) ∧
      extract h2 f2 (some pa) = some P2 := by
  obtain ⟨hpaPl, hpaPr, hndPl, hndPr, hdisjP⟩ := nodup_node.mp hnd
  have hPr2 : extract h2 fPr pn.right = some Pr :=
    extract_congr hexPr (fun b hb => agrTot b (fun hm => hdisjP b hm hb)
      (fun he => hpaPr (he ▸ hb)))
  have hexP2 : extract h2 (max fR fPr + 1) (some pa) =
      some (.node pa { pn with left := X } Sp Pr) :=
    extract_assemble hgpa2 (extract_mono hexX (Nat.le_max_left _ _))
      (extract_mono hPr2 (Nat.le_max_right _ _))
  refine ⟨max fR fPr + 1, _, ?_, ?_, ?_, hexP2⟩
  · intro b hb
    rcases (by simpa [Tree.addrs] using hb :
        b = pa ∨ b ∈ Sp.addrs ∨ b ∈ Pr.addrs) with he | hm | hm
    · subst he
      exact mem_addrs_root _ _ _ _
    · exact mem_addrs_left (hsub hm)
    · exact mem_addrs_right hm
  · refine nodup_node.mpr ⟨fun hm => hpaPl (hsub hm), hpaPr, d2, hndPr, ?_⟩
    intro b hb
    exact hdisjP b (hsub hb)
  · intro b hb
    refine agrTot b (fun hm => hb (mem_addrs_left hm))
      (fun he => hb (by rw [he]; exact mem_addrs_root _ _ _ _))

/-- Mirror of `wrap_slot` for the `right` slot. -/
theorem wrap_slot_right {h0 h2 : Heap} {pa : Nat} {pn : Node} {X : Option Nat}
    {Pl Pr Sp : Tree} {fR fPl : Nat}
    (hgpa2 : h2.get pa = some { pn with right := X })
    (hexPl : extract h0 fPl pn.left = some Pl)
    (hexX : extract h2 fR X = some Sp)
    (hnd : (Tree.node pa pn Pl Pr).addrs.Nodup)
    (hsub : Sp.addrs ⊆ Pr.addrs) (d2 : Sp.addrs.Nodup)
    (agrTot : ∀ b, b ∉ Pr.addrs → b ≠ pa → h2.get b = h0.get b) :
    ∃ f2 P2, P2.addrs ⊆ (Tree.node pa pn Pl Pr).addrs ∧ P2.addrs.Nodup ∧
      (∀ b, b ∉ (Tree.node pa pn Pl Pr).addrs → h2.get b = h0.get b) ∧
      extract h2 f2 (some pa) = some P2 := by
  obtain ⟨hpaPl, hpaPr, hndPl, hndPr, hdisjP⟩ := nodup_node.mp hnd
  have hPl2 : extract h2 fPl pn.left = some Pl :=
    extract_congr hexPl (fun b hb => agrTot b (fun hm => hdisjP b hb hm)
      (fun he => hpaPl (he ▸ hb)))
  have hexP2 : extract h2 (max fR fPl + 1) (some pa) =
      some (.node pa { pn with right := X } Pl Sp) :=
    extract_assemble hgpa2 (extract_mono hPl2 (Nat.le_max_right _ _))
      (extract_mono hexX (Nat.le_max_left _ _))
  refine ⟨max fR fPl + 1, _, ?_, ?_, ?_, hexP2⟩
  · intro b hb
    rcases (by simpa [Tree.addrs] using hb :
        b = pa ∨ b ∈ Pl.addrs ∨ b ∈ Sp.addrs) with he | hm | hm
    · subst he
      exact mem_addrs_root _ _ _ _
    · exact mem_addrs_left hm
    · exact mem_addrs_right (hsub hm)
  · refine nodup_node.mpr ⟨hpaPl, fun hm => hpaPr (hsub hm), hndPl, d2, ?_⟩
    intro b hb hm
    exact hdisjP b hb (hsub hm)
  · intro b hb
    refine agrTot b (fun hm => hb (mem_addrs_right hm))
      (fun he => hb (by rw [he]; exact mem_addrs_root _ _ _ _))


/-- Master preservation lemma for `remove_node`: if the subtree hanging
at the searched frame's anchor (the tagged parent, or the target itself
at the root) extracts with distinct addresses and the BST ordering, then
after any successful `remove_node` call the anchor's subtree still
extracts, its addresses are a subset of the old ones and stay distinct,
and no header outside the old subtree is written.  At the root the
conclusion is read at the possibly-changed root pointer. -/
theorem remove_node_extract : ∀ (fuel : Nat) (st : AVLState) (a size : Nat)
    (par : SearchDirection) (res : Option Nat) (st2 : AVLState) (f : Nat) (P : Tree),
    remove_node fuel st a size par = some (res, st2) →
    extract st.heap f (some (anchorOf par a)) = some P →
    P.addrs.Nodup → P.bstOK = true → parOK st par a →
    ∃ f2 P2, P2.addrs ⊆ P.addrs ∧ P2.addrs.Nodup ∧
      (∀ b, b ∉ P.addrs → st2.heap.get b = st.heap.get b) ∧
      (match par with
       | .root => extract st2.heap f2 st2.root = some P2
       | _ => st2.root = st.root ∧
          extract st2.heap f2 (some (anchorOf par a)) = some P2) := by
  intro fuel
  induction fuel with
  | zero =>
      intro st a size par res st2 f P H hex hnd hbst hpok
      simp [remove_node] at H
  | succ fuel ih =>
      intro st a size par res st2 f P H hex hnd hbst hpok
      cases par with
      | root =>
          simp only [anchorOf] at hex
          simp only [parOK] at hpok
          obtain ⟨n, SL, SR, hP⟩ := extract_some_node hex
          subst hP
          obtain ⟨fI, hfI, _, hga, hSL, hSR⟩ := extract_root_some hex
          subst hfI
          have hnba := extract_self_not_below (fI + 1) hex
          obtain ⟨haSL, haSR, hndSL, hndSR, hdisjS⟩ := nodup_node.mp hnd
          obtain ⟨hltS, hgtS, hbstSL, hbstSR⟩ := bst_node hbst
          simp only [remove_node] at H
          simp only [bind, Option.bind_eq_some, Option.some.injEq] at H
          obtain ⟨n2, hg2, H⟩ := H
          rw [hga] at hg2
          have hnen := Option.some.inj hg2
          subst hnen
          split at H
          · cases hnl : n.left with
            | none =>
                rw [hnl] at H
                simp only [bind, Option.bind_eq_some, Option.some.injEq, Prod.mk.injEq] at H
                obtain ⟨pr2, hreb, hend1, hend2⟩ := H
                obtain ⟨q0, h2⟩ := pr2
                subst hend1
                subst hend2
                obtain ⟨fR, Sq, Sp, e1, e2, s1, s2, d1, d2, agr⟩ :=
                  rebalance_extract hex hnd hreb
                refine ⟨fR, Sp, s2, d2, agr, ?_⟩
                rw [hpok]
                exact e2
            | some child =>
                rw [hnl] at H
                simp only [bind, Option.bind_eq_some, Option.some.injEq, Prod.mk.injEq] at H
                obtain ⟨pr1, hrec, pr2, hreb, hend1, hend2⟩ := H
                obtain ⟨res1, st1⟩ := pr1
                obtain ⟨q0, h2⟩ := pr2
                subst hend1
                subst hend2
                obtain ⟨fM, M, hsubM, hndM, hagM, hrootM, hexMa⟩ :=
                  ih st child size (.left a) res1 st1 (fI + 1) (.node a n SL SR) hrec hex hnd
                    hbst ⟨n, hga, hnl⟩
                obtain ⟨fR, Sq, Sp, e1, e2, s1, s2, d1, d2, agr⟩ :=
                  rebalance_extract hexMa hndM hreb
                refine ⟨fR, Sp, fun b hb => hsubM (s2 hb), d2, ?_, ?_⟩
                · intro b hb
                  exact (agr b (fun hm => hb (hsubM hm))).trans (hagM b hb)
                · rw [hrootM, hpok]
                  exact e2
          · split at H
            · cases hnr : n.right with
              | none =>
                  rw [hnr] at H
                  simp only [bind, Option.bind_eq_some, Option.some.injEq, Prod.mk.injEq] at H
                  obtain ⟨pr2, hreb, hend1, hend2⟩ := H
                  obtain ⟨q0, h2⟩ := pr2
                  subst hend1
                  subst hend2
                  obtain ⟨fR, Sq, Sp, e1, e2, s1, s2, d1, d2, agr⟩ :=
                    rebalance_extract hex hnd hreb
                  refine ⟨fR, Sp, s2, d2, agr, ?_⟩
                  rw [hpok]
                  exact e2
              | some child =>
                  rw [hnr] at H
                  simp only [bind, Option.bind_eq_some, Option.some.injEq, Prod.mk.injEq] at H
                  obtain ⟨pr1, hrec, pr2, hreb, hend1, hend2⟩ := H
                  obtain ⟨res1, st1⟩ := pr1
                  obtain ⟨q0, h2⟩ := pr2
                  subst hend1
                  subst hend2
                  obtain ⟨fM, M, hsubM, hndM, hagM, hrootM, hexMa⟩ :=
                    ih st child size (.right a) res1 st1 (fI + 1) (.node a n SL SR) hrec hex
                      hnd hbst ⟨n, hga, hnr⟩
                  obtain ⟨fR, Sq, Sp, e1, e2, s1, s2, d1, d2, agr⟩ :=
                    rebalance_extract hexMa hndM hreb
                  refine ⟨fR, Sp, fun b hb => hsubM (s2 hb), d2, ?_, ?_⟩
                  · intro b hb
                    exact (agr b (fun hm => hb (hsubM hm))).trans (hagM b hb)
                  · rw [hrootM, hpok]
                    exact e2
            · -- Equal: delete this node
              have heq : n.size = size := by omega
              simp only [bind, Option.bind_eq_some, Option.some.injEq] at H
              obtain ⟨prA, hdel, H⟩ := H
              obtain ⟨act, stD⟩ := prA
              simp only [delete_node] at hdel
              simp only [bind, Option.bind_eq_some, Option.some.injEq] at hdel
              obtain ⟨n3, hg3, hdel⟩ := hdel
              rw [hga] at hg3
              have hnen3 := Option.some.inj hg3
              subst hnen3
              split at hdel
              · simp only [Option.some.injEq, Prod.mk.injEq] at hdel
                obtain ⟨hact, hstD⟩ := hdel
                subst hact
                subst hstD
                simp only [bind, Option.bind_eq_some, Option.some.injEq, Prod.mk.injEq] at H
                obtain ⟨prC, hreba, hH1, hH2⟩ := H
                obtain ⟨q1, hD2⟩ := prC
                subst hH1
                subst hH2
                obtain ⟨fR, Sq, Sp, e1, e2, s1, s2, d1, d2, agr⟩ :=
                  rebalance_extract hex hnd hreba
                refine ⟨1, .leaf, ?_, List.nodup_nil, agr, extract_leaf _ _⟩
                intro b hb
                simp [Tree.addrs] at hb
              · split at hdel
                · -- two children
                  simp only [bind, Option.bind_eq_some, Option.some.injEq] at hdel
                  obtain ⟨rc, hnrc, prm, hmin, hdel⟩ := hdel
                  obtain ⟨succ, sp⟩ := prm
                  rw [hnrc] at hSR
                  rcases get_min_char st.heap (fuel + 1) rc a fI SR succ sp hmin hSR hndSR
                    with ⟨hseq, hspeq, cv0, hgcv0, hcv0l⟩ |
                      ⟨hsU, hspU, ⟨sv, hgsv, hsvl⟩, ⟨spn, hgspn, hspnl, hspnr⟩, hnessp⟩
                  · -- the successor is the right child itself: NoAction
                    subst hseq
                    have hspa0 := hspeq.symm
                    subst hspa0
                    obtain ⟨svv, SRL, SRR, hSRsh⟩ := extract_some_node hSR
                    subst hSRsh
                    obtain ⟨fS2, hfS2, _, hgrc, hSRL, hSRR⟩ := extract_root_some hSR
                    subst hfS2
                    have hnbrc := extract_self_not_below (fS2 + 1) hSR
                    obtain ⟨hrcSRL, hrcSRR, hndSRL, hndSRR, hdisjSR⟩ := nodup_node.mp hndSR
                    rw [hgrc] at hgcv0
                    have hne4 := Option.some.inj hgcv0
                    subst hne4
                    have harc : a ≠ succ :=
                      fun he => haSR (he ▸ mem_addrs_root succ svv SRL SRR)
                    simp only [swap_nodes] at hdel
                    simp only [bind, Option.bind_eq_some, Option.some.injEq] at hdel
                    obtain ⟨h1s, hsw, hdel⟩ := hdel
                    simp only [swapHdr, bind, Option.bind_eq_some, Option.some.injEq] at hsw
                    obtain ⟨na, hna, nb, hnb, hh1⟩ := hsw
                    rw [hga] at hna
                    have hna2 := Option.some.inj hna
                    subst hna2
                    rw [hgrc] at hnb
                    have hnb2 := Option.some.inj hnb
                    subst hnb2
                    subst hh1
                    rw [if_pos trivial] at hdel
                    simp only [Option.bind_eq_some, Option.some.injEq, Prod.mk.injEq] at hdel
                    obtain ⟨sn, hsn, hact, hstD⟩ := hdel
                    have hsn2 : ((st.heap.set a { n with left := svv.left, right := svv.right, height := svv.height }).set succ { svv with left := n.left, right := n.right, height := n.height }).get succ = some { svv with left := n.left, right := n.right, height := n.height } :=
                      Heap.get_set_self _ _ _
                    rw [hsn2] at hsn
                    have hsn3 := Option.some.inj hsn
                    subst hsn3
                    have hcond : ({ svv with left := n.left, right := n.right, height := n.height } : Node).right = some succ := hnrc
                    rw [if_pos hcond] at hstD
                    subst hact
                    subst hstD
                    simp only [bind, Option.bind_eq_some, Option.some.injEq,
                      Prod.mk.injEq] at H
                    obtain ⟨prC, hreba, hH1, hH2⟩ := H
                    obtain ⟨q1, hD2⟩ := prC
                    subst hH1
                    subst hH2
                    have agSW : ∀ b, b ≠ a → b ≠ succ →
                        (((st.heap.set a { n with left := svv.left, right := svv.right, height := svv.height }).set succ { svv with left := n.left, right := n.right, height := n.height }).setRight succ none).get b = st.heap.get b := by
                      intro b h1 h2
                      rw [Heap.get_setRight_ne _ _ _ h2, Heap.get_set_ne _ _ _ _ h2,
                        Heap.get_set_ne _ _ _ _ h1]
                    have hgSa : (((st.heap.set a { n with left := svv.left, right := svv.right, height := svv.height }).set succ { svv with left := n.left, right := n.right, height := n.height }).setRight succ none).get a = some { n with left := svv.left, right := svv.right, height := svv.height } := by
                      rw [Heap.get_setRight_ne _ _ _ harc, Heap.get_set_ne _ _ _ _ harc]
                      exact Heap.get_set_self _ _ _
                    have hSRR2 : extract (((st.heap.set a { n with left := svv.left, right := svv.right, height := svv.height }).set succ { svv with left := n.left, right := n.right, height := n.height }).setRight succ none) fS2 svv.right = some SRR :=
                      extract_congr hSRR (fun b hb => agSW b
                        (fun he => haSR (he ▸ mem_addrs_right hb))
                        (fun he => hnbrc.2 (he ▸ hb)))
                    have hexa : extract (((st.heap.set a { n with left := svv.left, right := svv.right, height := svv.height }).set succ { svv with left := n.left, right := n.right, height := n.height }).setRight succ none) (fS2 + 1) (some a) = some (.node a { n with left := svv.left, right := svv.right, height := svv.height } .leaf SRR) :=
                      extract_assemble hgSa
                        (by rw [show ({ n with left := svv.left, right := svv.right, height := svv.height } : Node).left = svv.left from rfl, hcv0l]
                            exact extract_leaf _ _)
                        hSRR2
                    have hndta : (Tree.node a { n with left := svv.left, right := svv.right, height := svv.height } Tree.leaf SRR).addrs.Nodup :=
                      nodup_node.mpr ⟨by simp [Tree.addrs],
                        fun hm => haSR (mem_addrs_right hm), List.nodup_nil, hndSRR,
                        fun b hb => by simp [Tree.addrs] at hb⟩
                    obtain ⟨fA, SqA, SpA, eA1, eA2, sA1, sA2, dA1, dA2, agrA⟩ :=
                      rebalance_extract hexa hndta hreba
                    have hnotincore : ∀ b, b ≠ a → b ∉ SRR.addrs →
                        b ∉ (Tree.node a { n with left := svv.left, right := svv.right, height := svv.height } Tree.leaf SRR).addrs := by
                      intro b h1 h2 hm
                      rcases (by simpa [Tree.addrs] using hm : b = a ∨ b ∈ SRR.addrs)
                        with he | hx
                      · exact h1 he
                      · exact h2 hx
                    have hgsucc2 : hD2.get succ = some { svv with left := n.left, right := none, height := n.height } := by
                      rw [agrA succ (hnotincore succ (Ne.symm harc) hnbrc.2)]
                      exact Heap.get_setRight_self hsn2 none
                    have hSL2 : extract hD2 (fS2 + 1) n.left = some SL :=
                      extract_congr hSL (fun b hb => by
                        have hba : b ≠ a := fun he => haSL (he ▸ hb)
                        have hbsucc : b ≠ succ :=
                          fun he => hdisjS succ (he ▸ hb) (mem_addrs_root _ _ _ _)
                        have hbSRR : b ∉ SRR.addrs :=
                          fun hm => hdisjS b hb (mem_addrs_right hm)
                        rw [agrA b (hnotincore b hba hbSRR)]
                        exact agSW b hba hbsucc)
                    have hexP2 : extract hD2 (fS2 + 1 + 1) (some succ) =
                        some (.node succ { svv with left := n.left, right := none, height := n.height } SL .leaf) :=
                      extract_assemble hgsucc2 hSL2 (extract_leaf _ _)
                    refine ⟨fS2 + 1 + 1, _, ?_, ?_, ?_, hexP2⟩
                    · intro b hb
                      rcases (by simpa [Tree.addrs] using hb :
                          b = succ ∨ b ∈ SL.addrs) with he | hm
                      · subst he
                        exact mem_addrs_right (mem_addrs_root _ _ _ _)
                      · exact mem_addrs_left hm
                    · exact nodup_node.mpr ⟨fun hm =>
                        hdisjS succ hm (mem_addrs_root _ _ _ _), by simp [Tree.addrs],
                        hndSL, List.nodup_nil, fun b hb => by simp [Tree.addrs]⟩
                    · intro b hb
                      have hba : b ≠ a :=
                        fun he => hb (by rw [he]; exact mem_addrs_root _ _ _ _)
                      have hbsucc : b ≠ succ := fun he => hb
                        (by rw [he]; exact mem_addrs_right (mem_addrs_root _ _ _ _))
                      have hbSRR : b ∉ SRR.addrs :=
                        fun hm => hb (mem_addrs_right (mem_addrs_right hm))
                      rw [agrA b (hnotincore b hba hbSRR)]
                      exact agSW b hba hbsucc
                  · -- genuine SearchDelete
                    have hspa : sp ≠ a := fun he => haSR (he ▸ hspU)
                    have hsucca : succ ≠ a := fun he => haSR (he ▸ hsU)
                    simp only [swap_nodes] at hdel
                    simp only [bind, Option.bind_eq_some, Option.some.injEq] at hdel
                    obtain ⟨h1s, hsw, hdel⟩ := hdel
                    simp only [swapHdr, bind, Option.bind_eq_some, Option.some.injEq] at hsw
                    obtain ⟨na, hna, nb, hnb, hh1⟩ := hsw
                    rw [hga] at hna
                    have hna2 := Option.some.inj hna
                    subst hna2
                    rw [hgsv] at hnb
                    have hnb2 := Option.some.inj hnb
                    subst hnb2
                    subst hh1
                    rw [if_neg hspa] at hdel
                    simp only [bind, Option.bind_eq_some, Option.some.injEq] at hdel
                    obtain ⟨spv, hspv, hdel⟩ := hdel
                    have hspv2 : ((st.heap.set a { n with left := sv.left, right := sv.right, height := sv.height }).set succ { sv with left := n.left, right := n.right, height := n.height }).get sp = some spn := by
                      rw [Heap.get_set_ne _ _ _ _ (Ne.symm hnessp), Heap.get_set_ne _ _ _ _ hspa]
                      exact hgspn
                    rw [hspv2] at hspv
                    have hspv3 := Option.some.inj hspv
                    subst hspv3
                    rw [if_neg hspnr] at hdel
                    obtain ⟨spv1, hspv1, hdel⟩ := hdel
                    rw [hspv2] at hspv1
                    have hspv4 := Option.some.inj hspv1
                    subst hspv4
                    rw [if_pos hspnl] at hdel
                    simp only [Option.some.injEq, Prod.mk.injEq] at hdel
                    obtain ⟨hact, hstD⟩ := hdel
                    subst hact
                    subst hstD
                    simp only [bind, Option.bind_eq_some, Option.some.injEq,
                      Prod.mk.injEq] at H
                    obtain ⟨rc2, hrc2, prB, hrecB, root2, hroot2, prC, hrebC, hH1, hH2⟩ := H
                    obtain ⟨res1, st1⟩ := prB
                    obtain ⟨q2, h2⟩ := prC
                    subst hH1
                    subst hH2
                    rw [hnrc] at hrc2
                    have hrc3 := Option.some.inj hrc2
                    subst hrc3
                    obtain ⟨hroot1, fT, T2, hexT2, hsubT2, hndT2, hagT2⟩ :=
                      searchdelete_succ_extract hga heq hnrc hSL hSR hnd
                        (by rw [← heq]; exact hgtS) hmin hspa
                        (fun b h1 h2 h3 hbm => by
                          rw [Heap.get_setLeft_ne _ _ _ h3, Heap.get_set_ne _ _ _ _ h2,
                            Heap.get_set_ne _ _ _ _ h1])
                        (fun sv2 hgsv2 => by
                          rw [hgsv] at hgsv2
                          have hx := Option.some.inj hgsv2
                          subst hx
                          rw [Heap.get_setLeft_ne _ _ _ hnessp]
                          exact Heap.get_set_self _ _ _)
                        (fun spn2 hgspn2 => by
                          rw [hgspn] at hgspn2
                          have hx := Option.some.inj hgspn2
                          subst hx
                          exact Heap.get_setLeft_self hspv2 (some a))
                        (fun sv2 hgsv2 => by
                          rw [hgsv] at hgsv2
                          have hx := Option.some.inj hgsv2
                          subst hx
                          rw [Heap.get_setLeft_ne _ _ _ (Ne.symm hspa),
                            Heap.get_set_ne _ _ _ _ (Ne.symm hsucca)]
                          exact Heap.get_set_self _ _ _)
                        hrecB
                    rw [hroot1] at hroot2
                    have hroot3 := Option.some.inj hroot2
                    subst hroot3
                    obtain ⟨fR, Sq, Sp, e1, e2, s1, s2, d1, d2, agr⟩ :=
                      rebalance_extract hexT2 hndT2 hrebC
                    refine ⟨fR, Sp, fun b hb => hsubT2 (s2 hb), d2, ?_, ?_⟩
                    · intro b hb
                      have hba : b ≠ a :=
                        fun he => hb (by rw [he]; exact mem_addrs_root _ _ _ _)
                      have hbsucc : b ≠ succ :=
                        fun he => hb (by rw [he]; exact mem_addrs_right hsU)
                      have hbsp : b ≠ sp :=
                        fun he => hb (by rw [he]; exact mem_addrs_right hspU)
                      refine (agr b (fun hm => hb (hsubT2 hm))).trans
                        ((hagT2 b hb).trans ?_)
                      rw [Heap.get_setLeft_ne _ _ _ hbsp, Heap.get_set_ne _ _ _ _ hbsucc,
                        Heap.get_set_ne _ _ _ _ hba]
                    · rw [hroot1]
                      exact e2
                · -- exactly one child
                  next hnboth2 =>
                  cases hnl2 : n.left with
                  | some w =>
                      have hnr2 : n.right = none := by
                        cases hx : n.right with
                        | none => rfl
                        | some y =>
                            exact absurd ⟨by simp [hnl2], by simp [hx]⟩ hnboth2
                      rw [hnl2] at hdel
                      simp only [Option.some_bind] at hdel
                      rw [hnl2] at hSL
                      obtain ⟨wv, WL, WR, hSLsh⟩ := extract_some_node hSL
                      subst hSLsh
                      obtain ⟨fS2, hfS2, _, hgw, hWL, hWR⟩ := extract_root_some hSL
                      subst hfS2
                      have hnbw := extract_self_not_below (fS2 + 1) hSL
                      obtain ⟨hwWL, hwWR, hndWL, hndWR, hdisjW⟩ := nodup_node.mp hndSL
                      have haw : a ≠ w := fun he => haSL (he ▸ mem_addrs_root w wv WL WR)
                      simp only [swap_nodes] at hdel
                      simp only [bind, Option.bind_eq_some, Option.some.injEq] at hdel
                      obtain ⟨h1s, hsw, hdel⟩ := hdel
                      simp only [swapHdr, bind, Option.bind_eq_some,
                        Option.some.injEq] at hsw
                      obtain ⟨na, hna, nb, hnb, hh1⟩ := hsw
                      rw [hga] at hna
                      have hna2 := Option.some.inj hna
                      subst hna2
                      rw [hgw] at hnb
                      have hnb2 := Option.some.inj hnb
                      subst hnb2
                      subst hh1
                      rw [if_pos trivial] at hdel
                      simp only [Option.bind_eq_some, Option.some.injEq,
                        Prod.mk.injEq] at hdel
                      obtain ⟨sn, hsn, hact, hstD⟩ := hdel
                      have hsn2 : ((st.heap.set a { n with left := wv.left, right := wv.right, height := wv.height }).set w { wv with left := n.left, right := n.right, height := n.height }).get w = some { wv with left := n.left, right := n.right, height := n.height } :=
                        Heap.get_set_self _ _ _
                      rw [hsn2] at hsn
                      have hsn3 := Option.some.inj hsn
                      subst hsn3
                      rw [if_neg (by simp [hnr2])] at hstD
                      subst hact
                      subst hstD
                      simp only [bind, Option.bind_eq_some, Option.some.injEq,
                        Prod.mk.injEq] at H
                      obtain ⟨prC, hreba, hH1, hH2⟩ := H
                      obtain ⟨q1, hD2⟩ := prC
                      subst hH1
                      subst hH2
                      have agSW : ∀ b, b ≠ a → b ≠ w →
                          (((st.heap.set a { n with left := wv.left, right := wv.right, height := wv.height }).set w { wv with left := n.left, right := n.right, height := n.height }).setLeft w none).get b = st.heap.get b := by
                        intro b h1 h2
                        rw [Heap.get_setLeft_ne _ _ _ h2, Heap.get_set_ne _ _ _ _ h2,
                          Heap.get_set_ne _ _ _ _ h1]
                      have hgSa : (((st.heap.set a { n with left := wv.left, right := wv.right, height := wv.height }).set w { wv with left := n.left, right := n.right, height := n.height }).setLeft w none).get a = some { n with left := wv.left, right := wv.right, height := wv.height } := by
                        rw [Heap.get_setLeft_ne _ _ _ haw, Heap.get_set_ne _ _ _ _ haw]
                        exact Heap.get_set_self _ _ _
                      have hWL2 : extract (((st.heap.set a { n with left := wv.left, right := wv.right, height := wv.height }).set w { wv with left := n.left, right := n.right, height := n.height }).setLeft w none) fS2 wv.left = some WL :=
                        extract_congr hWL (fun b hb => agSW b
                          (fun he => haSL (he ▸ mem_addrs_left hb))
                          (fun he => hnbw.1 (he ▸ hb)))
                      have hWR2 : extract (((st.heap.set a { n with left := wv.left, right := wv.right, height := wv.height }).set w { wv with left := n.left, right := n.right, height := n.height }).setLeft w none) fS2 wv.right = some WR :=
                        extract_congr hWR (fun b hb => agSW b
                          (fun he => haSL (he ▸ mem_addrs_right hb))
                          (fun he => hnbw.2 (he ▸ hb)))
                      have hexa : extract (((st.heap.set a { n with left := wv.left, right := wv.right, height := wv.height }).set w { wv with left := n.left, right := n.right, height := n.height }).setLeft w none) (fS2 + 1) (some a) = some (.node a { n with left := wv.left, right := wv.right, height := wv.height } WL WR) :=
                        extract_assemble hgSa hWL2 hWR2
                      have hndta : (Tree.node a { n with left := wv.left, right := wv.right, height := wv.height } WL WR).addrs.Nodup :=
                        nodup_node.mpr ⟨fun hm => haSL (mem_addrs_left hm),
                          fun hm => haSL (mem_addrs_right hm), hndWL, hndWR, hdisjW⟩
                      obtain ⟨fA, SqA, SpA, eA1, eA2, sA1, sA2, dA1, dA2, agrA⟩ :=
                        rebalance_extract hexa hndta hreba
                      have hnotincore : ∀ b, b ≠ a → b ∉ WL.addrs → b ∉ WR.addrs →
                          b ∉ (Tree.node a { n with left := wv.left, right := wv.right, height := wv.height } WL WR).addrs := by
                        intro b h1 h2 h3 hm
                        rcases (by simpa [Tree.addrs] using hm :
                            b = a ∨ b ∈ WL.addrs ∨ b ∈ WR.addrs) with he | hx | hx
                        · exact h1 he
                        · exact h2 hx
                        · exact h3 hx
                      have hgw2 : hD2.get w = some { wv with left := none, right := n.right, height := n.height } := by
                        rw [agrA w (hnotincore w (Ne.symm haw) hnbw.1 hnbw.2)]
                        exact Heap.get_setLeft_self hsn2 none
                      have hexP2 : extract hD2 1 (some w) =
                          some (.node w { wv with left := none, right := n.right, height := n.height } .leaf .leaf) :=
                        extract_assemble hgw2 (extract_leaf _ _)
                          (by rw [show ({ wv with left := none, right := n.right, height := n.height } : Node).right = n.right from rfl, hnr2]
                              exact extract_leaf _ _)
                      refine ⟨1, _, ?_, ?_, ?_, hexP2⟩
                      · intro b hb
                        have he : b = w := by simpa [Tree.addrs] using hb
                        subst he
                        exact mem_addrs_left (mem_addrs_root _ _ _ _)
                      · exact nodup_node.mpr ⟨by simp [Tree.addrs], by simp [Tree.addrs],
                          List.nodup_nil, List.nodup_nil,
                          fun b hb => by simp [Tree.addrs] at hb⟩
                      · intro b hb
                        have hba : b ≠ a :=
                          fun he => hb (by rw [he]; exact mem_addrs_root _ _ _ _)
                        have hbw : b ≠ w := fun he => hb
                          (by rw [he]; exact mem_addrs_left (mem_addrs_root _ _ _ _))
                        have hbWL : b ∉ WL.addrs :=
                          fun hm => hb (mem_addrs_left (mem_addrs_left hm))
                        have hbWR : b ∉ WR.addrs :=
                          fun hm => hb (mem_addrs_left (mem_addrs_right hm))
                        rw [agrA b (hnotincore b hba hbWL hbWR)]
                        exact agSW b hba hbw
                  | none =>
                      cases hnr3 : n.right with
                      | none => exact absurd (⟨hnl2, hnr3⟩ : n.left = none ∧ n.right = none) (by assumption)
                      | some w =>
                      rw [hnl2, hnr3] at hdel
                      simp only [Option.some_bind] at hdel
                      rw [hnr3] at hSR
                      obtain ⟨wv, WL, WR, hSRsh⟩ := extract_some_node hSR
                      subst hSRsh
                      obtain ⟨fS2, hfS2, _, hgw, hWL, hWR⟩ := extract_root_some hSR
                      subst hfS2
                      have hnbw := extract_self_not_below (fS2 + 1) hSR
                      obtain ⟨hwWL, hwWR, hndWL, hndWR, hdisjW⟩ := nodup_node.mp hndSR
                      have haw : a ≠ w := fun he => haSR (he ▸ mem_addrs_root w wv WL WR)
                      simp only [swap_nodes] at hdel
                      simp only [bind, Option.bind_eq_some, Option.some.injEq] at hdel
                      obtain ⟨h1s, hsw, hdel⟩ := hdel
                      simp only [swapHdr, bind, Option.bind_eq_some,
                        Option.some.injEq] at hsw
                      obtain ⟨na, hna, nb, hnb, hh1⟩ := hsw
                      rw [hga] at hna
                      have hna2 := Option.some.inj hna
                      subst hna2
                      rw [hgw] at hnb
                      have hnb2 := Option.some.inj hnb
                      subst hnb2
                      subst hh1
                      rw [if_pos trivial] at hdel
                      simp only [Option.bind_eq_some, Option.some.injEq,
                        Prod.mk.injEq] at hdel
                      obtain ⟨sn, hsn, hact, hstD⟩ := hdel
                      have hsn2 : ((st.heap.set a { n with left := wv.left, right := wv.right, height := wv.height }).set w { wv with left := n.left, right := n.right, height := n.height }).get w = some { wv with left := n.left, right := n.right, height := n.height } :=
                        Heap.get_set_self _ _ _
                      rw [hsn2] at hsn
                      have hsn3 := Option.some.inj hsn
                      subst hsn3
                      have hcond : ({ wv with left := n.left, right := n.right, height := n.height } : Node).right = some w := hnr3
                      rw [if_pos hcond] at hstD
                      subst hact
                      subst hstD
                      simp only [bind, Option.bind_eq_some, Option.some.injEq,
                        Prod.mk.injEq] at H
                      obtain ⟨prC, hreba, hH1, hH2⟩ := H
                      obtain ⟨q1, hD2⟩ := prC
                      subst hH1
                      subst hH2
                      have agSW : ∀ b, b ≠ a → b ≠ w →
                          (((st.heap.set a { n with left := wv.left, right := wv.right, height := wv.height }).set w { wv with left := n.left, right := n.right, height := n.height }).setRight w none).get b = st.heap.get b := by
                        intro b h1 h2
                        rw [Heap.get_setRight_ne _ _ _ h2, Heap.get_set_ne _ _ _ _ h2,
                          Heap.get_set_ne _ _ _ _ h1]
                      have hgSa : (((st.heap.set a { n with left := wv.left, right := wv.right, height := wv.height }).set w { wv with left := n.left, right := n.right, height := n.height }).setRight w none).get a = some { n with left := wv.left, right := wv.right, height := wv.height } := by
                        rw [Heap.get_setRight_ne _ _ _ haw, Heap.get_set_ne _ _ _ _ haw]
                        exact Heap.get_set_self _ _ _
                      have hWL2 : extract (((st.heap.set a { n with left := wv.left, right := wv.right, height := wv.height }).set w { wv with left := n.left, right := n.right, height := n.height }).setRight w none) fS2 wv.left = some WL :=
                        extract_congr hWL (fun b hb => agSW b
                          (fun he => haSR (he ▸ mem_addrs_left hb))
                          (fun he => hnbw.1 (he ▸ hb)))
                      have hWR2 : extract (((st.heap.set a { n with left := wv.left, right := wv.right, height := wv.height }).set w { wv with left := n.left, right := n.right, height := n.height }).setRight w none) fS2 wv.right = some WR :=
                        extract_congr hWR (fun b hb => agSW b
                          (fun he => haSR (he ▸ mem_addrs_right hb))
                          (fun he => hnbw.2 (he ▸ hb)))
                      have hexa : extract (((st.heap.set a { n with left := wv.left, right := wv.right, height := wv.height }).set w { wv with left := n.left, right := n.right, height := n.height }).setRight w none) (fS2 + 1) (some a) = some (.node a { n with left := wv.left, right := wv.right, height := wv.height } WL WR) :=
                        extract_assemble hgSa hWL2 hWR2
                      have hndta : (Tree.node a { n with left := wv.left, right := wv.right, height := wv.height } WL WR).addrs.Nodup :=
                        nodup_node.mpr ⟨fun hm => haSR (mem_addrs_left hm),
                          fun hm => haSR (mem_addrs_right hm), hndWL, hndWR, hdisjW⟩
                      obtain ⟨fA, SqA, SpA, eA1, eA2, sA1, sA2, dA1, dA2, agrA⟩ :=
                        rebalance_extract hexa hndta hreba
                      have hnotincore : ∀ b, b ≠ a → b ∉ WL.addrs → b ∉ WR.addrs →
                          b ∉ (Tree.node a { n with left := wv.left, right := wv.right, height := wv.height } WL WR).addrs := by
                        intro b h1 h2 h3 hm
                        rcases (by simpa [Tree.addrs] using hm :
                            b = a ∨ b ∈ WL.addrs ∨ b ∈ WR.addrs) with he | hx | hx
                        · exact h1 he
                        · exact h2 hx
                        · exact h3 hx
                      have hgw2 : hD2.get w = some { wv with left := n.left, right := none, height := n.height } := by
                        rw [agrA w (hnotincore w (Ne.symm haw) hnbw.1 hnbw.2)]
                        exact Heap.get_setRight_self hsn2 none
                      have hexP2 : extract hD2 1 (some w) =
                          some (.node w { wv with left := n.left, right := none, height := n.height } .leaf .leaf) :=
                        extract_assemble hgw2
                          (by rw [show ({ wv with left := n.left, right := none, height := n.height } : Node).left = n.left from rfl, hnl2]
                              exact extract_leaf _ _)
                          (extract_leaf _ _)
                      refine ⟨1, _, ?_, ?_, ?_, hexP2⟩
                      · intro b hb
                        have he : b = w := by simpa [Tree.addrs] using hb
                        subst he
                        exact mem_addrs_right (mem_addrs_root _ _ _ _)
                      · exact nodup_node.mpr ⟨by simp [Tree.addrs], by simp [Tree.addrs],
                          List.nodup_nil, List.nodup_nil,
                          fun b hb => by simp [Tree.addrs] at hb⟩
                      · intro b hb
                        have hba : b ≠ a :=
                          fun he => hb (by rw [he]; exact mem_addrs_root _ _ _ _)
                        have hbw : b ≠ w := fun he => hb
                          (by rw [he]; exact mem_addrs_right (mem_addrs_root _ _ _ _))
                        have hbWL : b ∉ WL.addrs :=
                          fun hm => hb (mem_addrs_right (mem_addrs_left hm))
                        have hbWR : b ∉ WR.addrs :=
                          fun hm => hb (mem_addrs_right (mem_addrs_right hm))
                        rw [agrA b (hnotincore b hba hbWL hbWR)]
                        exact agSW b hba hbw

      | left pa =>
          simp only [anchorOf] at hex
          simp only [parOK] at hpok
          obtain ⟨pn0, hgpa, hpnl⟩ := hpok
          obtain ⟨pn, Pl, Pr, hPsh⟩ := extract_some_node hex
          subst hPsh
          obtain ⟨f1, hf1, _, hgpa2, hPl, hPr⟩ := extract_root_some hex
          subst hf1
          rw [hgpa] at hgpa2
          have hpneq := Option.some.inj hgpa2
          subst hpneq
          obtain ⟨hpaPl, hpaPr, hndPl, hndPr, hdisjP⟩ := nodup_node.mp hnd
          obtain ⟨hltP, hgtP, hbstPl, hbstPr⟩ := bst_node hbst
          rw [hpnl] at hPl
          obtain ⟨n, SL, SR, hAsh⟩ := extract_some_node hPl
          subst hAsh
          obtain ⟨fI, hfI, _, hga, hSL, hSR⟩ := extract_root_some hPl
          subst hfI
          obtain ⟨haSL, haSR, hndSL, hndSR, hdisjS⟩ := nodup_node.mp hndPl
          obtain ⟨hltS, hgtS, hbstSL, hbstSR⟩ := bst_node hbstPl
          have hapa : a ≠ pa := fun he => hpaPl (by rw [← he]; exact mem_addrs_root a n SL SR)
          simp only [remove_node] at H
          simp only [bind, Option.bind_eq_some, Option.some.injEq] at H
          obtain ⟨n2, hg2, H⟩ := H
          rw [hga] at hg2
          have hnen := Option.some.inj hg2
          subst hnen
          split at H
          · cases hnl : n.left with
            | none =>
                rw [hnl] at H
                simp only [bind, Option.bind_eq_some, Option.some.injEq, Prod.mk.injEq] at H
                obtain ⟨pr2, hreb, hend1, hend2⟩ := H
                obtain ⟨q0, h2⟩ := pr2
                subst hend1
                subst hend2
                obtain ⟨fR, Sq, Sp, e1, e2, s1, s2, d1, d2, agr⟩ :=
                  rebalance_extract hPl hndPl hreb
                have hgpaX : h2.get pa = some { pn0 with left := some a } := by
                  rw [← hpnl, agr pa hpaPl]
                  exact hgpa
                obtain ⟨f2, P2, hsubW, hndW, hagrW, hexW⟩ :=
                  wrap_slot hgpaX hPr e2 hnd s2 d2 (fun b hb _ => agr b hb)
                exact ⟨f2, P2, hsubW, hndW, hagrW, rfl, hexW⟩
            | some child =>
                rw [hnl] at H
                simp only [bind, Option.bind_eq_some, Option.some.injEq, Prod.mk.injEq] at H
                obtain ⟨pr1, hrec, pr2, hreb, hend1, hend2⟩ := H
                obtain ⟨res1, st1⟩ := pr1
                obtain ⟨q0, h2⟩ := pr2
                subst hend1
                subst hend2
                obtain ⟨fM, M, hsubM, hndM, hagM, hrootM, hexMa⟩ :=
                  ih st child size (.left a) res1 st1 (fI + 1) (.node a n SL SR) hrec hPl
                    hndPl hbstPl ⟨n, hga, hnl⟩
                obtain ⟨fR, Sq, Sp, e1, e2, s1, s2, d1, d2, agr⟩ :=
                  rebalance_extract hexMa hndM hreb
                have hgpaX : h2.get pa = some { pn0 with left := some a } := by
                  rw [← hpnl, agr pa (fun hm => hpaPl (hsubM hm)), hagM pa hpaPl]
                  exact hgpa
                obtain ⟨f2, P2, hsubW, hndW, hagrW, hexW⟩ :=
                  wrap_slot hgpaX hPr e2 hnd (fun b hb => hsubM (s2 hb)) d2
                    (fun b hb _ => (agr b (fun hm => hb (hsubM hm))).trans (hagM b hb))
                exact ⟨f2, P2, hsubW, hndW, hagrW, hrootM, hexW⟩
          · split at H
            · cases hnr : n.right with
              | none =>
                  rw [hnr] at H
                  simp only [bind, Option.bind_eq_some, Option.some.injEq, Prod.mk.injEq] at H
                  obtain ⟨pr2, hreb, hend1, hend2⟩ := H
                  obtain ⟨q0, h2⟩ := pr2
                  subst hend1
                  subst hend2
                  obtain ⟨fR, Sq, Sp, e1, e2, s1, s2, d1, d2, agr⟩ :=
                    rebalance_extract hPl hndPl hreb
                  have hgpaX : h2.get pa = some { pn0 with left := some a } := by
                    rw [← hpnl, agr pa hpaPl]
                    exact hgpa
                  obtain ⟨f2, P2, hsubW, hndW, hagrW, hexW⟩ :=
                    wrap_slot hgpaX hPr e2 hnd s2 d2 (fun b hb _ => agr b hb)
                  exact ⟨f2, P2, hsubW, hndW, hagrW, rfl, hexW⟩
              | some child =>
                  rw [hnr] at H
                  simp only [bind, Option.bind_eq_some, Option.some.injEq, Prod.mk.injEq] at H
                  obtain ⟨pr1, hrec, pr2, hreb, hend1, hend2⟩ := H
                  obtain ⟨res1, st1⟩ := pr1
                  obtain ⟨q0, h2⟩ := pr2
                  subst hend1
                  subst hend2
                  obtain ⟨fM, M, hsubM, hndM, hagM, hrootM, hexMa⟩ :=
                    ih st child size (.right a) res1 st1 (fI + 1) (.node a n SL SR) hrec hPl
                      hndPl hbstPl ⟨n, hga, hnr⟩
                  obtain ⟨fR, Sq, Sp, e1, e2, s1, s2, d1, d2, agr⟩ :=
                    rebalance_extract hexMa hndM hreb
                  have hgpaX : h2.get pa = some { pn0 with left := some a } := by
                    rw [← hpnl, agr pa (fun hm => hpaPl (hsubM hm)), hagM pa hpaPl]
                    exact hgpa
                  obtain ⟨f2, P2, hsubW, hndW, hagrW, hexW⟩ :=
                    wrap_slot hgpaX hPr e2 hnd (fun b hb => hsubM (s2 hb)) d2
                      (fun b hb _ => (agr b (fun hm => hb (hsubM hm))).trans (hagM b hb))
                  exact ⟨f2, P2, hsubW, hndW, hagrW, hrootM, hexW⟩
            · have heq : n.size = size := by omega
              simp only [bind, Option.bind_eq_some, Option.some.injEq] at H
              obtain ⟨prA, hdel, H⟩ := H
              obtain ⟨act, stD⟩ := prA
              simp only [delete_node] at hdel
              simp only [bind, Option.bind_eq_some, Option.some.injEq] at hdel
              obtain ⟨n3, hg3, hdel⟩ := hdel
              rw [hga] at hg3
              have hnen3 := Option.some.inj hg3
              subst hnen3
              split at hdel
              · simp only [Option.some.injEq, Prod.mk.injEq] at hdel
                obtain ⟨hact, hstD⟩ := hdel
                subst hact
                subst hstD
                simp only [bind, Option.bind_eq_some, Option.some.injEq, Prod.mk.injEq] at H
                obtain ⟨prC, hreba, hH1, hH2⟩ := H
                obtain ⟨q1, hD2⟩ := prC
                subst hH1
                subst hH2
                have hAx : extract (st.heap.setLeft pa none) (fI + 1) (some a) =
                    some (.node a n SL SR) :=
                  extract_congr hPl (fun b hb =>
                    Heap.get_setLeft_ne _ _ _ (fun he => hpaPl (he ▸ hb)))
                obtain ⟨fR, Sq, Sp, e1, e2, s1, s2, d1, d2, agr⟩ :=
                  rebalance_extract hAx hndPl hreba
                have hgpaX : hD2.get pa = some { pn0 with left := none } := by
                  rw [agr pa hpaPl]
                  exact Heap.get_setLeft_self hgpa none
                obtain ⟨f2, P2, hsubW, hndW, hagrW, hexW⟩ :=
                  wrap_slot hgpaX hPr (extract_leaf hD2 1) hnd
                    (by intro b hb
                        simp [Tree.addrs] at hb) List.nodup_nil
                    (fun b hb hbpa => (agr b hb).trans (Heap.get_setLeft_ne _ _ _ hbpa))
                exact ⟨f2, P2, hsubW, hndW, hagrW, rfl, hexW⟩
              · split at hdel
                · simp only [bind, Option.bind_eq_some, Option.some.injEq] at hdel
                  obtain ⟨rc, hnrc, prm, hmin, hdel⟩ := hdel
                  obtain ⟨succ, sp⟩ := prm
                  rw [hnrc] at hSR
                  rcases get_min_char st.heap (fuel + 1) rc a fI SR succ sp hmin hSR hndSR
                    with ⟨hseq, hspeq, cv0, hgcv0, hcv0l⟩ |
                      ⟨hsU, hspU, ⟨sv, hgsv, hsvl⟩, ⟨spn, hgspn, hspnl, hspnr⟩, hnessp⟩
                  · subst hseq
                    have hspa0 := hspeq.symm
                    subst hspa0
                    obtain ⟨svv, SRL, SRR, hSRsh⟩ := extract_some_node hSR
                    subst hSRsh
                    obtain ⟨fS2, hfS2, _, hgsv2, hSRL, hSRR⟩ := extract_root_some hSR
                    subst hfS2
                    have hnbsucc := extract_self_not_below (fS2 + 1) hSR
                    obtain ⟨hsuccSRL, hsuccSRR, hndSRL, hndSRR, hdisjSR⟩ :=
                      nodup_node.mp hndSR
                    rw [hgsv2] at hgcv0
                    have hne4 := Option.some.inj hgcv0
                    subst hne4
                    have harc : a ≠ succ :=
                      fun he => haSR (he ▸ mem_addrs_root succ svv SRL SRR)
                    have hsuccpa : succ ≠ pa := fun he =>
                      hpaPl (he ▸ mem_addrs_right (mem_addrs_root succ svv SRL SRR))
                    simp only [swap_nodes] at hdel
                    simp only [bind, Option.bind_eq_some, Option.some.injEq] at hdel
                    obtain ⟨h1s, hsw, hdel⟩ := hdel
                    simp only [swapHdr, bind, Option.bind_eq_some, Option.some.injEq] at hsw
                    obtain ⟨na, hna, nb, hnb, hh1⟩ := hsw
                    rw [hga] at hna
                    have hna2 := Option.some.inj hna
                    subst hna2
                    rw [hgsv2] at hnb
                    have hnb2 := Option.some.inj hnb
                    subst hnb2
                    subst hh1
                    rw [if_pos trivial] at hdel
                    simp only [Option.bind_eq_some, Option.some.injEq, Prod.mk.injEq] at hdel
                    obtain ⟨sn, hsn, hact, hstD⟩ := hdel
                    have hsn2 : (((st.heap.set a { n with left := svv.left, right := svv.right, height := svv.height }).set succ { svv with left := n.left, right := n.right, height := n.height }).setLeft pa (some succ)).get succ = some { svv with left := n.left, right := n.right, height := n.height } := by
                      rw [Heap.get_setLeft_ne _ _ _ hsuccpa]
                      exact Heap.get_set_self _ _ _
                    rw [hsn2] at hsn
                    have hsn3 := Option.some.inj hsn
                    subst hsn3
                    have hcond : ({ svv with left := n.left, right := n.right, height := n.height } : Node).right = some succ := hnrc
                    rw [if_pos hcond] at hstD
                    subst hact
                    subst hstD
                    simp only [bind, Option.bind_eq_some, Option.some.injEq,
                      Prod.mk.injEq] at H
                    obtain ⟨prC, hreba, hH1, hH2⟩ := H
                    obtain ⟨q1, hD2⟩ := prC
                    subst hH1
                    subst hH2
                    have agSW : ∀ b, b ≠ a → b ≠ succ → b ≠ pa →
                        ((((st.heap.set a { n with left := svv.left, right := svv.right, height := svv.height }).set succ { svv with left := n.left, right := n.right, height := n.height }).setLeft pa (some succ)).setRight succ none).get b = st.heap.get b := by
                      intro b h1 h2 h3
                      rw [Heap.get_setRight_ne _ _ _ h2, Heap.get_setLeft_ne _ _ _ h3,
                        Heap.get_set_ne _ _ _ _ h2, Heap.get_set_ne _ _ _ _ h1]
                    have hgSa : ((((st.heap.set a { n with left := svv.left, right := svv.right, height := svv.height }).set succ { svv with left := n.left, right := n.right, height := n.height }).setLeft pa (some succ)).setRight succ none).get a = some { n with left := svv.left, right := svv.right, height := svv.height } := by
                      rw [Heap.get_setRight_ne _ _ _ harc, Heap.get_setLeft_ne _ _ _ hapa,
                        Heap.get_set_ne _ _ _ _ harc]
                      exact Heap.get_set_self _ _ _
                    have hSRR2 : extract ((((st.heap.set a { n with left := svv.left, right := svv.right, height := svv.height }).set succ { svv with left := n.left, right := n.right, height := n.height }).setLeft pa (some succ)).setRight succ none) fS2 svv.right = some SRR :=
                      extract_congr hSRR (fun b hb => agSW b
                        (fun he => haSR (he ▸ mem_addrs_right hb))
                        (fun he => hnbsucc.2 (he ▸ hb))
                        (fun he => hpaPl (he ▸ mem_addrs_right (mem_addrs_right hb))))
                    have hexa : extract ((((st.heap.set a { n with left := svv.left, right := svv.right, height := svv.height }).set succ { svv with left := n.left, right := n.right, height := n.height }).setLeft pa (some succ)).setRight succ none) (fS2 + 1) (some a) = some (.node a { n with left := svv.left, right := svv.right, height := svv.height } .leaf SRR) :=
                      extract_assemble hgSa
                        (by rw [show ({ n with left := svv.left, right := svv.right, height := svv.height } : Node).left = svv.left from rfl, hcv0l]
                            exact extract_leaf _ _)
                        hSRR2
                    have hndta : (Tree.node a { n with left := svv.left, right := svv.right, height := svv.height } Tree.leaf SRR).addrs.Nodup :=
                      nodup_node.mpr ⟨by simp [Tree.addrs],
                        fun hm => haSR (mem_addrs_right hm), List.nodup_nil, hndSRR,
                        fun b hb => by simp [Tree.addrs] at hb⟩
                    obtain ⟨fA, SqA, SpA, eA1, eA2, sA1, sA2, dA1, dA2, agrA⟩ :=
                      rebalance_extract hexa hndta hreba
                    have hnotincore : ∀ b, b ≠ a → b ∉ SRR.addrs →
                        b ∉ (Tree.node a { n with left := svv.left, right := svv.right, height := svv.height } Tree.leaf SRR).addrs := by
                      intro b h1 h2 hm
                      rcases (by simpa [Tree.addrs] using hm : b = a ∨ b ∈ SRR.addrs)
                        with he | hx
                      · exact h1 he
                      · exact h2 hx
                    have hgsucc2 : hD2.get succ = some { svv with left := n.left, right := none, height := n.height } := by
                      rw [agrA succ (hnotincore succ (Ne.symm harc) hnbsucc.2)]
                      exact Heap.get_setRight_self hsn2 none
                    have hSL2 : extract hD2 (fS2 + 1) n.left = some SL :=
                      extract_congr hSL (fun b hb => by
                        have hba : b ≠ a := fun he => haSL (he ▸ hb)
                        have hbsucc : b ≠ succ :=
                          fun he => hdisjS succ (he ▸ hb) (mem_addrs_root _ _ _ _)
                        have hbSRR : b ∉ SRR.addrs :=
                          fun hm => hdisjS b hb (mem_addrs_right hm)
                        have hbpa : b ≠ pa := fun he => hpaPl (he ▸ mem_addrs_left hb)
                        rw [agrA b (hnotincore b hba hbSRR)]
                        exact agSW b hba hbsucc hbpa)
                    have hexP2 : extract hD2 (fS2 + 1 + 1) (some succ) =
                        some (.node succ { svv with left := n.left, right := none, height := n.height } SL .leaf) :=
                      extract_assemble hgsucc2 hSL2 (extract_leaf _ _)
                    have hgpaX : hD2.get pa = some { pn0 with left := some succ } := by
                      rw [agrA pa (hnotincore pa (Ne.symm hapa)
                        (fun hm => hpaPl (mem_addrs_right (mem_addrs_right hm))))]
                      rw [Heap.get_setRight_ne _ _ _ (Ne.symm hsuccpa)]
                      refine Heap.get_setLeft_self ?_ (some succ)
                      rw [Heap.get_set_ne _ _ _ _ (Ne.symm hsuccpa),
                        Heap.get_set_ne _ _ _ _ (Ne.symm hapa)]
                      exact hgpa
                    obtain ⟨f2, P2, hsubW, hndW, hagrW, hexW⟩ :=
                      wrap_slot hgpaX hPr hexP2 hnd
                        (by intro b hb
                            rcases (by simpa [Tree.addrs] using hb :
                                b = succ ∨ b ∈ SL.addrs) with he | hm
                            · subst he
                              exact mem_addrs_right (mem_addrs_root _ _ _ _)
                            · exact mem_addrs_left hm)
                        (nodup_node.mpr ⟨fun hm => hdisjS succ hm (mem_addrs_root _ _ _ _),
                          by simp [Tree.addrs], hndSL, List.nodup_nil,
                          fun b hb => by simp [Tree.addrs]⟩)
                        (fun b hb hbpa => by
                          have hba : b ≠ a :=
                            fun he => hb (by rw [he]; exact mem_addrs_root _ _ _ _)
                          have hbsucc : b ≠ succ := fun he => hb
                            (by rw [he]; exact mem_addrs_right (mem_addrs_root _ _ _ _))
                          have hbSRR : b ∉ SRR.addrs :=
                            fun hm => hb (mem_addrs_right (mem_addrs_right hm))
                          rw [agrA b (hnotincore b hba hbSRR)]
                          exact agSW b hba hbsucc hbpa)
                    exact ⟨f2, P2, hsubW, hndW, hagrW, rfl, hexW⟩
                  · have hspa : sp ≠ a := fun he => haSR (he ▸ hspU)
                    have hsucca : succ ≠ a := fun he => haSR (he ▸ hsU)
                    have hsuccpa : succ ≠ pa :=
                      fun he => hpaPl (he ▸ mem_addrs_right hsU)
                    have hsppa : sp ≠ pa :=
                      fun he => hpaPl (he ▸ mem_addrs_right hspU)
                    simp only [swap_nodes] at hdel
                    simp only [bind, Option.bind_eq_some, Option.some.injEq] at hdel
                    obtain ⟨h1s, hsw, hdel⟩ := hdel
                    simp only [swapHdr, bind, Option.bind_eq_some, Option.some.injEq] at hsw
                    obtain ⟨na, hna, nb, hnb, hh1⟩ := hsw
                    rw [hga] at hna
                    have hna2 := Option.some.inj hna
                    subst hna2
                    rw [hgsv] at hnb
                    have hnb2 := Option.some.inj hnb
                    subst hnb2
                    subst hh1
                    rw [if_neg hspa] at hdel
                    simp only [bind, Option.bind_eq_some, Option.some.injEq] at hdel
                    obtain ⟨spv, hspv, hdel⟩ := hdel
                    have hspv2 : (((st.heap.set a { n with left := sv.left, right := sv.right, height := sv.height }).set succ { sv with left := n.left, right := n.right, height := n.height }).setLeft pa (some succ)).get sp = some spn := by
                      rw [Heap.get_setLeft_ne _ _ _ hsppa, Heap.get_set_ne _ _ _ _ (Ne.symm hnessp),
                        Heap.get_set_ne _ _ _ _ hspa]
                      exact hgspn
                    rw [hspv2] at hspv
                    have hspv3 := Option.some.inj hspv
                    subst hspv3
                    rw [if_neg hspnr] at hdel
                    obtain ⟨spv1, hspv1, hdel⟩ := hdel
                    rw [hspv2] at hspv1
                    have hspv4 := Option.some.inj hspv1
                    subst hspv4
                    rw [if_pos hspnl] at hdel
                    simp only [Option.some.injEq, Prod.mk.injEq] at hdel
                    obtain ⟨hact, hstD⟩ := hdel
                    subst hact
                    subst hstD
                    simp only [bind, Option.some_bind, Option.bind_eq_some,
                      Option.some.injEq, Prod.mk.injEq] at H
                    obtain ⟨rc2, hrc2, prB, hrecB, prC, hrebC, hH1, hH2⟩ := H
                    obtain ⟨res1, st1⟩ := prB
                    obtain ⟨q2, h2f⟩ := prC
                    subst hH1
                    subst hH2
                    rw [hnrc] at hrc2
                    have hrc3 := Option.some.inj hrc2
                    subst hrc3
                    obtain ⟨hroot1, fT, T2, hexT2, hsubT2, hndT2, hagT2⟩ :=
                      searchdelete_succ_extract hga heq hnrc hSL hSR hndPl
                        (by rw [← heq]; exact hgtS) hmin hspa
                        (fun b h1 h2 h3 hbm => by
                          have hbpa : b ≠ pa := fun he => hpaPl (he ▸ hbm)
                          rw [Heap.get_setLeft_ne _ _ _ h3,
                            Heap.get_setLeft_ne _ _ _ hbpa,
                            Heap.get_set_ne _ _ _ _ h2, Heap.get_set_ne _ _ _ _ h1])
                        (fun sv2 hgsv2 => by
                          rw [hgsv] at hgsv2
                          have hx := Option.some.inj hgsv2
                          subst hx
                          rw [Heap.get_setLeft_ne _ _ _ hnessp, Heap.get_setLeft_ne _ _ _ hsuccpa]
                          exact Heap.get_set_self _ _ _)
                        (fun spn2 hgspn2 => by
                          rw [hgspn] at hgspn2
                          have hx := Option.some.inj hgspn2
                          subst hx
                          exact Heap.get_setLeft_self hspv2 (some a))
                        (fun sv2 hgsv2 => by
                          rw [hgsv] at hgsv2
                          have hx := Option.some.inj hgsv2
                          subst hx
                          rw [Heap.get_setLeft_ne _ _ _ (Ne.symm hspa),
                            Heap.get_setLeft_ne _ _ _ hapa,
                            Heap.get_set_ne _ _ _ _ (Ne.symm hsucca)]
                          exact Heap.get_set_self _ _ _)
                        hrecB
                    have hgpaW : st1.heap.get pa = some { pn0 with left := some succ } := by
                      rw [hagT2 pa hpaPl, Heap.get_setLeft_ne _ _ _ (Ne.symm hsppa)]
                      refine Heap.get_setLeft_self ?_ (some succ)
                      rw [Heap.get_set_ne _ _ _ _ (Ne.symm hsuccpa),
                        Heap.get_set_ne _ _ _ _ (Ne.symm hapa)]
                      exact hgpa
                    obtain ⟨fW, PW, hsubPW, hndPW, hagrPW, hexPW⟩ :=
                      wrap_slot hgpaW hPr hexT2 hnd hsubT2 hndT2
                        (fun b hb hbpa => by
                          have hba : b ≠ a :=
                            fun he => hb (by rw [he]; exact mem_addrs_root _ _ _ _)
                          have hbsucc : b ≠ succ :=
                            fun he => hb (by rw [he]; exact mem_addrs_right hsU)
                          have hbsp : b ≠ sp :=
                            fun he => hb (by rw [he]; exact mem_addrs_right hspU)
                          rw [hagT2 b hb, Heap.get_setLeft_ne _ _ _ hbsp,
                            Heap.get_setLeft_ne _ _ _ hbpa, Heap.get_set_ne _ _ _ _ hbsucc,
                            Heap.get_set_ne _ _ _ _ hba])
                    obtain ⟨fR, Sq, Sp, e1, e2, s1, s2, d1, d2, agr⟩ :=
                      rebalance_extract hexPW hndPW hrebC
                    refine ⟨fR, Sp, fun b hb => hsubPW (s2 hb), d2, ?_, hroot1, e2⟩
                    intro b hb
                    exact (agr b (fun hm => hb (hsubPW hm))).trans (hagrPW b hb)
                · next hnboth2 =>
                  cases hnl2 : n.left with
                  | some w =>
                      have hnr2 : n.right = none := by
                        cases hx : n.right with
                        | none => rfl
                        | some y =>
                            exact absurd ⟨by simp [hnl2], by simp [hx]⟩ hnboth2
                      rw [hnl2] at hdel
                      simp only [Option.some_bind] at hdel
                      rw [hnl2] at hSL
                      obtain ⟨wv, WL, WR, hSLsh⟩ := extract_some_node hSL
                      subst hSLsh
                      obtain ⟨fS2, hfS2, _, hgw, hWL, hWR⟩ := extract_root_some hSL
                      subst hfS2
                      have hnbw := extract_self_not_below (fS2 + 1) hSL
                      obtain ⟨hwWL, hwWR, hndWL, hndWR, hdisjW⟩ := nodup_node.mp hndSL
                      have haw : a ≠ w := fun he => haSL (he ▸ mem_addrs_root w wv WL WR)
                      have hwpa : w ≠ pa := fun he =>
                        hpaPl (he ▸ mem_addrs_left (mem_addrs_root w wv WL WR))
                      simp only [swap_nodes] at hdel
                      simp only [bind, Option.bind_eq_some, Option.some.injEq] at hdel
                      obtain ⟨h1s, hsw, hdel⟩ := hdel
                      simp only [swapHdr, bind, Option.bind_eq_some,
                        Option.some.injEq] at hsw
                      obtain ⟨na, hna, nb, hnb, hh1⟩ := hsw
                      rw [hga] at hna
                      have hna2 := Option.some.inj hna
                      subst hna2
                      rw [hgw] at hnb
                      have hnb2 := Option.some.inj hnb
                      subst hnb2
                      subst hh1
                      rw [if_pos trivial] at hdel
                      simp only [Option.bind_eq_some, Option.some.injEq,
                        Prod.mk.injEq] at hdel
                      obtain ⟨sn, hsn, hact, hstD⟩ := hdel
                      have hsn2 : (((st.heap.set a { n with left := wv.left, right := wv.right, height := wv.height }).set w { wv with left := n.left, right := n.right, height := n.height }).setLeft pa (some w)).get w = some { wv with left := n.left, right := n.right, height := n.height } := by
                        rw [Heap.get_setLeft_ne _ _ _ hwpa]
                        exact Heap.get_set_self _ _ _
                      rw [hsn2] at hsn
                      have hsn3 := Option.some.inj hsn
                      subst hsn3
                      rw [if_neg (by simp [hnr2])] at hstD
                      subst hact
                      subst hstD
                      simp only [bind, Option.bind_eq_some, Option.some.injEq,
                        Prod.mk.injEq] at H
                      obtain ⟨prC, hreba, hH1, hH2⟩ := H
                      obtain ⟨q1, hD2⟩ := prC
                      subst hH1
                      subst hH2
                      have agSW : ∀ b, b ≠ a → b ≠ w → b ≠ pa →
                          ((((st.heap.set a { n with left := wv.left, right := wv.right, height := wv.height }).set w { wv with left := n.left, right := n.right, height := n.height }).setLeft pa (some w)).setLeft w none).get b = st.heap.get b := by
                        intro b h1 h2 h3
                        rw [Heap.get_setLeft_ne _ _ _ h2, Heap.get_setLeft_ne _ _ _ h3,
                          Heap.get_set_ne _ _ _ _ h2, Heap.get_set_ne _ _ _ _ h1]
                      have hgSa : ((((st.heap.set a { n with left := wv.left, right := wv.right, height := wv.height }).set w { wv with left := n.left, right := n.right, height := n.height }).setLeft pa (some w)).setLeft w none).get a = some { n with left := wv.left, right := wv.right, height := wv.height } := by
                        rw [Heap.get_setLeft_ne _ _ _ haw, Heap.get_setLeft_ne _ _ _ hapa,
                          Heap.get_set_ne _ _ _ _ haw]
                        exact Heap.get_set_self _ _ _
                      have hWL2 : extract ((((st.heap.set a { n with left := wv.left, right := wv.right, height := wv.height }).set w { wv with left := n.left, right := n.right, height := n.height }).setLeft pa (some w)).setLeft w none) fS2 wv.left = some WL :=
                        extract_congr hWL (fun b hb => agSW b
                          (fun he => haSL (he ▸ mem_addrs_left hb))
                          (fun he => hnbw.1 (he ▸ hb))
                          (fun he => hpaPl (he ▸ mem_addrs_left (mem_addrs_left hb))))
                      have hWR2 : extract ((((st.heap.set a { n with left := wv.left, right := wv.right, height := wv.height }).set w { wv with left := n.left, right := n.right, height := n.height }).setLeft pa (some w)).setLeft w none) fS2 wv.right = some WR :=
                        extract_congr hWR (fun b hb => agSW b
                          (fun he => haSL (he ▸ mem_addrs_right hb))
                          (fun he => hnbw.2 (he ▸ hb))
                          (fun he => hpaPl (he ▸ mem_addrs_left (mem_addrs_right hb))))
                      have hexa : extract ((((st.heap.set a { n with left := wv.left, right := wv.right, height := wv.height }).set w { wv with left := n.left, right := n.right, height := n.height }).setLeft pa (some w)).setLeft w none) (fS2 + 1) (some a) = some (.node a { n with left := wv.left, right := wv.right, height := wv.height } WL WR) :=
                        extract_assemble hgSa hWL2 hWR2
                      have hndta : (Tree.node a { n with left := wv.left, right := wv.right, height := wv.height } WL WR).addrs.Nodup :=
                        nodup_node.mpr ⟨fun hm => haSL (mem_addrs_left hm),
                          fun hm => haSL (mem_addrs_right hm), hndWL, hndWR, hdisjW⟩
                      obtain ⟨fA, SqA, SpA, eA1, eA2, sA1, sA2, dA1, dA2, agrA⟩ :=
                        rebalance_extract hexa hndta hreba
                      have hnotincore : ∀ b, b ≠ a → b ∉ WL.addrs → b ∉ WR.addrs →
                          b ∉ (Tree.node a { n with left := wv.left, right := wv.right, height := wv.height } WL WR).addrs := by
                        intro b h1 h2 h3 hm
                        rcases (by simpa [Tree.addrs] using hm :
                            b = a ∨ b ∈ WL.addrs ∨ b ∈ WR.addrs) with he | hx | hx
                        · exact h1 he
                        · exact h2 hx
                        · exact h3 hx
                      have hgw2 : hD2.get w = some { wv with left := none, right := n.right, height := n.height } := by
                        rw [agrA w (hnotincore w (Ne.symm haw) hnbw.1 hnbw.2)]
                        exact Heap.get_setLeft_self hsn2 none
                      have hexw : extract hD2 1 (some w) =
                          some (.node w { wv with left := none, right := n.right, height := n.height } .leaf .leaf) :=
                        extract_assemble hgw2 (extract_leaf _ _)
                          (by rw [show ({ wv with left := none, right := n.right, height := n.height } : Node).right = n.right from rfl, hnr2]
                              exact extract_leaf _ _)
                      have hgpaX : hD2.get pa = some { pn0 with left := some w } := by
                        rw [agrA pa (hnotincore pa (Ne.symm hapa)
                          (fun hm => hpaPl (mem_addrs_left (mem_addrs_left hm)))
                          (fun hm => hpaPl (mem_addrs_left (mem_addrs_right hm))))]
                        rw [Heap.get_setLeft_ne _ _ _ (Ne.symm hwpa)]
                        refine Heap.get_setLeft_self ?_ (some w)
                        rw [Heap.get_set_ne _ _ _ _ (Ne.symm hwpa),
                          Heap.get_set_ne _ _ _ _ (Ne.symm hapa)]
                        exact hgpa
                      obtain ⟨f2, P2, hsubW, hndW, hagrW, hexW⟩ :=
                        wrap_slot hgpaX hPr hexw hnd
                          (by intro b hb
                              have he : b = w := by simpa [Tree.addrs] using hb
                              subst he
                              exact mem_addrs_left (mem_addrs_root _ _ _ _))
                          (nodup_node.mpr ⟨by simp [Tree.addrs], by simp [Tree.addrs],
                            List.nodup_nil, List.nodup_nil,
                            fun b hb => by simp [Tree.addrs] at hb⟩)
                          (fun b hb hbpa => by
                            have hba : b ≠ a :=
                              fun he => hb (by rw [he]; exact mem_addrs_root _ _ _ _)
                            have hbw : b ≠ w := fun he => hb
                              (by rw [he]
                                  exact mem_addrs_left (mem_addrs_root _ _ _ _))
                            have hbWL : b ∉ WL.addrs :=
                              fun hm => hb (mem_addrs_left (mem_addrs_left hm))
                            have hbWR : b ∉ WR.addrs :=
                              fun hm => hb (mem_addrs_left (mem_addrs_right hm))
                            rw [agrA b (hnotincore b hba hbWL hbWR)]
                            exact agSW b hba hbw hbpa)
                      exact ⟨f2, P2, hsubW, hndW, hagrW, rfl, hexW⟩
                  | none =>
                      cases hnr3 : n.right with
                      | none => exact absurd (⟨hnl2, hnr3⟩ : n.left = none ∧ n.right = none) (by assumption)
                      | some w =>
                      rw [hnl2, hnr3] at hdel
                      simp only [Option.some_bind] at hdel
                      rw [hnr3] at hSR
                      obtain ⟨wv, WL, WR, hSRsh⟩ := extract_some_node hSR
                      subst hSRsh
                      obtain ⟨fS2, hfS2, _, hgw, hWL, hWR⟩ := extract_root_some hSR
                      subst hfS2
                      have hnbw := extract_self_not_below (fS2 + 1) hSR
                      obtain ⟨hwWL, hwWR, hndWL, hndWR, hdisjW⟩ := nodup_node.mp hndSR
                      have haw : a ≠ w := fun he => haSR (he ▸ mem_addrs_root w wv WL WR)
                      have hwpa : w ≠ pa := fun he =>
                        hpaPl (he ▸ mem_addrs_right (mem_addrs_root w wv WL WR))
                      simp only [swap_nodes] at hdel
                      simp only [bind, Option.bind_eq_some, Option.some.injEq] at hdel
                      obtain ⟨h1s, hsw, hdel⟩ := hdel
                      simp only [swapHdr, bind, Option.bind_eq_some,
                        Option.some.injEq] at hsw
                      obtain ⟨na, hna, nb, hnb, hh1⟩ := hsw
                      rw [hga] at hna
                      have hna2 := Option.some.inj hna
                      subst hna2
                      rw [hgw] at hnb
                      have hnb2 := Option.some.inj hnb
                      subst hnb2
                      subst hh1
                      rw [if_pos trivial] at hdel
                      simp only [Option.bind_eq_some, Option.some.injEq,
                        Prod.mk.injEq] at hdel
                      obtain ⟨sn, hsn, hact, hstD⟩ := hdel
                      have hsn2 : (((st.heap.set a { n with left := wv.left, right := wv.right, height := wv.height }).set w { wv with left := n.left, right := n.right, height := n.height }).setLeft pa (some w)).get w = some { wv with left := n.left, right := n.right, height := n.height } := by
                        rw [Heap.get_setLeft_ne _ _ _ hwpa]
                        exact Heap.get_set_self _ _ _
                      rw [hsn2] at hsn
                      have hsn3 := Option.some.inj hsn
                      subst hsn3
                      have hcond : ({ wv with left := n.left, right := n.right, height := n.height } : Node).right = some w := hnr3
                      rw [if_pos hcond] at hstD
                      subst hact
                      subst hstD
                      simp only [bind, Option.bind_eq_some, Option.some.injEq,
                        Prod.mk.injEq] at H
                      obtain ⟨prC, hreba, hH1, hH2⟩ := H
                      obtain ⟨q1, hD2⟩ := prC
                      subst hH1
                      subst hH2
                      have agSW : ∀ b, b ≠ a → b ≠ w → b ≠ pa →
                          ((((st.heap.set a { n with left := wv.left, right := wv.right, height := wv.height }).set w { wv with left := n.left, right := n.right, height := n.height }).setLeft pa (some w)).setRight w none).get b = st.heap.get b := by
                        intro b h1 h2 h3
                        rw [Heap.get_setRight_ne _ _ _ h2, Heap.get_setLeft_ne _ _ _ h3,
                          Heap.get_set_ne _ _ _ _ h2, Heap.get_set_ne _ _ _ _ h1]
                      have hgSa : ((((st.heap.set a { n with left := wv.left, right := wv.right, height := wv.height }).set w { wv with left := n.left, right := n.right, height := n.height }).setLeft pa (some w)).setRight w none).get a = some { n with left := wv.left, right := wv.right, height := wv.height } := by
                        rw [Heap.get_setRight_ne _ _ _ haw, Heap.get_setLeft_ne _ _ _ hapa,
                          Heap.get_set_ne _ _ _ _ haw]
                        exact Heap.get_set_self _ _ _
                      have hWL2 : extract ((((st.heap.set a { n with left := wv.left, right := wv.right, height := wv.height }).set w { wv with left := n.left, right := n.right, height := n.height }).setLeft pa (some w)).setRight w none) fS2 wv.left = some WL :=
                        extract_congr hWL (fun b hb => agSW b
                          (fun he => haSR (he ▸ mem_addrs_left hb))
                          (fun he => hnbw.1 (he ▸ hb))
                          (fun he => hpaPl (he ▸ mem_addrs_right (mem_addrs_left hb))))
                      have hWR2 : extract ((((st.heap.set a { n with left := wv.left, right := wv.right, height := wv.height }).set w { wv with left := n.left, right := n.right, height := n.height }).setLeft pa (some w)).setRight w none) fS2 wv.right = some WR :=
                        extract_congr hWR (fun b hb => agSW b
                          (fun he => haSR (he ▸ mem_addrs_right hb))
                          (fun he => hnbw.2 (he ▸ hb))
                          (fun he => hpaPl (he ▸ mem_addrs_right (mem_addrs_right hb))))
                      have hexa : extract ((((st.heap.set a { n with left := wv.left, right := wv.right, height := wv.height }).set w { wv with left := n.left, right := n.right, height := n.height }).setLeft pa (some w)).setRight w none) (fS2 + 1) (some a) = some (.node a { n with left := wv.left, right := wv.right, height := wv.height } WL WR) :=
                        extract_assemble hgSa hWL2 hWR2
                      have hndta : (Tree.node a { n with left := wv.left, right := wv.right, height := wv.height } WL WR).addrs.Nodup :=
                        nodup_node.mpr ⟨fun hm => haSR (mem_addrs_left hm),
                          fun hm => haSR (mem_addrs_right hm), hndWL, hndWR, hdisjW⟩
                      obtain ⟨fA, SqA, SpA, eA1, eA2, sA1, sA2, dA1, dA2, agrA⟩ :=
                        rebalance_extract hexa hndta hreba
                      have hnotincore : ∀ b, b ≠ a → b ∉ WL.addrs → b ∉ WR.addrs →
                          b ∉ (Tree.node a { n with left := wv.left, right := wv.right, height := wv.height } WL WR).addrs := by
                        intro b h1 h2 h3 hm
                        rcases (by simpa [Tree.addrs] using hm :
                            b = a ∨ b ∈ WL.addrs ∨ b ∈ WR.addrs) with he | hx | hx
                        · exact h1 he
                        · exact h2 hx
                        · exact h3 hx
                      have hgw2 : hD2.get w = some { wv with left := n.left, right := none, height := n.height } := by
                        rw [agrA w (hnotincore w (Ne.symm haw) hnbw.1 hnbw.2)]
                        exact Heap.get_setRight_self hsn2 none
                      have hexw : extract hD2 1 (some w) =
                          some (.node w { wv with left := n.left, right := none, height := n.height } .leaf .leaf) :=
                        extract_assemble hgw2
                          (by rw [show ({ wv with left := n.left, right := none, height := n.height } : Node).left = n.left from rfl, hnl2]
                              exact extract_leaf _ _)
                          (extract_leaf _ _)
                      have hgpaX : hD2.get pa = some { pn0 with left := some w } := by
                        rw [agrA pa (hnotincore pa (Ne.symm hapa)
                          (fun hm => hpaPl (mem_addrs_right (mem_addrs_left hm)))
                          (fun hm => hpaPl (mem_addrs_right (mem_addrs_right hm))))]
                        rw [Heap.get_setRight_ne _ _ _ (Ne.symm hwpa)]
                        refine Heap.get_setLeft_self ?_ (some w)
                        rw [Heap.get_set_ne _ _ _ _ (Ne.symm hwpa),
                          Heap.get_set_ne _ _ _ _ (Ne.symm hapa)]
                        exact hgpa
                      obtain ⟨f2, P2, hsubW, hndW, hagrW, hexW⟩ :=
                        wrap_slot hgpaX hPr hexw hnd
                          (by intro b hb
                              have he : b = w := by simpa [Tree.addrs] using hb
                              subst he
                              exact mem_addrs_right (mem_addrs_root _ _ _ _))
                          (nodup_node.mpr ⟨by simp [Tree.addrs], by simp [Tree.addrs],
                            List.nodup_nil, List.nodup_nil,
                            fun b hb => by simp [Tree.addrs] at hb⟩)
                          (fun b hb hbpa => by
                            have hba : b ≠ a :=
                              fun he => hb (by rw [he]; exact mem_addrs_root _ _ _ _)
                            have hbw : b ≠ w := fun he => hb
                              (by rw [he]
                                  exact mem_addrs_right (mem_addrs_root _ _ _ _))
                            have hbWL : b ∉ WL.addrs :=
                              fun hm => hb (mem_addrs_right (mem_addrs_left hm))
                            have hbWR : b ∉ WR.addrs :=
                              fun hm => hb (mem_addrs_right (mem_addrs_right hm))
                            rw [agrA b (hnotincore b hba hbWL hbWR)]
                            exact agSW b hba hbw hbpa)
                      exact ⟨f2, P2, hsubW, hndW, hagrW, rfl, hexW⟩

      | right pa =>
          simp only [anchorOf] at hex
          simp only [parOK] at hpok
          obtain ⟨pn0, hgpa, hpnr⟩ := hpok
          obtain ⟨pn, Pl, Pr, hPsh⟩ := extract_some_node hex
          subst hPsh
          obtain ⟨f1, hf1, _, hgpa2, hPl, hPr⟩ := extract_root_some hex
          subst hf1
          rw [hgpa] at hgpa2
          have hpneq := Option.some.inj hgpa2
          subst hpneq
          obtain ⟨hpaPl, hpaPr, hndPl, hndPr, hdisjP⟩ := nodup_node.mp hnd
          obtain ⟨hltP, hgtP, hbstPl, hbstPr⟩ := bst_node hbst
          rw [hpnr] at hPr
          obtain ⟨n, SL, SR, hAsh⟩ := extract_some_node hPr
          subst hAsh
          obtain ⟨fI, hfI, _, hga, hSL, hSR⟩ := extract_root_some hPr
          subst hfI
          obtain ⟨haSL, haSR, hndSL, hndSR, hdisjS⟩ := nodup_node.mp hndPr
          obtain ⟨hltS, hgtS, hbstSL, hbstSR⟩ := bst_node hbstPr
          have hapa : a ≠ pa := fun he => hpaPr (by rw [← he]; exact mem_addrs_root a n SL SR)
          simp only [remove_node] at H
          simp only [bind, Option.bind_eq_some, Option.some.injEq] at H
          obtain ⟨n2, hg2, H⟩ := H
          rw [hga] at hg2
          have hnen := Option.some.inj hg2
          subst hnen
          split at H
          · cases hnl : n.left with
            | none =>
                rw [hnl] at H
                simp only [bind, Option.bind_eq_some, Option.some.injEq, Prod.mk.injEq] at H
                obtain ⟨pr2, hreb, hend1, hend2⟩ := H
                obtain ⟨q0, h2⟩ := pr2
                subst hend1
                subst hend2
                obtain ⟨fR, Sq, Sp, e1, e2, s1, s2, d1, d2, agr⟩ :=
                  rebalance_extract hPr hndPr hreb
                have hgpaX : h2.get pa = some { pn0 with right := some a } := by
                  rw [← hpnr, agr pa hpaPr]
                  exact hgpa
                obtain ⟨f2, P2, hsubW, hndW, hagrW, hexW⟩ :=
                  wrap_slot_right hgpaX hPl e2 hnd s2 d2 (fun b hb _ => agr b hb)
                exact ⟨f2, P2, hsubW, hndW, hagrW, rfl, hexW⟩
            | some child =>
                rw [hnl] at H
                simp only [bind, Option.bind_eq_some, Option.some.injEq, Prod.mk.injEq] at H
                obtain ⟨pr1, hrec, pr2, hreb, hend1, hend2⟩ := H
                obtain ⟨res1, st1⟩ := pr1
                obtain ⟨q0, h2⟩ := pr2
                subst hend1
                subst hend2
                obtain ⟨fM, M, hsubM, hndM, hagM, hrootM, hexMa⟩ :=
                  ih st child size (.left a) res1 st1 (fI + 1) (.node a n SL SR) hrec hPr
                    hndPr hbstPr ⟨n, hga, hnl⟩
                obtain ⟨fR, Sq, Sp, e1, e2, s1, s2, d1, d2, agr⟩ :=
                  rebalance_extract hexMa hndM hreb
                have hgpaX : h2.get pa = some { pn0 with right := some a } := by
                  rw [← hpnr, agr pa (fun hm => hpaPr (hsubM hm)), hagM pa hpaPr]
                  exact hgpa
                obtain ⟨f2, P2, hsubW, hndW, hagrW, hexW⟩ :=
                  wrap_slot_right hgpaX hPl e2 hnd (fun b hb => hsubM (s2 hb)) d2
                    (fun b hb _ => (agr b (fun hm => hb (hsubM hm))).trans (hagM b hb))
                exact ⟨f2, P2, hsubW, hndW, hagrW, hrootM, hexW⟩
          · split at H
            · cases hnr : n.right with
              | none =>
                  rw [hnr] at H
                  simp only [bind, Option.bind_eq_some, Option.some.injEq, Prod.mk.injEq] at H
                  obtain ⟨pr2, hreb, hend1, hend2⟩ := H
                  obtain ⟨q0, h2⟩ := pr2
                  subst hend1
                  subst hend2
                  obtain ⟨fR, Sq, Sp, e1, e2, s1, s2, d1, d2, agr⟩ :=
                    rebalance_extract hPr hndPr hreb
                  have hgpaX : h2.get pa = some { pn0 with right := some a } := by
                    rw [← hpnr, agr pa hpaPr]
                    exact hgpa
                  obtain ⟨f2, P2, hsubW, hndW, hagrW, hexW⟩ :=
                    wrap_slot_right hgpaX hPl e2 hnd s2 d2 (fun b hb _ => agr b hb)
                  exact ⟨f2, P2, hsubW, hndW, hagrW, rfl, hexW⟩
              | some child =>
                  rw [hnr] at H
                  simp only [bind, Option.bind_eq_some, Option.some.injEq, Prod.mk.injEq] at H
                  obtain ⟨pr1, hrec, pr2, hreb, hend1, hend2⟩ := H
                  obtain ⟨res1, st1⟩ := pr1
                  obtain ⟨q0, h2⟩ := pr2
                  subst hend1
                  subst hend2
                  obtain ⟨fM, M, hsubM, hndM, hagM, hrootM, hexMa⟩ :=
                    ih st child size (.right a) res1 st1 (fI + 1) (.node a n SL SR) hrec hPr
                      hndPr hbstPr ⟨n, hga, hnr⟩
                  obtain ⟨fR, Sq, Sp, e1, e2, s1, s2, d1, d2, agr⟩ :=
                    rebalance_extract hexMa hndM hreb
                  have hgpaX : h2.get pa = some { pn0 with right := some a } := by
                    rw [← hpnr, agr pa (fun hm => hpaPr (hsubM hm)), hagM pa hpaPr]
                    exact hgpa
                  obtain ⟨f2, P2, hsubW, hndW, hagrW, hexW⟩ :=
                    wrap_slot_right hgpaX hPl e2 hnd (fun b hb => hsubM (s2 hb)) d2
                      (fun b hb _ => (agr b (fun hm => hb (hsubM hm))).trans (hagM b hb))
                  exact ⟨f2, P2, hsubW, hndW, hagrW, hrootM, hexW⟩
            · have heq : n.size = size := by omega
              simp only [bind, Option.bind_eq_some, Option.some.injEq] at H
              obtain ⟨prA, hdel, H⟩ := H
              obtain ⟨act, stD⟩ := prA
              simp only [delete_node] at hdel
              simp only [bind, Option.bind_eq_some, Option.some.injEq] at hdel
              obtain ⟨n3, hg3, hdel⟩ := hdel
              rw [hga] at hg3
              have hnen3 := Option.some.inj hg3
              subst hnen3
              split at hdel
              · simp only [Option.some.injEq, Prod.mk.injEq] at hdel
                obtain ⟨hact, hstD⟩ := hdel
                subst hact
                subst hstD
                simp only [bind, Option.bind_eq_some, Option.some.injEq, Prod.mk.injEq] at H
                obtain ⟨prC, hreba, hH1, hH2⟩ := H
                obtain ⟨q1, hD2⟩ := prC
                subst hH1
                subst hH2
                have hAx : extract (st.heap.setRight pa none) (fI + 1) (some a) =
                    some (.node a n SL SR) :=
                  extract_congr hPr (fun b hb =>
                    Heap.get_setRight_ne _ _ _ (fun he => hpaPr (he ▸ hb)))
                obtain ⟨fR, Sq, Sp, e1, e2, s1, s2, d1, d2, agr⟩ :=
                  rebalance_extract hAx hndPr hreba
                have hgpaX : hD2.get pa = some { pn0 with right := none } := by
                  rw [agr pa hpaPr]
                  exact Heap.get_setRight_self hgpa none
                obtain ⟨f2, P2, hsubW, hndW, hagrW, hexW⟩ :=
                  wrap_slot_right hgpaX hPl (extract_leaf hD2 1) hnd
                    (by intro b hb
                        simp [Tree.addrs] at hb) List.nodup_nil
                    (fun b hb hbpa => (agr b hb).trans (Heap.get_setRight_ne _ _ _ hbpa))
                exact ⟨f2, P2, hsubW, hndW, hagrW, rfl, hexW⟩
              · split at hdel
                · simp only [bind, Option.bind_eq_some, Option.some.injEq] at hdel
                  obtain ⟨rc, hnrc, prm, hmin, hdel⟩ := hdel
                  obtain ⟨succ, sp⟩ := prm
                  rw [hnrc] at hSR
                  rcases get_min_char st.heap (fuel + 1) rc a fI SR succ sp hmin hSR hndSR
                    with ⟨hseq, hspeq, cv0, hgcv0, hcv0l⟩ |
                      ⟨hsU, hspU, ⟨sv, hgsv, hsvl⟩, ⟨spn, hgspn, hspnl, hspnr⟩, hnessp⟩
                  · subst hseq
                    have hspa0 := hspeq.symm
                    subst hspa0
                    obtain ⟨svv, SRL, SRR, hSRsh⟩ := extract_some_node hSR
                    subst hSRsh
                    obtain ⟨fS2, hfS2, _, hgsv2, hSRL, hSRR⟩ := extract_root_some hSR
                    subst hfS2
                    have hnbsucc := extract_self_not_below (fS2 + 1) hSR
                    obtain ⟨hsuccSRL, hsuccSRR, hndSRL, hndSRR, hdisjSR⟩ :=
                      nodup_node.mp hndSR
                    rw [hgsv2] at hgcv0
                    have hne4 := Option.some.inj hgcv0
                    subst hne4
                    have harc : a ≠ succ :=
                      fun he => haSR (he ▸ mem_addrs_root succ svv SRL SRR)
                    have hsuccpa : succ ≠ pa := fun he =>
                      hpaPr (he ▸ mem_addrs_right (mem_addrs_root succ svv SRL SRR))
                    simp only [swap_nodes] at hdel
                    simp only [bind, Option.bind_eq_some, Option.some.injEq] at hdel
                    obtain ⟨h1s, hsw, hdel⟩ := hdel
                    simp only [swapHdr, bind, Option.bind_eq_some, Option.some.injEq] at hsw
                    obtain ⟨na, hna, nb, hnb, hh1⟩ := hsw
                    rw [hga] at hna
                    have hna2 := Option.some.inj hna
                    subst hna2
                    rw [hgsv2] at hnb
                    have hnb2 := Option.some.inj hnb
                    subst hnb2
                    subst hh1
                    rw [if_pos trivial] at hdel
                    simp only [Option.bind_eq_some, Option.some.injEq, Prod.mk.injEq] at hdel
                    obtain ⟨sn, hsn, hact, hstD⟩ := hdel
                    have hsn2 : (((st.heap.set a { n with left := svv.left, right := svv.right, height := svv.height }).set succ { svv with left := n.left, right := n.right, height := n.height }).setRight pa (some succ)).get succ = some { svv with left := n.left, right := n.right, height := n.height } := by
                      rw [Heap.get_setRight_ne _ _ _ hsuccpa]
                      exact Heap.get_set_self _ _ _
                    rw [hsn2] at hsn
                    have hsn3 := Option.some.inj hsn
                    subst hsn3
                    have hcond : ({ svv with left := n.left, right := n.right, height := n.height } : Node).right = some succ := hnrc
                    rw [if_pos hcond] at hstD
                    subst hact
                    subst hstD
                    simp only [bind, Option.bind_eq_some, Option.some.injEq,
                      Prod.mk.injEq] at H
                    obtain ⟨prC, hreba, hH1, hH2⟩ := H
                    obtain ⟨q1, hD2⟩ := prC
                    subst hH1
                    subst hH2
                    have agSW : ∀ b, b ≠ a → b ≠ succ → b ≠ pa →
                        ((((st.heap.set a { n with left := svv.left, right := svv.right, height := svv.height }).set succ { svv with left := n.left, right := n.right, height := n.height }).setRight pa (some succ)).setRight succ none).get b = st.heap.get b := by
                      intro b h1 h2 h3
                      rw [Heap.get_setRight_ne _ _ _ h2, Heap.get_setRight_ne _ _ _ h3,
                        Heap.get_set_ne _ _ _ _ h2, Heap.get_set_ne _ _ _ _ h1]
                    have hgSa : ((((st.heap.set a { n with left := svv.left, right := svv.right, height := svv.height }).set succ { svv with left := n.left, right := n.right, height := n.height }).setRight pa (some succ)).setRight succ none).get a = some { n with left := svv.left, right := svv.right, height := svv.height } := by
                      rw [Heap.get_setRight_ne _ _ _ harc, Heap.get_setRight_ne _ _ _ hapa,
                        Heap.get_set_ne _ _ _ _ harc]
                      exact Heap.get_set_self _ _ _
                    have hSRR2 : extract ((((st.heap.set a { n with left := svv.left, right := svv.right, height := svv.height }).set succ { svv with left := n.left, right := n.right, height := n.height }).setRight pa (some succ)).setRight succ none) fS2 svv.right = some SRR :=
                      extract_congr hSRR (fun b hb => agSW b
                        (fun he => haSR (he ▸ mem_addrs_right hb))
                        (fun he => hnbsucc.2 (he ▸ hb))
                        (fun he => hpaPr (he ▸ mem_addrs_right (mem_addrs_right hb))))
                    have hexa : extract ((((st.heap.set a { n with left := svv.left, right := svv.right, height := svv.height }).set succ { svv with left := n.left, right := n.right, height := n.height }).setRight pa (some succ)).setRight succ none) (fS2 + 1) (some a) = some (.node a { n with left := svv.left, right := svv.right, height := svv.height } .leaf SRR) :=
                      extract_assemble hgSa
                        (by rw [show ({ n with left := svv.left, right := svv.right, height := svv.height } : Node).left = svv.left from rfl, hcv0l]
                            exact extract_leaf _ _)
                        hSRR2
                    have hndta : (Tree.node a { n with left := svv.left, right := svv.right, height := svv.height } Tree.leaf SRR).addrs.Nodup :=
                      nodup_node.mpr ⟨by simp [Tree.addrs],
                        fun hm => haSR (mem_addrs_right hm), List.nodup_nil, hndSRR,
                        fun b hb => by simp [Tree.addrs] at hb⟩
                    obtain ⟨fA, SqA, SpA, eA1, eA2, sA1, sA2, dA1, dA2, agrA⟩ :=
                      rebalance_extract hexa hndta hreba
                    have hnotincore : ∀ b, b ≠ a → b ∉ SRR.addrs →
                        b ∉ (Tree.node a { n with left := svv.left, right := svv.right, height := svv.height } Tree.leaf SRR).addrs := by
                      intro b h1 h2 hm
                      rcases (by simpa [Tree.addrs] using hm : b = a ∨ b ∈ SRR.addrs)
                        with he | hx
                      · exact h1 he
                      · exact h2 hx
                    have hgsucc2 : hD2.get succ = some { svv with left := n.left, right := none, height := n.height } := by
                      rw [agrA succ (hnotincore succ (Ne.symm harc) hnbsucc.2)]
                      exact Heap.get_setRight_self hsn2 none
                    have hSL2 : extract hD2 (fS2 + 1) n.left = some SL :=
                      extract_congr hSL (fun b hb => by
                        have hba : b ≠ a := fun he => haSL (he ▸ hb)
                        have hbsucc : b ≠ succ :=
                          fun he => hdisjS succ (he ▸ hb) (mem_addrs_root _ _ _ _)
                        have hbSRR : b ∉ SRR.addrs :=
                          fun hm => hdisjS b hb (mem_addrs_right hm)
                        have hbpa : b ≠ pa := fun he => hpaPr (he ▸ mem_addrs_left hb)
                        rw [agrA b (hnotincore b hba hbSRR)]
                        exact agSW b hba hbsucc hbpa)
                    have hexP2 : extract hD2 (fS2 + 1 + 1) (some succ) =
                        some (.node succ { svv with left := n.left, right := none, height := n.height } SL .leaf) :=
                      extract_assemble hgsucc2 hSL2 (extract_leaf _ _)
                    have hgpaX : hD2.get pa = some { pn0 with right := some succ } := by
                      rw [agrA pa (hnotincore pa (Ne.symm hapa)
                        (fun hm => hpaPr (mem_addrs_right (mem_addrs_right hm))))]
                      rw [Heap.get_setRight_ne _ _ _ (Ne.symm hsuccpa)]
                      refine Heap.get_setRight_self ?_ (some succ)
                      rw [Heap.get_set_ne _ _ _ _ (Ne.symm hsuccpa),
                        Heap.get_set_ne _ _ _ _ (Ne.symm hapa)]
                      exact hgpa
                    obtain ⟨f2, P2, hsubW, hndW, hagrW, hexW⟩ :=
                      wrap_slot_right hgpaX hPl hexP2 hnd
                        (by intro b hb
                            rcases (by simpa [Tree.addrs] using hb :
                                b = succ ∨ b ∈ SL.addrs) with he | hm
                            · subst he
                              exact mem_addrs_right (mem_addrs_root _ _ _ _)
                            · exact mem_addrs_left hm)
                        (nodup_node.mpr ⟨fun hm => hdisjS succ hm (mem_addrs_root _ _ _ _),
                          by simp [Tree.addrs], hndSL, List.nodup_nil,
                          fun b hb => by simp [Tree.addrs]⟩)
                        (fun b hb hbpa => by
                          have hba : b ≠ a :=
                            fun he => hb (by rw [he]; exact mem_addrs_root _ _ _ _)
                          have hbsucc : b ≠ succ := fun he => hb
                            (by rw [he]; exact mem_addrs_right (mem_addrs_root _ _ _ _))
                          have hbSRR : b ∉ SRR.addrs :=
                            fun hm => hb (mem_addrs_right (mem_addrs_right hm))
                          rw [agrA b (hnotincore b hba hbSRR)]
                          exact agSW b hba hbsucc hbpa)
                    exact ⟨f2, P2, hsubW, hndW, hagrW, rfl, hexW⟩
                  · have hspa : sp ≠ a := fun he => haSR (he ▸ hspU)
                    have hsucca : succ ≠ a := fun he => haSR (he ▸ hsU)
                    have hsuccpa : succ ≠ pa :=
                      fun he => hpaPr (he ▸ mem_addrs_right hsU)
                    have hsppa : sp ≠ pa :=
                      fun he => hpaPr (he ▸ mem_addrs_right hspU)
                    simp only [swap_nodes] at hdel
                    simp only [bind, Option.bind_eq_some, Option.some.injEq] at hdel
                    obtain ⟨h1s, hsw, hdel⟩ := hdel
                    simp only [swapHdr, bind, Option.bind_eq_some, Option.some.injEq] at hsw
                    obtain ⟨na, hna, nb, hnb, hh1⟩ := hsw
                    rw [hga] at hna
                    have hna2 := Option.some.inj hna
                    subst hna2
                    rw [hgsv] at hnb
                    have hnb2 := Option.some.inj hnb
                    subst hnb2
                    subst hh1
                    rw [if_neg hspa] at hdel
                    simp only [bind, Option.bind_eq_some, Option.some.injEq] at hdel
                    obtain ⟨spv, hspv, hdel⟩ := hdel
                    have hspv2 : (((st.heap.set a { n with left := sv.left, right := sv.right, height := sv.height }).set succ { sv with left := n.left, right := n.right, height := n.height }).setRight pa (some succ)).get sp = some spn := by
                      rw [Heap.get_setRight_ne _ _ _ hsppa, Heap.get_set_ne _ _ _ _ (Ne.symm hnessp),
                        Heap.get_set_ne _ _ _ _ hspa]
                      exact hgspn
                    rw [hspv2] at hspv
                    have hspv3 := Option.some.inj hspv
                    subst hspv3
                    rw [if_neg hspnr] at hdel
                    obtain ⟨spv1, hspv1, hdel⟩ := hdel
                    rw [hspv2] at hspv1
                    have hspv4 := Option.some.inj hspv1
                    subst hspv4
                    rw [if_pos hspnl] at hdel
                    simp only [Option.some.injEq, Prod.mk.injEq] at hdel
                    obtain ⟨hact, hstD⟩ := hdel
                    subst hact
                    subst hstD
                    simp only [bind, Option.some_bind, Option.bind_eq_some,
                      Option.some.injEq, Prod.mk.injEq] at H
                    obtain ⟨rc2, hrc2, prB, hrecB, prC, hrebC, hH1, hH2⟩ := H
                    obtain ⟨res1, st1⟩ := prB
                    obtain ⟨q2, h2f⟩ := prC
                    subst hH1
                    subst hH2
                    rw [hnrc] at hrc2
                    have hrc3 := Option.some.inj hrc2
                    subst hrc3
                    obtain ⟨hroot1, fT, T2, hexT2, hsubT2, hndT2, hagT2⟩ :=
                      searchdelete_succ_extract hga heq hnrc hSL hSR hndPr
                        (by rw [← heq]; exact hgtS) hmin hspa
                        (fun b h1 h2 h3 hbm => by
                          have hbpa : b ≠ pa := fun he => hpaPr (he ▸ hbm)
                          rw [Heap.get_setLeft_ne _ _ _ h3,
                            Heap.get_setRight_ne _ _ _ hbpa,
                            Heap.get_set_ne _ _ _ _ h2, Heap.get_set_ne _ _ _ _ h1])
                        (fun sv2 hgsv2 => by
                          rw [hgsv] at hgsv2
                          have hx := Option.some.inj hgsv2
                          subst hx
                          rw [Heap.get_setLeft_ne _ _ _ hnessp, Heap.get_setRight_ne _ _ _ hsuccpa]
                          exact Heap.get_set_self _ _ _)
                        (fun spn2 hgspn2 => by
                          rw [hgspn] at hgspn2
                          have hx := Option.some.inj hgspn2
                          subst hx
                          exact Heap.get_setLeft_self hspv2 (some a))
                        (fun sv2 hgsv2 => by
                          rw [hgsv] at hgsv2
                          have hx := Option.some.inj hgsv2
                          subst hx
                          rw [Heap.get_setLeft_ne _ _ _ (Ne.symm hspa),
                            Heap.get_setRight_ne _ _ _ hapa,
                            Heap.get_set_ne _ _ _ _ (Ne.symm hsucca)]
                          exact Heap.get_set_self _ _ _)
                        hrecB
                    have hgpaW : st1.heap.get pa = some { pn0 with right := some succ } := by
                      rw [hagT2 pa hpaPr, Heap.get_setLeft_ne _ _ _ (Ne.symm hsppa)]
                      refine Heap.get_setRight_self ?_ (some succ)
                      rw [Heap.get_set_ne _ _ _ _ (Ne.symm hsuccpa),
                        Heap.get_set_ne _ _ _ _ (Ne.symm hapa)]
                      exact hgpa
                    obtain ⟨fW, PW, hsubPW, hndPW, hagrPW, hexPW⟩ :=
                      wrap_slot_right hgpaW hPl hexT2 hnd hsubT2 hndT2
                        (fun b hb hbpa => by
                          have hba : b ≠ a :=
                            fun he => hb (by rw [he]; exact mem_addrs_root _ _ _ _)
                          have hbsucc : b ≠ succ :=
                            fun he => hb (by rw [he]; exact mem_addrs_right hsU)
                          have hbsp : b ≠ sp :=
                            fun he => hb (by rw [he]; exact mem_addrs_right hspU)
                          rw [hagT2 b hb, Heap.get_setLeft_ne _ _ _ hbsp,
                            Heap.get_setRight_ne _ _ _ hbpa, Heap.get_set_ne _ _ _ _ hbsucc,
                            Heap.get_set_ne _ _ _ _ hba])
                    obtain ⟨fR, Sq, Sp, e1, e2, s1, s2, d1, d2, agr⟩ :=
                      rebalance_extract hexPW hndPW hrebC
                    refine ⟨fR, Sp, fun b hb => hsubPW (s2 hb), d2, ?_, hroot1, e2⟩
                    intro b hb
                    exact (agr b (fun hm => hb (hsubPW hm))).trans (hagrPW b hb)
                · next hnboth2 =>
                  cases hnl2 : n.left with
                  | some w =>
                      have hnr2 : n.right = none := by
                        cases hx : n.right with
                        | none => rfl
                        | some y =>
                            exact absurd ⟨by simp [hnl2], by simp [hx]⟩ hnboth2
                      rw [hnl2] at hdel
                      simp only [Option.some_bind] at hdel
                      rw [hnl2] at hSL
                      obtain ⟨wv, WL, WR, hSLsh⟩ := extract_some_node hSL
                      subst hSLsh
                      obtain ⟨fS2, hfS2, _, hgw, hWL, hWR⟩ := extract_root_some hSL
                      subst hfS2
                      have hnbw := extract_self_not_below (fS2 + 1) hSL
                      obtain ⟨hwWL, hwWR, hndWL, hndWR, hdisjW⟩ := nodup_node.mp hndSL
                      have haw : a ≠ w := fun he => haSL (he ▸ mem_addrs_root w wv WL WR)
                      have hwpa : w ≠ pa := fun he =>
                        hpaPr (he ▸ mem_addrs_left (mem_addrs_root w wv WL WR))
                      simp only [swap_nodes] at hdel
                      simp only [bind, Option.bind_eq_some, Option.some.injEq] at hdel
                      obtain ⟨h1s, hsw, hdel⟩ := hdel
                      simp only [swapHdr, bind, Option.bind_eq_some,
                        Option.some.injEq] at hsw
                      obtain ⟨na, hna, nb, hnb, hh1⟩ := hsw
                      rw [hga] at hna
                      have hna2 := Option.some.inj hna
                      subst hna2
                      rw [hgw] at hnb
                      have hnb2 := Option.some.inj hnb
                      subst hnb2
                      subst hh1
                      rw [if_pos trivial] at hdel
                      simp only [Option.bind_eq_some, Option.some.injEq,
                        Prod.mk.injEq] at hdel
                      obtain ⟨sn, hsn, hact, hstD⟩ := hdel
                      have hsn2 : (((st.heap.set a { n with left := wv.left, right := wv.right, height := wv.height }).set w { wv with left := n.left, right := n.right, height := n.height }).setRight pa (some w)).get w = some { wv with left := n.left, right := n.right, height := n.height } := by
                        rw [Heap.get_setRight_ne _ _ _ hwpa]
                        exact Heap.get_set_self _ _ _
                      rw [hsn2] at hsn
                      have hsn3 := Option.some.inj hsn
                      subst hsn3
                      rw [if_neg (by simp [hnr2])] at hstD
                      subst hact
                      subst hstD
                      simp only [bind, Option.bind_eq_some, Option.some.injEq,
                        Prod.mk.injEq] at H
                      obtain ⟨prC, hreba, hH1, hH2⟩ := H
                      obtain ⟨q1, hD2⟩ := prC
                      subst hH1
                      subst hH2
                      have agSW : ∀ b, b ≠ a → b ≠ w → b ≠ pa →
                          ((((st.heap.set a { n with left := wv.left, right := wv.right, height := wv.height }).set w { wv with left := n.left, right := n.right, height := n.height }).setRight pa (some w)).setLeft w none).get b = st.heap.get b := by
                        intro b h1 h2 h3
                        rw [Heap.get_setLeft_ne _ _ _ h2, Heap.get_setRight_ne _ _ _ h3,
                          Heap.get_set_ne _ _ _ _ h2, Heap.get_set_ne _ _ _ _ h1]
                      have hgSa : ((((st.heap.set a { n with left := wv.left, right := wv.right, height := wv.height }).set w { wv with left := n.left, right := n.right, height := n.height }).setRight pa (some w)).setLeft w none).get a = some { n with left := wv.left, right := wv.right, height := wv.height } := by
                        rw [Heap.get_setLeft_ne _ _ _ haw, Heap.get_setRight_ne _ _ _ hapa,
                          Heap.get_set_ne _ _ _ _ haw]
                        exact Heap.get_set_self _ _ _
                      have hWL2 : extract ((((st.heap.set a { n with left := wv.left, right := wv.right, height := wv.height }).set w { wv with left := n.left, right := n.right, height := n.height }).setRight pa (some w)).setLeft w none) fS2 wv.left = some WL :=
                        extract_congr hWL (fun b hb => agSW b
                          (fun he => haSL (he ▸ mem_addrs_left hb))
                          (fun he => hnbw.1 (he ▸ hb))
                          (fun he => hpaPr (he ▸ mem_addrs_left (mem_addrs_left hb))))
                      have hWR2 : extract ((((st.heap.set a { n with left := wv.left, right := wv.right, height := wv.height }).set w { wv with left := n.left, right := n.right, height := n.height }).setRight pa (some w)).setLeft w none) fS2 wv.right = some WR :=
                        extract_congr hWR (fun b hb => agSW b
                          (fun he => haSL (he ▸ mem_addrs_right hb))
                          (fun he => hnbw.2 (he ▸ hb))
                          (fun he => hpaPr (he ▸ mem_addrs_left (mem_addrs_right hb))))
                      have hexa : extract ((((st.heap.set a { n with left := wv.left, right := wv.right, height := wv.height }).set w { wv with left := n.left, right := n.right, height := n.height }).setRight pa (some w)).setLeft w none) (fS2 + 1) (some a) = some (.node a { n with left := wv.left, right := wv.right, height := wv.height } WL WR) :=
                        extract_assemble hgSa hWL2 hWR2
                      have hndta : (Tree.node a { n with left := wv.left, right := wv.right, height := wv.height } WL WR).addrs.Nodup :=
                        nodup_node.mpr ⟨fun hm => haSL (mem_addrs_left hm),
                          fun hm => haSL (mem_addrs_right hm), hndWL, hndWR, hdisjW⟩
                      obtain ⟨fA, SqA, SpA, eA1, eA2, sA1, sA2, dA1, dA2, agrA⟩ :=
                        rebalance_extract hexa hndta hreba
                      have hnotincore : ∀ b, b ≠ a → b ∉ WL.addrs → b ∉ WR.addrs →
                          b ∉ (Tree.node a { n with left := wv.left, right := wv.right, height := wv.height } WL WR).addrs := by
                        intro b h1 h2 h3 hm
                        rcases (by simpa [Tree.addrs] using hm :
                            b = a ∨ b ∈ WL.addrs ∨ b ∈ WR.addrs) with he | hx | hx
                        · exact h1 he
                        · exact h2 hx
                        · exact h3 hx
                      have hgw2 : hD2.get w = some { wv with left := none, right := n.right, height := n.height } := by
                        rw [agrA w (hnotincore w (Ne.symm haw) hnbw.1 hnbw.2)]
                        exact Heap.get_setLeft_self hsn2 none
                      have hexw : extract hD2 1 (some w) =
                          some (.node w { wv with left := none, right := n.right, height := n.height } .leaf .leaf) :=
                        extract_assemble hgw2 (extract_leaf _ _)
                          (by rw [show ({ wv with left := none, right := n.right, height := n.height } : Node).right = n.right from rfl, hnr2]
                              exact extract_leaf _ _)
                      have hgpaX : hD2.get pa = some { pn0 with right := some w } := by
                        rw [agrA pa (hnotincore pa (Ne.symm hapa)
                          (fun hm => hpaPr (mem_addrs_left (mem_addrs_left hm)))
                          (fun hm => hpaPr (mem_addrs_left (mem_addrs_right hm))))]
                        rw [Heap.get_setLeft_ne _ _ _ (Ne.symm hwpa)]
                        refine Heap.get_setRight_self ?_ (some w)
                        rw [Heap.get_set_ne _ _ _ _ (Ne.symm hwpa),
                          Heap.get_set_ne _ _ _ _ (Ne.symm hapa)]
                        exact hgpa
                      obtain ⟨f2, P2, hsubW, hndW, hagrW, hexW⟩ :=
                        wrap_slot_right hgpaX hPl hexw hnd
                          (by intro b hb
                              have he : b = w := by simpa [Tree.addrs] using hb
                              subst he
                              exact mem_addrs_left (mem_addrs_root _ _ _ _))
                          (nodup_node.mpr ⟨by simp [Tree.addrs], by simp [Tree.addrs],
                            List.nodup_nil, List.nodup_nil,
                            fun b hb => by simp [Tree.addrs] at hb⟩)
                          (fun b hb hbpa => by
                            have hba : b ≠ a :=
                              fun he => hb (by rw [he]; exact mem_addrs_root _ _ _ _)
                            have hbw : b ≠ w := fun he => hb
                              (by rw [he]
                                  exact mem_addrs_left (mem_addrs_root _ _ _ _))
                            have hbWL : b ∉ WL.addrs :=
                              fun hm => hb (mem_addrs_left (mem_addrs_left hm))
                            have hbWR : b ∉ WR.addrs :=
                              fun hm => hb (mem_addrs_left (mem_addrs_right hm))
                            rw [agrA b (hnotincore b hba hbWL hbWR)]
                            exact agSW b hba hbw hbpa)
                      exact ⟨f2, P2, hsubW, hndW, hagrW, rfl, hexW⟩
                  | none =>
                      cases hnr3 : n.right with
                      | none => exact absurd (⟨hnl2, hnr3⟩ : n.left = none ∧ n.right = none) (by assumption)
                      | some w =>
                      rw [hnl2, hnr3] at hdel
                      simp only [Option.some_bind] at hdel
                      rw [hnr3] at hSR
                      obtain ⟨wv, WL, WR, hSRsh⟩ := extract_some_node hSR
                      subst hSRsh
                      obtain ⟨fS2, hfS2, _, hgw, hWL, hWR⟩ := extract_root_some hSR
                      subst hfS2
                      have hnbw := extract_self_not_below (fS2 + 1) hSR
                      obtain ⟨hwWL, hwWR, hndWL, hndWR, hdisjW⟩ := nodup_node.mp hndSR
                      have haw : a ≠ w := fun he => haSR (he ▸ mem_addrs_root w wv WL WR)
                      have hwpa : w ≠ pa := fun he =>
                        hpaPr (he ▸ mem_addrs_right (mem_addrs_root w wv WL WR))
                      simp only [swap_nodes] at hdel
                      simp only [bind, Option.bind_eq_some, Option.some.injEq] at hdel
                      obtain ⟨h1s, hsw, hdel⟩ := hdel
                      simp only [swapHdr, bind, Option.bind_eq_some,
                        Option.some.injEq] at hsw
                      obtain ⟨na, hna, nb, hnb, hh1⟩ := hsw
                      rw [hga] at hna
                      have hna2 := Option.some.inj hna
                      subst hna2
                      rw [hgw] at hnb
                      have hnb2 := Option.some.inj hnb
                      subst hnb2
                      subst hh1
                      rw [if_pos trivial] at hdel
                      simp only [Option.bind_eq_some, Option.some.injEq,
                        Prod.mk.injEq] at hdel
                      obtain ⟨sn, hsn, hact, hstD⟩ := hdel
                      have hsn2 : (((st.heap.set a { n with left := wv.left, right := wv.right, height := wv.height }).set w { wv with left := n.left, right := n.right, height := n.height }).setRight pa (some w)).get w = some { wv with left := n.left, right := n.right, height := n.height } := by
                        rw [Heap.get_setRight_ne _ _ _ hwpa]
                        exact Heap.get_set_self _ _ _
                      rw [hsn2] at hsn
                      have hsn3 := Option.some.inj hsn
                      subst hsn3
                      have hcond : ({ wv with left := n.left, right := n.right, height := n.height } : Node).right = some w := hnr3
                      rw [if_pos hcond] at hstD
                      subst hact
                      subst hstD
                      simp only [bind, Option.bind_eq_some, Option.some.injEq,
                        Prod.mk.injEq] at H
                      obtain ⟨prC, hreba, hH1, hH2⟩ := H
                      obtain ⟨q1, hD2⟩ := prC
                      subst hH1
                      subst hH2
                      have agSW : ∀ b, b ≠ a → b ≠ w → b ≠ pa →
                          ((((st.heap.set a { n with left := wv.left, right := wv.right, height := wv.height }).set w { wv with left := n.left, right := n.right, height := n.height }).setRight pa (some w)).setRight w none).get b = st.heap.get b := by
                        intro b h1 h2 h3
                        rw [Heap.get_setRight_ne _ _ _ h2, Heap.get_setRight_ne _ _ _ h3,
                          Heap.get_set_ne _ _ _ _ h2, Heap.get_set_ne _ _ _ _ h1]
                      have hgSa : ((((st.heap.set a { n with left := wv.left, right := wv.right, height := wv.height }).set w { wv with left := n.left, right := n.right, height := n.height }).setRight pa (some w)).setRight w none).get a = some { n with left := wv.left, right := wv.right, height := wv.height } := by
                        rw [Heap.get_setRight_ne _ _ _ haw, Heap.get_setRight_ne _ _ _ hapa,
                          Heap.get_set_ne _ _ _ _ haw]
                        exact Heap.get_set_self _ _ _
                      have hWL2 : extract ((((st.heap.set a { n with left := wv.left, right := wv.right, height := wv.height }).set w { wv with left := n.left, right := n.right, height := n.height }).setRight pa (some w)).setRight w none) fS2 wv.left = some WL :=
                        extract_congr hWL (fun b hb => agSW b
                          (fun he => haSR (he ▸ mem_addrs_left hb))
                          (fun he => hnbw.1 (he ▸ hb))
                          (fun he => hpaPr (he ▸ mem_addrs_right (mem_addrs_left hb))))
                      have hWR2 : extract ((((st.heap.set a { n with left := wv.left, right := wv.right, height := wv.height }).set w { wv with left := n.left, right := n.right, height := n.height }).setRight pa (some w)).setRight w none) fS2 wv.right = some WR :=
                        extract_congr hWR (fun b hb => agSW b
                          (fun he => haSR (he ▸ mem_addrs_right hb))
                          (fun he => hnbw.2 (he ▸ hb))
                          (fun he => hpaPr (he ▸ mem_addrs_right (mem_addrs_right hb))))
                      have hexa : extract ((((st.heap.set a { n with left := wv.left, right := wv.right, height := wv.height }).set w { wv with left := n.left, right := n.right, height := n.height }).setRight pa (some w)).setRight w none) (fS2 + 1) (some a) = some (.node a { n with left := wv.left, right := wv.right, height := wv.height } WL WR) :=
                        extract_assemble hgSa hWL2 hWR2
                      have hndta : (Tree.node a { n with left := wv.left, right := wv.right, height := wv.height } WL WR).addrs.Nodup :=
                        nodup_node.mpr ⟨fun hm => haSR (mem_addrs_left hm),
                          fun hm => haSR (mem_addrs_right hm), hndWL, hndWR, hdisjW⟩
                      obtain ⟨fA, SqA, SpA, eA1, eA2, sA1, sA2, dA1, dA2, agrA⟩ :=
                        rebalance_extract hexa hndta hreba
                      have hnotincore : ∀ b, b ≠ a → b ∉ WL.addrs → b ∉ WR.addrs →
                          b ∉ (Tree.node a { n with left := wv.left, right := wv.right, height := wv.height } WL WR).addrs := by
                        intro b h1 h2 h3 hm
                        rcases (by simpa [Tree.addrs] using hm :
                            b = a ∨ b ∈ WL.addrs ∨ b ∈ WR.addrs) with he | hx | hx
                        · exact h1 he
                        · exact h2 hx
                        · exact h3 hx
                      have hgw2 : hD2.get w = some { wv with left := n.left, right := none, height := n.height } := by
                        rw [agrA w (hnotincore w (Ne.symm haw) hnbw.1 hnbw.2)]
                        exact Heap.get_setRight_self hsn2 none
                      have hexw : extract hD2 1 (some w) =
                          some (.node w { wv with left := n.left, right := none, height := n.height } .leaf .leaf) :=
                        extract_assemble hgw2
                          (by rw [show ({ wv with left := n.left, right := none, height := n.height } : Node).left = n.left from rfl, hnl2]
                              exact extract_leaf _ _)
                          (extract_leaf _ _)
                      have hgpaX : hD2.get pa = some { pn0 with right := some w } := by
                        rw [agrA pa (hnotincore pa (Ne.symm hapa)
                          (fun hm => hpaPr (mem_addrs_right (mem_addrs_left hm)))
                          (fun hm => hpaPr (mem_addrs_right (mem_addrs_right hm))))]
                        rw [Heap.get_setRight_ne _ _ _ (Ne.symm hwpa)]
                        refine Heap.get_setRight_self ?_ (some w)
                        rw [Heap.get_set_ne _ _ _ _ (Ne.symm hwpa),
                          Heap.get_set_ne _ _ _ _ (Ne.symm hapa)]
                        exact hgpa
                      obtain ⟨f2, P2, hsubW, hndW, hagrW, hexW⟩ :=
                        wrap_slot_right hgpaX hPl hexw hnd
                          (by intro b hb
                              have he : b = w := by simpa [Tree.addrs] using hb
                              subst he
                              exact mem_addrs_right (mem_addrs_root _ _ _ _))
                          (nodup_node.mpr ⟨by simp [Tree.addrs], by simp [Tree.addrs],
                            List.nodup_nil, List.nodup_nil,
                            fun b hb => by simp [Tree.addrs] at hb⟩)
                          (fun b hb hbpa => by
                            have hba : b ≠ a :=
                              fun he => hb (by rw [he]; exact mem_addrs_root _ _ _ _)
                            have hbw : b ≠ w := fun he => hb
                              (by rw [he]
                                  exact mem_addrs_right (mem_addrs_root _ _ _ _))
                            have hbWL : b ∉ WL.addrs :=
                              fun hm => hb (mem_addrs_right (mem_addrs_left hm))
                            have hbWR : b ∉ WR.addrs :=
                              fun hm => hb (mem_addrs_right (mem_addrs_right hm))
                            rw [agrA b (hnotincore b hba hbWL hbWR)]
                            exact agSW b hba hbw hbpa)
                      exact ⟨f2, P2, hsubW, hndW, hagrW, rfl, hexW⟩



/-- `remove` preserves extraction: the tree reachable from the (possibly
changed) root still extracts, over a subset of the old addresses, still
without duplicates, and no header outside the old tree is written. -/
theorem remove_extract {fuel : Nat} {st : AVLState} {v : Nat} {res : Option Nat}
    {st2 : AVLState} {f : Nat} {T : Tree}
    (H : remove fuel st v = some (res, st2))
    (hex : extract st.heap f st.root = some T)
    (hnd : T.addrs.Nodup) (hbst : T.bstOK = true) :
    ∃ f2 T2, extract st2.heap f2 st2.root = some T2 ∧ T2.addrs ⊆ T.addrs ∧
      T2.addrs.Nodup ∧ ∀ b, b ∉ T.addrs → st2.heap.get b = st.heap.get b := by
  unfold remove at H
  cases hr : st.root with
  | none =>
      rw [hr] at H
      simp only [Option.some.injEq, Prod.mk.injEq] at H
      obtain ⟨h1, h2⟩ := H
      subst h2
      exact ⟨f, T, hex, fun b hb => hb, hnd, fun b hb => Eq.refl _⟩
  | some r =>
      rw [hr] at H
      rw [hr] at hex
      obtain ⟨f2, P2, hsub, hnd2, hag, hroot⟩ :=
        remove_node_extract fuel st r v .root res st2 f T H hex hnd hbst hr
      exact ⟨f2, P2, hroot, hsub, hnd2, hag⟩

/-- `reinsert_node` preserves extraction: the subtree handed back under
the returned pointer extracts, drawing its addresses from the old
subtree plus the inserted node (assumed live, childless and fresh),
with writes confined to the same set and the tree root untouched. -/
theorem reinsert_extract : ∀ (fuel : Nat) (st : AVLState) (o : Option Nat)
    (value : Nat) (res1 : Nat) (st1 : AVLState) (f : Nat) (T : Tree) (vn : Node),
    reinsert_node fuel st o value = some (res1, st1) →
    extract st.heap f o = some T → T.addrs.Nodup →
    st.heap.get value = some vn → vn.left = none → vn.right = none →
    value ∉ T.addrs →
    st1.root = st.root ∧
    ∃ f2 T2, extract st1.heap f2 (some res1) = some T2 ∧
      (∀ b, b ∈ T2.addrs → b = value ∨ b ∈ T.addrs) ∧ T2.addrs.Nodup ∧
      ∀ b, b ∉ T.addrs → b ≠ value → st1.heap.get b = st.heap.get b := by
  intro fuel
  induction fuel with
  | zero =>
      intro st o value res1 st1 f T vn H hex hnd hgv hvl hvr hvT
      cases o with
      | none =>
          simp only [reinsert_node, Option.some.injEq, Prod.mk.injEq] at H
          obtain ⟨h1, h2⟩ := H
          subst h1
          subst h2
          refine ⟨rfl, 1, .node value vn .leaf .leaf, ?_, ?_, ?_, ?_⟩
          · exact extract_assemble hgv (by rw [hvl]; exact extract_leaf _ _)
              (by rw [hvr]; exact extract_leaf _ _)
          · intro b hb
            exact Or.inl (by simpa [Tree.addrs] using hb)
          · simp [Tree.addrs]
          · intro b hb hbv
            exact Eq.refl _
      | some p => simp [reinsert_node] at H
  | succ fuel ih =>
      intro st o value res1 st1 f T vn H hex hnd hgv hvl hvr hvT
      cases o with
      | none =>
          simp only [reinsert_node, Option.some.injEq, Prod.mk.injEq] at H
          obtain ⟨h1, h2⟩ := H
          subst h1
          subst h2
          refine ⟨rfl, 1, .node value vn .leaf .leaf, ?_, ?_, ?_, ?_⟩
          · exact extract_assemble hgv (by rw [hvl]; exact extract_leaf _ _)
              (by rw [hvr]; exact extract_leaf _ _)
          · intro b hb
            exact Or.inl (by simpa [Tree.addrs] using hb)
          · simp [Tree.addrs]
          · intro b hb hbv
            exact Eq.refl _
      | some ptr =>
          obtain ⟨nref0, TL, TR, hT⟩ := extract_some_node hex
          subst hT
          obtain ⟨fI, hfI, _, hgp, hTL, hTR⟩ := extract_root_some hex
          subst hfI
          obtain ⟨hpTL, hpTR, hndTL, hndTR, hdisjT⟩ := nodup_node.mp hnd
          have hvptr : value ≠ ptr :=
            fun he => hvT (by rw [he]; exact mem_addrs_root _ _ _ _)
          simp only [reinsert_node] at H
          simp only [bind, Option.bind_eq_some, Option.some.injEq] at H
          obtain ⟨nref, hgp2, vref, hgv2, H⟩ := H
          rw [hgp] at hgp2
          have hne1 := Option.some.inj hgp2
          subst hne1
          rw [hgv] at hgv2
          have hne2 := Option.some.inj hgv2
          subst hne2
          split at H
          · simp only [bind, Option.bind_eq_some, Option.some.injEq, Prod.mk.injEq] at H
            obtain ⟨pr1, hrec, pr2, hreb, hend1, hend2⟩ := H
            obtain ⟨res0, stv⟩ := pr1
            obtain ⟨r2, h2⟩ := pr2
            subst hend1
            subst hend2
            obtain ⟨hroot0, fM, M, hexM, hsubM, hndM, hagM⟩ :=
              ih st nref0.left value res0 stv fI TL vn hrec hTL hndTL hgv hvl hvr
                (fun hm => hvT (mem_addrs_left hm))
            have hptrM : ptr ∉ M.addrs := fun hm => by
              rcases hsubM ptr hm with he | hm2
              · exact hvptr he.symm
              · exact hpTL hm2
            have hgp3 : stv.heap.get ptr = some nref0 := by
              rw [hagM ptr hpTL (Ne.symm hvptr)]
              exact hgp
            have hgp4 : (stv.heap.setLeft ptr (some res0)).get ptr =
                some { nref0 with left := some res0 } :=
              Heap.get_setLeft_self hgp3 _
            have hexM2 : extract (stv.heap.setLeft ptr (some res0)) fM (some res0) =
                some M :=
              extract_congr hexM (fun b hb =>
                Heap.get_setLeft_ne _ _ _ (fun he => hptrM (he ▸ hb)))
            have hTR2 : extract (stv.heap.setLeft ptr (some res0)) fI nref0.right =
                some TR :=
              extract_congr hTR (fun b hb => by
                have hbptr : b ≠ ptr := fun he => hpTR (he ▸ hb)
                have hbTL : b ∉ TL.addrs := fun hm => hdisjT b hm hb
                have hbv : b ≠ value := fun he => hvT (he ▸ mem_addrs_right hb)
                rw [Heap.get_setLeft_ne _ _ _ hbptr]
                exact hagM b hbTL hbv)
            have hexP : extract (stv.heap.setLeft ptr (some res0)) (max fM fI + 1)
                (some ptr) = some (.node ptr { nref0 with left := some res0 } M TR) :=
              extract_assemble hgp4 (extract_mono hexM2 (Nat.le_max_left _ _))
                (by rw [show ({ nref0 with left := some res0 } : Node).right = nref0.right from rfl]
                    exact extract_mono hTR2 (Nat.le_max_right _ _))
            have hndP : (Tree.node ptr { nref0 with left := some res0 } M TR).addrs.Nodup := by
              refine nodup_node.mpr ⟨hptrM, hpTR, hndM, hndTR, ?_⟩
              intro b hb hm
              rcases hsubM b hb with he | hm2
              · exact hvT (mem_addrs_right (he ▸ hm))
              · exact hdisjT b hm2 hm
            obtain ⟨fR, Sq, Sp, e1, e2, s1, s2, d1, d2, agr⟩ :=
              rebalance_extract hexP hndP hreb
            refine ⟨hroot0, fR, Sq, e1, ?_, d1, ?_⟩
            · intro b hb
              rcases (by simpa [Tree.addrs] using s1 hb :
                  b = ptr ∨ b ∈ M.addrs ∨ b ∈ TR.addrs) with he | hm | hm
              · subst he
                exact Or.inr (mem_addrs_root _ _ _ _)
              · rcases hsubM b hm with he | hm2
                · exact Or.inl he
                · exact Or.inr (mem_addrs_left hm2)
              · exact Or.inr (mem_addrs_right hm)
            · intro b hb hbv
              have hbptr : b ≠ ptr :=
                fun he => hb (by rw [he]; exact mem_addrs_root _ _ _ _)
              have hbTL : b ∉ TL.addrs := fun hm => hb (mem_addrs_left hm)
              have hbTR : b ∉ TR.addrs := fun hm => hb (mem_addrs_right hm)
              have hbM : b ∉ M.addrs := fun hm => by
                rcases hsubM b hm with he | hm2
                · exact hbv he
                · exact hbTL hm2
              have hbtree : b ∉ (Tree.node ptr { nref0 with left := some res0 } M TR).addrs := by
                intro hm
                rcases (by simpa [Tree.addrs] using hm :
                    b = ptr ∨ b ∈ M.addrs ∨ b ∈ TR.addrs) with he | hx | hx
                · exact hbptr he
                · exact hbM hx
                · exact hbTR hx
              rw [agr b hbtree, Heap.get_setLeft_ne _ _ _ hbptr]
              exact hagM b hbTL hbv
          · split at H
            · simp only [bind, Option.bind_eq_some, Option.some.injEq, Prod.mk.injEq] at H
              obtain ⟨pr1, hrec, pr2, hreb, hend1, hend2⟩ := H
              obtain ⟨res0, stv⟩ := pr1
              obtain ⟨r2, h2⟩ := pr2
              subst hend1
              subst hend2
              obtain ⟨hroot0, fM, M, hexM, hsubM, hndM, hagM⟩ :=
                ih st nref0.right value res0 stv fI TR vn hrec hTR hndTR hgv hvl hvr
                  (fun hm => hvT (mem_addrs_right hm))
              have hptrM : ptr ∉ M.addrs := fun hm => by
                rcases hsubM ptr hm with he | hm2
                · exact hvptr he.symm
                · exact hpTR hm2
              have hgp3 : stv.heap.get ptr = some nref0 := by
                rw [hagM ptr hpTR (Ne.symm hvptr)]
                exact hgp
              have hgp4 : (stv.heap.setRight ptr (some res0)).get ptr =
                  some { nref0 with right := some res0 } :=
                Heap.get_setRight_self hgp3 _
              have hexM2 : extract (stv.heap.setRight ptr (some res0)) fM (some res0) =
                  some M :=
                extract_congr hexM (fun b hb =>
                  Heap.get_setRight_ne _ _ _ (fun he => hptrM (he ▸ hb)))
              have hTL2 : extract (stv.heap.setRight ptr (some res0)) fI nref0.left =
                  some TL :=
                extract_congr hTL (fun b hb => by
                  have hbptr : b ≠ ptr := fun he => hpTL (he ▸ hb)
                  have hbTR : b ∉ TR.addrs := fun hm => hdisjT b hb hm
                  have hbv : b ≠ value := fun he => hvT (he ▸ mem_addrs_left hb)
                  rw [Heap.get_setRight_ne _ _ _ hbptr]
                  exact hagM b hbTR hbv)
              have hexP : extract (stv.heap.setRight ptr (some res0)) (max fM fI + 1)
                  (some ptr) = some (.node ptr { nref0 with right := some res0 } TL M) :=
                extract_assemble hgp4
                  (by rw [show ({ nref0 with right := some res0 } : Node).left = nref0.left from rfl]
                      exact extract_mono hTL2 (Nat.le_max_right _ _))
                  (extract_mono hexM2 (Nat.le_max_left _ _))
              have hndP : (Tree.node ptr { nref0 with right := some res0 } TL M).addrs.Nodup := by
                refine nodup_node.mpr ⟨hpTL, hptrM, hndTL, hndM, ?_⟩
                intro b hb hm
                rcases hsubM b hm with he | hm2
                · exact hvT (mem_addrs_left (he ▸ hb))
                · exact hdisjT b hb hm2
              obtain ⟨fR, Sq, Sp, e1, e2, s1, s2, d1, d2, agr⟩ :=
                rebalance_extract hexP hndP hreb
              refine ⟨hroot0, fR, Sq, e1, ?_, d1, ?_⟩
              · intro b hb
                rcases (by simpa [Tree.addrs] using s1 hb :
                    b = ptr ∨ b ∈ TL.addrs ∨ b ∈ M.addrs) with he | hm | hm
                · subst he
                  exact Or.inr (mem_addrs_root _ _ _ _)
                · exact Or.inr (mem_addrs_left hm)
                · rcases hsubM b hm with he | hm2
                  · exact Or.inl he
                  · exact Or.inr (mem_addrs_right hm2)
              · intro b hb hbv
                have hbptr : b ≠ ptr :=
                  fun he => hb (by rw [he]; exact mem_addrs_root _ _ _ _)
                have hbTL : b ∉ TL.addrs := fun hm => hb (mem_addrs_left hm)
                have hbTR : b ∉ TR.addrs := fun hm => hb (mem_addrs_right hm)
                have hbM : b ∉ M.addrs := fun hm => by
                  rcases hsubM b hm with he | hm2
                  · exact hbv he
                  · exact hbTR hm2
                have hbtree : b ∉ (Tree.node ptr { nref0 with right := some res0 } TL M).addrs := by
                  intro hm
                  rcases (by simpa [Tree.addrs] using hm :
                      b = ptr ∨ b ∈ TL.addrs ∨ b ∈ M.addrs) with he | hx | hx
                  · exact hbptr he
                  · exact hbTL hx
                  · exact hbM hx
                rw [agr b hbtree, Heap.get_setRight_ne _ _ _ hbptr]
                exact hagM b hbTR hbv
            · simp only [Option.some.injEq, Prod.mk.injEq] at H
              obtain ⟨h1, h2⟩ := H
              subst h1
              subst h2
              exact ⟨rfl, fI + 1, .node ptr nref0 TL TR, hex,
                fun b hb => Or.inr hb, hnd, fun b hb hbv => Eq.refl _⟩

/-- `insert_node` preserves extraction when the inserted node is live,
childless and fresh: the new reachable tree extracts, over the old
addresses plus the inserted one, without duplicates. -/
theorem insert_node_extract {fuel : Nat} {st : AVLState} {value : Nat}
    {st2 : AVLState} {f : Nat} {T : Tree} {vn : Node}
    (H : insert_node fuel st value = some st2)
    (hex : extract st.heap f st.root = some T) (hnd : T.addrs.Nodup)
    (hgv : st.heap.get value = some vn) (hvl : vn.left = none)
    (hvr : vn.right = none) (hvT : value ∉ T.addrs) :
    ∃ f2 T2, extract st2.heap f2 st2.root = some T2 ∧
      (∀ b, b ∈ T2.addrs → b = value ∨ b ∈ T.addrs) ∧ T2.addrs.Nodup := by
  unfold insert_node at H
  simp only [bind, Option.bind_eq_some, Option.some.injEq] at H
  obtain ⟨pr, hre, hst2⟩ := H
  obtain ⟨res1, st1⟩ := pr
  obtain ⟨hroot1, f2, T2, hexT2, hsubT2, hndT2, hagT2⟩ :=
    reinsert_extract fuel st st.root value res1 st1 f T vn hre hex hnd hgv hvl hvr hvT
  subst hst2
  exact ⟨f2, T2, hexT2, hsubT2, hndT2⟩

/-- `dealloc` preserves extraction when the word it mistakes for the
node pointer (the recovered header's `size` field) happens to name a
live, childless node outside the tree: the new reachable tree extracts
without duplicates. -/
theorem dealloc_extract {fuel : Nat} {st : AVLState} {p : Nat} {st2 : AVLState}
    {f : Nat} {T : Tree} {hdr vn : Node}
    (H : dealloc fuel st p = some st2)
    (hex : extract st.heap f st.root = some T) (hnd : T.addrs.Nodup)
    (hghdr : st.heap.get (p - avlHeaderSize) = some hdr)
    (hgv : st.heap.get hdr.size = some vn) (hvl : vn.left = none)
    (hvr : vn.right = none) (hvT : hdr.size ∉ T.addrs) :
    ∃ f2 T2, extract st2.heap f2 st2.root = some T2 ∧
      (∀ b, b ∈ T2.addrs → b = hdr.size ∨ b ∈ T.addrs) ∧ T2.addrs.Nodup := by
  unfold dealloc at H
  split at H
  · exact Option.noConfusion H
  · simp only [bind, Option.bind_eq_some] at H
    obtain ⟨hdr2, hg2, H⟩ := H
    rw [hghdr] at hg2
    have hne := Option.some.inj hg2
    subst hne
    exact insert_node_extract H hex hnd hgv hvl hvr hvT


/-- C9: no persisted self-loops.  Starting from a state whose reachable
tree extracts with distinct addresses and the BST ordering, every
completed public operation — `remove`, `insert_node` (of a live,
childless node not already in the tree), `alloc` (with fresh mapped
addresses), `dealloc` and `realloc` (when the word each mistakes for
the node pointer names a live, childless node outside the tree) —
leaves a state whose reachable tree again extracts, and every
extracted tree is free of self-loops: extraction spends fuel per level,
so a reachable node whose `left` or `right` named itself could not
extract.  In particular the transient self-reference created by
`swap_nodes` during deletion never survives the operation. -/
theorem C9_no_persisted_self_loops {st : AVLState} {f : Nat} {T : Tree}
    (hex : extract st.heap f st.root = some T)
    (hnd : T.addrs.Nodup) (hbst : T.bstOK = true) :
    (∀ fuel v res st2, remove fuel st v = some (res, st2) →
        ∃ f2 T2, extract st2.heap f2 st2.root = some T2 ∧
          T2.selfLoopFree = true) ∧
    (∀ fuel v vn st2, insert_node fuel st v = some st2 →
        st.heap.get v = some vn → vn.left = none → vn.right = none →
        v ∉ T.addrs →
        ∃ f2 T2, extract st2.heap f2 st2.root = some T2 ∧
          T2.selfLoopFree = true) ∧
    (∀ reqMem fuel layout p st2, alloc reqMem fuel st layout = some (p, st2) →
        (∀ len, reqMem len ∉ T.addrs) →
        ∃ f2 T2, extract st2.heap f2 st2.root = some T2 ∧
          T2.selfLoopFree = true) ∧
    (∀ fuel p hdr vn st2, dealloc fuel st p = some st2 →
        st.heap.get (p - avlHeaderSize) = some hdr →
        st.heap.get hdr.size = some vn → vn.left = none → vn.right = none →
        hdr.size ∉ T.addrs →
        ∃ f2 T2, extract st2.heap f2 st2.root = some T2 ∧
          T2.selfLoopFree = true) ∧
    (∀ stdAlloc fuel p layout nsz hdr vn q st2,
        realloc stdAlloc fuel st p layout nsz = some (q, st2) →
        st.heap.get (p - avlHeaderSize) = some hdr →
        st.heap.get hdr.size = some vn → vn.left = none → vn.right = none →
        hdr.size ∉ T.addrs →
        ∃ f2 T2, extract st2.heap f2 st2.root = some T2 ∧
          T2.selfLoopFree = true) := by
  refine ⟨?_, ?_, ?_, ?_, ?_⟩
  · intro fuel v res st2 H
    obtain ⟨f2, T2, hexT2, _, _, _⟩ := remove_extract H hex hnd hbst
    exact ⟨f2, T2, hexT2, extract_selfLoopFree hexT2⟩
  · intro fuel v vn st2 H hgv hvl hvr hvT
    obtain ⟨f2, T2, hexT2, _, _⟩ := insert_node_extract H hex hnd hgv hvl hvr hvT
    exact ⟨f2, T2, hexT2, extract_selfLoopFree hexT2⟩
  · intro reqMem fuel layout p st2 H hfresh
    unfold alloc at H
    simp only [bind, Option.bind_eq_some, Option.some.injEq] at H
    obtain ⟨pr, hrem, H⟩ := H
    obtain ⟨res, st1⟩ := pr
    obtain ⟨f2, T2, hexT2, hsubT2, hndT2, hag⟩ := remove_extract hrem hex hnd hbst
    cases res <;> dsimp only at H
    · simp only [Node.new] at H
      rw [Heap.get_set_self] at H
      simp only [Option.some_bind, Option.some.injEq, Prod.mk.injEq] at H
      obtain ⟨hp, hst⟩ := H
      subst hst
      have hexT3 : extract
          (st1.heap.set (reqMem (mmapRequestLen layout))
            { size := mmapRequestLen layout - avlHeaderSize, height := 1,
              left := none, right := none,
              data := reqMem (mmapRequestLen layout) + (avlHeaderLayout.extend layout).2 })
          f2 st1.root = some T2 :=
        extract_congr hexT2 (fun b hb =>
          Heap.get_set_ne _ _ _ _
            (fun he => hfresh (mmapRequestLen layout) (he ▸ hsubT2 hb)))
      exact ⟨f2, T2, hexT3, extract_selfLoopFree hexT3⟩
    · simp only [Option.bind_eq_some, Option.some.injEq, Prod.mk.injEq] at H
      obtain ⟨n, hgn, hp, hst⟩ := H
      subst hst
      exact ⟨f2, T2, hexT2, extract_selfLoopFree hexT2⟩
  · intro fuel p hdr vn st2 H hghdr hgv hvl hvr hvT
    obtain ⟨f2, T2, hexT2, _, _⟩ := dealloc_extract H hex hnd hghdr hgv hvl hvr hvT
    exact ⟨f2, T2, hexT2, extract_selfLoopFree hexT2⟩
  · intro stdAlloc fuel p layout nsz hdr vn q st2 H hghdr hgv hvl hvr hvT
    unfold realloc at H
    split at H
    · exact Option.noConfusion H
    · simp only [bind, Option.bind_eq_some] at H
      obtain ⟨hdr2, hg2, nref, hgn, H⟩ := H
      rw [hghdr] at hg2
      have hne := Option.some.inj hg2
      subst hne
      rw [hgv] at hgn
      have hne2 := Option.some.inj hgn
      subst hne2
      split at H
      · simp only [Option.some.injEq, Prod.mk.injEq] at H
        obtain ⟨hq, hst⟩ := H
        subst hst
        exact ⟨f, T, hex, extract_selfLoopFree hex⟩
      · split at H
        · simp only [Option.some.injEq, Prod.mk.injEq] at H
          obtain ⟨hq, hst⟩ := H
          subst hst
          exact ⟨f, T, hex, extract_selfLoopFree hex⟩
        · simp only [bind, Option.bind_eq_some, Option.some.injEq, Prod.mk.injEq] at H
          obtain ⟨st3, hde, hq, hst⟩ := H
          subst hst
          obtain ⟨f2, T2, hexT2, _, _⟩ :=
            dealloc_extract hde hex hnd hghdr hgv hvl hvr hvT
          exact ⟨f2, T2, hexT2, extract_selfLoopFree hexT2⟩

/-- Witness for C9: on the one-node index `exB` (capacity 10 at address
1000), the exact-fit removal `remove 2 exB 10` completes, and the
resulting state's reachable tree (empty) extracts self-loop-free. -/
theorem C9_no_persisted_self_loops_witness :
    ∃ f2 T2, extract (⟨⟨[(1000, ⟨10, 1, none, none, 1032⟩)]⟩, none⟩ : AVLState).heap f2
        (⟨⟨[(1000, ⟨10, 1, none, none, 1032⟩)]⟩, none⟩ : AVLState).root = some T2 ∧
      T2.selfLoopFree = true :=
  (@C9_no_persisted_self_loops exB 2
      (.node 1000 ⟨10, 1, none, none, 1032⟩ .leaf .leaf)
      (by rfl) (by decide) (by rfl)).1 2 10 (some 1000)
    ⟨⟨[(1000, ⟨10, 1, none, none, 1032⟩)]⟩, none⟩ (by rfl)

end AllocExpr
